import Mathlib

/-!
# Asset management service: ledger, transfers and the transfer executor

A shallow embedding of the Go packages `internal/asset`, `internal/transaction`
and `internal/transaction/scheduler`.

* Amounts (`float64` in Go) are exact rationals.
* Identifiers (`uint`) are natural numbers; no arithmetic is performed on them.
* Instants (`time.Time`) are integers counted from Go's zero instant, so
  `IsZero` is equality with `0`.
* The database behind `*gorm.DB` is a pair of row lists (committed rows) plus,
  while a transaction is open, the rows as that transaction sees them.  A call
  that is handed the transaction handle works on the transaction's rows; a call
  that goes through the repository's own handle `r.db` works on the committed
  rows.
* Every call to the store or to the wallet directory is appended to a call
  trace; the answer of the outside world to the `k`-th call (a store failure,
  the directory's reply) is read from an `Env` at index `k`.
* The `CreatedAt`/`UpdatedAt` columns are not modelled.
-/

/-- Results of fallible calls can be compared. -/
instance {ε α : Type} [DecidableEq ε] [DecidableEq α] : DecidableEq (Except ε α) := fun a b =>
  match a, b with
  | .ok x, .ok y => if h : x = y then isTrue (by rw [h]) else isFalse (by intro h1; cases h1; exact h rfl)
  | .error x, .error y =>
    if h : x = y then isTrue (by rw [h]) else isFalse (by intro h1; cases h1; exact h rfl)
  | .ok _, .error _ => isFalse (by intro h; cases h)
  | .error _, .ok _ => isFalse (by intro h; cases h)

/-- Instants of `time.Time`, counted from the zero instant. -/
abbrev Time := Int

/-- An error reported by the database driver.  `duplicateKey` stands for every
driver error whose text contains "duplicate key". -/
inductive DBError where
  | duplicateKey
  | other (msg : String)
deriving DecidableEq, Repr

/-- Go `error` values met in the core: the sentinel errors of the packages,
`errors.New` values, and driver errors passed through unchanged. -/
inductive Error where
  | ErrWalletNotFound
  | ErrDuplicateAsset
  | ErrTransactionNotFound
  | ErrTransactionCannotBeDeleted
  | ErrAssetNotFound
  | ErrInsufficientBalance
  | New (msg : String)
  | db (e : DBError)
deriving DecidableEq, Repr

namespace wallet

/-- Modelled from the spec: the `entity.Wallet` of the wallet client is declared in
a file that is not among the sources; the tests build it as `Wallet{ID: 1}` and
the core reads only `ID`, the wallet metadata the directory returns. -/
structure Wallet where
  ID : Nat
deriving DecidableEq, Repr

end wallet

namespace asset

/-- The `entity.Asset` of package `asset`. -/
structure Asset where
  ID : Nat
  WalletID : Nat
  Name : String
  Amount : ℚ
deriving DecidableEq

/-- The `entity.Filters` of package `asset`. -/
structure Filters where
  ID : List Nat := []
  Name : List String := []
  WalletID : List Nat := []
deriving DecidableEq

/-- The row predicate built by `repository.GetAsset`: each non-empty filter
field adds an `IN` condition. -/
def Filters.admits (f : Filters) (a : Asset) : Bool :=
  (f.ID.isEmpty || f.ID.contains a.ID) &&
  (f.Name.isEmpty || f.Name.contains a.Name) &&
  (f.WalletID.isEmpty || f.WalletID.contains a.WalletID)

end asset

namespace transaction

/-- The string type `entity.TransactionStatus`. -/
abbrev TransactionStatus := String

def TransactionCompleted : TransactionStatus := "completed"
def TransactionFailed : TransactionStatus := "failed"
def TransactionPending : TransactionStatus := "pending"
def TransactionCancelled : TransactionStatus := "cancelled"

/-- The `entity.Transaction` of package `transaction` (table
`scheduled_transactions`). -/
structure Transaction where
  ID : Nat
  SourceWalletID : Nat
  DestinationWalletID : Nat
  AssetName : String
  Amount : ℚ
  Status : TransactionStatus
  ScheduledAt : Time
deriving DecidableEq

/-- The `entity.Filters` of package `transaction`. -/
structure Filters where
  ID : List Nat := []
  SourceWalletID : List Nat := []
  DestinationWalletID : List Nat := []
  Status : List String := []
  ScheduledStart : Time := 0
  ScheduledEnd : Time := 0
deriving DecidableEq

/-- The row predicate built by `repository.GetTransactions`. -/
def Filters.admits (f : Filters) (t : Transaction) : Bool :=
  (f.ID.isEmpty || f.ID.contains t.ID) &&
  (f.SourceWalletID.isEmpty || f.SourceWalletID.contains t.SourceWalletID) &&
  (f.DestinationWalletID.isEmpty || f.DestinationWalletID.contains t.DestinationWalletID) &&
  (f.Status.isEmpty || f.Status.contains t.Status) &&
  (f.ScheduledStart == 0 || decide (f.ScheduledStart ≤ t.ScheduledAt)) &&
  (f.ScheduledEnd == 0 || decide (t.ScheduledAt ≤ f.ScheduledEnd))

end transaction

/-! ## The outside world: store, call trace, log -/

/-- The two tables of the database. -/
structure Tables where
  assets : List asset.Asset
  transactions : List transaction.Transaction
deriving DecidableEq

/-- One call made by the core to the wallet directory, to the store, or to the
clock.  The flag `tx` of a store write tells whether the call was handed a
transaction handle (`true`) or `nil` (`false`). -/
inductive Call where
  | GetWallet (id : Nat)
  | GetAsset (filters : asset.Filters)
  | CreateAsset (tx : Bool) (item : asset.Asset)
  | UpdateAsset (tx : Bool) (item : asset.Asset)
  | GetTransactions (filters : transaction.Filters)
  | CreateTransaction (tx : Bool) (item : transaction.Transaction)
  | UpdateTransaction (tx : Bool) (item : transaction.Transaction)
  | DeleteTransaction (tx : Bool) (id : Nat)
  | Begin
  | Commit
  | Rollback
  | Sleep (seconds : Int)
deriving DecidableEq

/-- A line written through `log.Logger`. -/
inductive LogEntry where
  | Info (msg : String)
  | InfoID (msg : String) (id : Nat)
  | Error (msg : String) (err : Error)
deriving DecidableEq

/-- What the environment answers to the `k`-th call of a run: `fault k` is the
driver error of a store call made as call number `k` (`none`: the store
performs the call), `GetWallet k id` the reply of the wallet directory to
`GetWallet(id)` made as call number `k`. -/
structure Env where
  fault : Nat → Option DBError
  GetWallet : Nat → Nat → Except Error wallet.Wallet

/-- State of the world around the services. -/
structure World where
  /-- committed rows, what a query through `r.db` sees -/
  db : Tables
  /-- rows as seen by the open transaction, `none` when no transaction is open -/
  tx : Option Tables
  /-- last value handed out by the id sequence of table `assets` -/
  assetSeq : Nat
  /-- last value handed out by the id sequence of table `scheduled_transactions` -/
  transactionSeq : Nat
  /-- calls made so far, oldest first -/
  trace : List Call
  /-- lines logged so far, oldest first -/
  log : List LogEntry
deriving DecidableEq

/-- Append a call to the trace. -/
def World.record (w : World) (c : Call) : World :=
  { w with trace := w.trace ++ [c] }

/-- Append a line to the log. -/
def World.logLine (w : World) (l : LogEntry) : World :=
  { w with log := w.log ++ [l] }

/-- The rows a store write works on: the committed rows for a `nil` handle,
the rows of the open transaction for a transaction handle (`none` when the
handle is stale: no transaction is open). -/
def World.target (w : World) (tx : Bool) : Option Tables :=
  if tx then w.tx else some w.db

/-- Write back the rows a store write worked on. -/
def World.setTarget (w : World) (tx : Bool) (t : Tables) : World :=
  if tx then { w with tx := some t } else { w with db := t }

/-- The driver error for a handle whose transaction is already finished. -/
def txDone : DBError := DBError.other "sql: transaction has already been committed or rolled back"

namespace wallet

/-- Modelled from the spec: `ErrWalletNotFound` of package `wallet` is declared in a
file that is not among the sources; it is the "not found" answer of the wallet
directory. -/
def ErrWalletNotFound : Error := Error.ErrWalletNotFound

/-- The call `GetWallet(ctx, id)` of the wallet client: the directory is asked over
the network; its answer is what the environment holds for this call. -/
def GetWallet (env : Env) (id : Nat) (w : World) : Except Error Wallet × World :=
  (env.GetWallet w.trace.length id, w.record (Call.GetWallet id))

end wallet

/-! ## The store behind `*gorm.DB`

The gorm calls the repositories make.  Each call is recorded in the trace and
fails with the driver error the environment injects at its index, if any. -/

namespace gorm

/-- The id an `INSERT` gives a row: the next sequence value when the item comes
without id, the item's own id otherwise. -/
def newID (seq id : Nat) : Nat := if id = 0 then seq + 1 else id

/-- The sequence after an `INSERT` of an item with the given id. -/
def newSeq (seq id : Nat) : Nat := if id = 0 then seq + 1 else seq

/-- Modelled from the spec: the schema of table `assets` is not part of the
sources; the spec gives it a surrogate primary key and a uniqueness constraint
on (wallet id, asset name).  An `INSERT` of `row` violates a constraint when a
stored row has the same id or the same pair. -/
def assetConflict (rows : List asset.Asset) (row : asset.Asset) : Bool :=
  rows.any (fun r => r.ID == row.ID || (r.WalletID == row.WalletID && r.Name == row.Name))

/-- Insertion `Create(item)` on table `assets`; returns the item with its id filled in. -/
def CreateAsset (env : Env) (tx : Bool) (item : asset.Asset) (w : World) :
    Except DBError asset.Asset × World :=
  let w1 := w.record (Call.CreateAsset tx item)
  match env.fault w.trace.length with
  | some e => (.error e, w1)
  | none =>
    match w1.target tx with
    | none => (.error txDone, w1)
    | some t =>
      let row : asset.Asset := { item with ID := newID w1.assetSeq item.ID }
      let w2 : World := { w1 with assetSeq := newSeq w1.assetSeq item.ID }
      if assetConflict t.assets row then (.error DBError.duplicateKey, w2)
      else (.ok row, w2.setTarget tx { t with assets := t.assets ++ [row] })

/-- Replace the stored row carrying the item's id, or add the item when no row carries it. -/
def upsertAsset (rows : List asset.Asset) (item : asset.Asset) : List asset.Asset :=
  if rows.any (fun r => r.ID == item.ID) then
    rows.map (fun r => if r.ID = item.ID then item else r)
  else rows ++ [item]

/-- The upsert `Save(item)` on table `assets`: an item without id is inserted as by
`Create`; otherwise the row with the item's id is overwritten with all fields
of the item, or inserted when there is no such row. -/
def SaveAsset (env : Env) (tx : Bool) (item : asset.Asset) (w : World) :
    Except DBError Unit × World :=
  let w1 := w.record (Call.UpdateAsset tx item)
  match env.fault w.trace.length with
  | some e => (.error e, w1)
  | none =>
    match w1.target tx with
    | none => (.error txDone, w1)
    | some t =>
      if item.ID = 0 then
        let row : asset.Asset := { item with ID := w1.assetSeq + 1 }
        let w2 : World := { w1 with assetSeq := w1.assetSeq + 1 }
        if assetConflict t.assets row then (.error DBError.duplicateKey, w2)
        else (.ok (), w2.setTarget tx { t with assets := t.assets ++ [row] })
      else (.ok (), w1.setTarget tx { t with assets := upsertAsset t.assets item })

/-- The query `Find` on table `assets` through the repository's own handle: the
committed rows the filter admits, in stored order. -/
def FindAssets (env : Env) (filters : asset.Filters) (w : World) :
    Except DBError (List asset.Asset) × World :=
  let w1 := w.record (Call.GetAsset filters)
  match env.fault w.trace.length with
  | some e => (.error e, w1)
  | none => (.ok (w.db.assets.filter filters.admits), w1)

/-- A primary-key clash on table `scheduled_transactions`. -/
def transactionConflict (rows : List transaction.Transaction) (row : transaction.Transaction) :
    Bool :=
  rows.any (fun r => r.ID == row.ID)

/-- Insertion `Create(entity)` on table `scheduled_transactions`. -/
def CreateTransaction (env : Env) (tx : Bool) (item : transaction.Transaction) (w : World) :
    Except DBError transaction.Transaction × World :=
  let w1 := w.record (Call.CreateTransaction tx item)
  match env.fault w.trace.length with
  | some e => (.error e, w1)
  | none =>
    match w1.target tx with
    | none => (.error txDone, w1)
    | some t =>
      let row : transaction.Transaction := { item with ID := newID w1.transactionSeq item.ID }
      let w2 : World := { w1 with transactionSeq := newSeq w1.transactionSeq item.ID }
      if transactionConflict t.transactions row then (.error DBError.duplicateKey, w2)
      else (.ok row, w2.setTarget tx { t with transactions := t.transactions ++ [row] })

/-- Replace the stored transfer carrying the item's id, or add the item. -/
def upsertTransaction (rows : List transaction.Transaction) (item : transaction.Transaction) :
    List transaction.Transaction :=
  if rows.any (fun r => r.ID == item.ID) then
    rows.map (fun r => if r.ID = item.ID then item else r)
  else rows ++ [item]

/-- The upsert `Save(item)` on table `scheduled_transactions`. -/
def SaveTransaction (env : Env) (tx : Bool) (item : transaction.Transaction) (w : World) :
    Except DBError Unit × World :=
  let w1 := w.record (Call.UpdateTransaction tx item)
  match env.fault w.trace.length with
  | some e => (.error e, w1)
  | none =>
    match w1.target tx with
    | none => (.error txDone, w1)
    | some t =>
      if item.ID = 0 then
        let row : transaction.Transaction := { item with ID := w1.transactionSeq + 1 }
        let w2 : World := { w1 with transactionSeq := w1.transactionSeq + 1 }
        if transactionConflict t.transactions row then (.error DBError.duplicateKey, w2)
        else (.ok (), w2.setTarget tx { t with transactions := t.transactions ++ [row] })
      else (.ok (), w1.setTarget tx { t with transactions := upsertTransaction t.transactions item })

/-- The query `Find` on table `scheduled_transactions` through the repository's own handle. -/
def FindTransactions (env : Env) (filters : transaction.Filters) (w : World) :
    Except DBError (List transaction.Transaction) × World :=
  let w1 := w.record (Call.GetTransactions filters)
  match env.fault w.trace.length with
  | some e => (.error e, w1)
  | none => (.ok (w.db.transactions.filter filters.admits), w1)

/-- The deletion `Delete(&entity.Transaction{}, id)`. -/
def DeleteTransaction (env : Env) (tx : Bool) (id : Nat) (w : World) :
    Except DBError Unit × World :=
  let w1 := w.record (Call.DeleteTransaction tx id)
  match env.fault w.trace.length with
  | some e => (.error e, w1)
  | none =>
    match w1.target tx with
    | none => (.error txDone, w1)
    | some t =>
      (.ok (), w1.setTarget tx { t with transactions := t.transactions.filter (fun r => r.ID != id) })

/-- Open a transaction with `Begin()`: it starts from the committed rows. -/
def Begin (env : Env) (w : World) : Except DBError Unit × World :=
  let w1 := w.record Call.Begin
  match env.fault w.trace.length with
  | some e => (.error e, w1)
  | none => (.ok (), { w1 with tx := some w1.db })

/-- Undo with `Rollback()`: the rows of the transaction are dropped.  The code
ignores its result. -/
def Rollback (w : World) : World :=
  { w.record Call.Rollback with tx := none }

/-- Finish with `Commit()`: the rows of the transaction become the committed rows; a
failed commit drops them. -/
def Commit (env : Env) (w : World) : Except DBError Unit × World :=
  let w1 := w.record Call.Commit
  match env.fault w.trace.length with
  | some e => (.error e, { w1 with tx := none })
  | none =>
    match w1.tx with
    | none => (.error txDone, w1)
    | some t => (.ok (), { w1 with db := t, tx := none })

end gorm

/-! ## Package `asset` -/

namespace asset

/-- Modelled from the spec: `ErrDuplicateAsset` is declared in a file of package
`asset` that is not among the sources; it is the spec's `DuplicateBalance`, the
error of a creation attempt for a pair that already has a record. -/
def ErrDuplicateAsset : Error := Error.ErrDuplicateAsset

/-- The three request types carry the same fields. -/
structure CreateAssetRequest where
  WalletID : Nat
  Name : String
  Amount : ℚ
deriving DecidableEq

structure CreateDepositRequest where
  WalletID : Nat
  Name : String
  Amount : ℚ
deriving DecidableEq

structure CreateWithdrawRequest where
  WalletID : Nat
  Name : String
  Amount : ℚ
deriving DecidableEq

namespace repository

/-- `repository.CreateAsset`: a driver error containing "duplicate key" becomes
`ErrDuplicateAsset`, any other is returned as it is. -/
def CreateAsset (env : Env) (tx : Bool) (item : Asset) (w : World) : Except Error Asset × World :=
  match gorm.CreateAsset env tx item w with
  | (.error e, w1) =>
    if e = DBError.duplicateKey then (.error ErrDuplicateAsset, w1) else (.error (Error.db e), w1)
  | (.ok row, w1) => (.ok row, w1)

/-- `repository.GetAsset`: always queries through `r.db`. -/
def GetAsset (env : Env) (filters : Filters) (w : World) : Except Error (List Asset) × World :=
  match gorm.FindAssets env filters w with
  | (.error e, w1) => (.error (Error.db e), w1)
  | (.ok rows, w1) => (.ok rows, w1)

/-- `repository.UpdateAsset`. -/
def UpdateAsset (env : Env) (tx : Bool) (item : Asset) (w : World) : Except Error Unit × World :=
  match gorm.SaveAsset env tx item w with
  | (.error e, w1) => (.error (Error.db e), w1)
  | (.ok _, w1) => (.ok (), w1)

end repository

namespace service

/-- `service.CreateAsset`. -/
def CreateAsset (env : Env) (tx : Bool) (request : CreateAssetRequest) (w : World) :
    Except Error Asset × World :=
  repository.CreateAsset env tx
    { ID := 0, WalletID := request.WalletID, Name := request.Name, Amount := request.Amount } w

/-- `service.Deposit`. -/
def Deposit (env : Env) (tx : Bool) (request : CreateDepositRequest) (w : World) :
    Except Error Asset × World :=
  match wallet.GetWallet env request.WalletID w with
  | (.error err, w1) => (.error err, w1)
  | (.ok wl, w1) =>
    match repository.GetAsset env { Name := [request.Name], WalletID := [request.WalletID] } w1 with
    | (.error err, w2) => (.error err, w2)
    | (.ok assets, w2) =>
      let found : Except Error Asset × World :=
        match assets with
        | [] => repository.CreateAsset env tx
                  { ID := 0, WalletID := wl.ID, Name := request.Name, Amount := 0 } w2
        | a :: _ => (.ok a, w2)
      match found with
      | (.error err, w3) => (.error err, w3)
      | (.ok assetEntity, w3) =>
        let assetEntity : Asset := { assetEntity with Amount := assetEntity.Amount + request.Amount }
        match repository.UpdateAsset env tx assetEntity w3 with
        | (.error err, w4) => (.error err, w4)
        | (.ok _, w4) => (.ok assetEntity, w4)

/-- `service.Withdraw`. -/
def Withdraw (env : Env) (tx : Bool) (request : CreateWithdrawRequest) (w : World) :
    Except Error Asset × World :=
  match wallet.GetWallet env request.WalletID w with
  | (.error err, w1) => (.error err, w1)
  | (.ok wl, w1) =>
    match repository.GetAsset env { Name := [request.Name], WalletID := [request.WalletID] } w1 with
    | (.error err, w2) => (.error err, w2)
    | (.ok assets, w2) =>
      let found : Except Error Asset × World :=
        match assets with
        | [] => repository.CreateAsset env tx
                  { ID := 0, WalletID := wl.ID, Name := request.Name, Amount := 0 } w2
        | a :: _ => (.ok a, w2)
      match found with
      | (.error err, w3) => (.error err, w3)
      | (.ok assetEntity, w3) =>
        if assetEntity.Amount < request.Amount then
          (.error (Error.New "amount is not enough to withdraw"), w3)
        else
          let assetEntity : Asset :=
            { assetEntity with Amount := assetEntity.Amount - request.Amount }
          match repository.UpdateAsset env tx assetEntity w3 with
          | (.error err, w4) => (.error err, w4)
          | (.ok _, w4) => (.ok assetEntity, w4)

end service
end asset

/-! ## Package `transaction` -/

/-- Result of a Go call that can end in a run-time panic instead of returning. -/
inductive Panics (α : Type) where
  | returns (a : α)
  | panics (msg : String)
deriving DecidableEq

namespace transaction

def ErrTransactionNotFound : Error := Error.ErrTransactionNotFound
def ErrTransactionCannotBeDeleted : Error := Error.ErrTransactionCannotBeDeleted
def ErrAssetNotFound : Error := Error.ErrAssetNotFound
def ErrInsufficientBalance : Error := Error.ErrInsufficientBalance

structure ScheduleTransactionRequest where
  SourceWalletID : Nat
  DestinationWalletID : Nat
  AssetName : String
  Amount : ℚ
  ScheduledAt : Time
deriving DecidableEq

namespace repository

/-- `repository.CreateTransaction`. -/
def CreateTransaction (env : Env) (tx : Bool) (item : Transaction) (w : World) :
    Except Error Transaction × World :=
  match gorm.CreateTransaction env tx item w with
  | (.error e, w1) => (.error (Error.db e), w1)
  | (.ok row, w1) => (.ok row, w1)

/-- `repository.GetTransactions`: always queries through `r.db`. -/
def GetTransactions (env : Env) (filters : Filters) (w : World) :
    Except Error (List Transaction) × World :=
  match gorm.FindTransactions env filters w with
  | (.error e, w1) => (.error (Error.db e), w1)
  | (.ok rows, w1) => (.ok rows, w1)

/-- `repository.DeleteTransaction`. -/
def DeleteTransaction (env : Env) (tx : Bool) (id : Nat) (w : World) : Except Error Unit × World :=
  match gorm.DeleteTransaction env tx id w with
  | (.error e, w1) => (.error (Error.db e), w1)
  | (.ok _, w1) => (.ok (), w1)

/-- `repository.UpdateTransaction`. -/
def UpdateTransaction (env : Env) (tx : Bool) (item : Transaction) (w : World) :
    Except Error Unit × World :=
  match gorm.SaveTransaction env tx item w with
  | (.error e, w1) => (.error (Error.db e), w1)
  | (.ok _, w1) => (.ok (), w1)

/-- `repository.InTransaction`: begin, run `fn` with the transaction handle, roll
back when `fn` returns an error, commit otherwise. -/
def InTransaction (env : Env) (fn : Bool → World → Except Error Unit × World) (w : World) :
    Except Error Unit × World :=
  match gorm.Begin env w with
  | (.error e, w1) => (.error (Error.db e), w1)
  | (.ok _, w1) =>
    match fn true w1 with
    | (.error err, w2) => (.error err, gorm.Rollback w2)
    | (.ok _, w2) =>
      match gorm.Commit env w2 with
      | (.error e, w3) => (.error (Error.db e), w3)
      | (.ok _, w3) => (.ok (), w3)

end repository

namespace service

/-- The loop of `ScheduleTransaction` that picks the source balance: the last
returned row whose wallet id is the source wallet id, `nil` when there is none. -/
def sourceAsset (assets : List asset.Asset) (sourceWalletID : Nat) : Option asset.Asset :=
  assets.foldl (fun found a => if a.WalletID = sourceWalletID then some a else found) none

/-- `service.ScheduleTransaction`. -/
def ScheduleTransaction (env : Env) (request : ScheduleTransactionRequest) (w : World) :
    Panics (Except Error Transaction) × World :=
  match wallet.GetWallet env request.SourceWalletID w with
  | (.error err, w1) => (.returns (.error err), w1)
  | (.ok _, w1) =>
    match wallet.GetWallet env request.DestinationWalletID w1 with
    | (.error err, w2) => (.returns (.error err), w2)
    | (.ok _, w2) =>
      match asset.repository.GetAsset env
          { Name := [request.AssetName],
            WalletID := [request.SourceWalletID, request.DestinationWalletID] } w2 with
      | (.error err, w3) => (.returns (.error err), w3)
      | (.ok assets, w3) =>
        if assets.length < 2 then (.returns (.error ErrAssetNotFound), w3)
        else
          match sourceAsset assets request.SourceWalletID with
          | none => (.panics "invalid memory address or nil pointer dereference", w3)
          | some src =>
            if src.Amount < request.Amount then (.returns (.error ErrInsufficientBalance), w3)
            else
              match repository.CreateTransaction env false
                  { ID := 0,
                    SourceWalletID := request.SourceWalletID,
                    DestinationWalletID := request.DestinationWalletID,
                    Amount := request.Amount,
                    AssetName := request.AssetName,
                    Status := TransactionPending,
                    ScheduledAt := request.ScheduledAt } w3 with
              | (r, w4) => (.returns r, w4)

/-- `service.CancelTransaction`; `none` is Go's `nil` error. -/
def CancelTransaction (env : Env) (id : Nat) (w : World) : Option Error × World :=
  match repository.GetTransactions env { ID := [id] } w with
  | (.error err, w1) => (some err, w1)
  | (.ok [], w1) => (some ErrTransactionNotFound, w1)
  | (.ok (t :: _), w1) =>
    if t.Status ≠ TransactionPending then (some ErrTransactionCannotBeDeleted, w1)
    else
      match repository.UpdateTransaction env false { t with Status := TransactionCancelled } w1 with
      | (.error err, w2) => (some err, w2)
      | (.ok _, w2) => (none, w2)

end service
end transaction

/-! ## Package `scheduler` -/

namespace scheduler

/-- The `config.SchedulerConfig`. -/
structure SchedulerConfig where
  Interval : Int

/-- The `Scheduler`; its asset service and transaction repository are the ones
defined above, as wired in `app.New`. -/
structure Scheduler where
  cfg : SchedulerConfig

/-- The function literal handed to `InTransaction` for the transfer `t`:
withdraw from the source, deposit to the destination, store `t` as completed. -/
def atomicUnit (env : Env) (t : transaction.Transaction) (tx : Bool) (w : World) :
    Except Error Unit × World :=
  match asset.service.Withdraw env tx
      { WalletID := t.SourceWalletID, Name := t.AssetName, Amount := t.Amount } w with
  | (.error err, w1) => (.error err, w1)
  | (.ok _, w1) =>
    match asset.service.Deposit env tx
        { WalletID := t.DestinationWalletID, Name := t.AssetName, Amount := t.Amount } w1 with
    | (.error err, w2) => (.error err, w2)
    | (.ok _, w2) =>
      match transaction.repository.UpdateTransaction env tx
          { t with Status := transaction.TransactionCompleted } w2 with
      | (.error err, w3) => (.error err, w3)
      | (.ok _, w3) => (.ok (), w3)

/-- Body of the loop `for _, t := range transactions` of `Scheduler.Start`. -/
def process (env : Env) (w : World) (t : transaction.Transaction) : World :=
  match transaction.repository.InTransaction env (atomicUnit env t) w with
  | (.error err, w1) => w1.logLine (LogEntry.Error "transaction failed" err)
  | (.ok _, w1) => w1.logLine (LogEntry.InfoID "transaction completed" t.ID)

/-- One pass through the body of the outer `for` of `Scheduler.Start`, the clock
reading `now`.  The flag is `true` when the pass reached the end of the body
(the loop goes round again) and `false` when `Start` returned. -/
def cycle (s : Scheduler) (env : Env) (now : Time) (w : World) : Bool × World :=
  match transaction.repository.GetTransactions env
      { Status := [transaction.TransactionPending], ScheduledEnd := now } w with
  | (.error err, w1) => (false, w1.logLine (LogEntry.Error "failed to get transactions" err))
  | (.ok transactions, w1) =>
    let w2 := if transactions.length = 0 then w1.logLine (LogEntry.Info "no pending transactions")
              else w1
    let w3 := transactions.foldl (process env) w2
    (true, w3.record (Call.Sleep s.cfg.Interval))

/-- The loop of `Scheduler.Start`, run for as many passes as there are clock
readings. -/
def loop (s : Scheduler) (env : Env) : List Time → World → Bool × World
  | [], w => (true, w)
  | now :: rest, w =>
    match cycle s env now w with
    | (false, w1) => (false, w1)
    | (true, w1) => loop s env rest w1

/-- `Scheduler.Start`, observed for as many passes as there are clock readings. -/
def Start (s : Scheduler) (env : Env) (nows : List Time) (w : World) : Bool × World :=
  loop s env nows (w.logLine (LogEntry.Info "scheduler started"))

end scheduler

/-! ## Request validation (package `request` of `asset`) -/

namespace asset

/-- The text of an ozzo-validation `Errors` value: the failing fields in
alphabetical order of their JSON names. -/
def blankFields (fields : List (String × Bool)) : String :=
  String.intercalate "; "
    ((fields.filter (fun f => f.2)).map (fun f => f.1 ++ ": cannot be blank")) ++ "."

/-- `CreateAssetRequest.Validate`: `Required` on `WalletID` and on `Name`; the
amount carries no rule.  `none` is Go's `nil` error. -/
def CreateAssetRequest.Validate (r : CreateAssetRequest) : Option Error :=
  if r.WalletID = 0 ∨ r.Name = "" then
    some (Error.New ("deposit create validation error: " ++
      blankFields [("name", r.Name == ""), ("wallet_id", r.WalletID == 0)]))
  else none

end asset

/-! ## Notions used to state the properties -/

namespace asset

/-- The filter `Deposit` and `Withdraw` build for a (wallet, name) pair. -/
def pairFilter (walletID : Nat) (name : String) : Filters :=
  { Name := [name], WalletID := [walletID] }

/-- The balance record of a pair as `Deposit` and `Withdraw` pick it from a list
of rows: the first row the pair filter admits. -/
def lookup (rows : List Asset) (walletID : Nat) (name : String) : Option Asset :=
  (rows.filter (pairFilter walletID name).admits).head?

/-- The balance of a pair in a list of rows; a pair without record counts as 0. -/
def balance (rows : List Asset) (walletID : Nat) (name : String) : ℚ :=
  match lookup rows walletID name with
  | none => 0
  | some a => a.Amount

/-- Every stored amount is non-negative. -/
def NonNegative (rows : List Asset) : Prop := ∀ a ∈ rows, 0 ≤ a.Amount

instance (rows : List Asset) : Decidable (NonNegative rows) :=
  inferInstanceAs (Decidable (∀ a ∈ rows, 0 ≤ a.Amount))

/-- A call of the ledger service on one pair, without transaction scope. -/
inductive Op where
  | deposit (amount : ℚ)
  | withdraw (amount : ℚ)
deriving DecidableEq

def Op.amount : Op → ℚ
  | .deposit a => a
  | .withdraw a => a

/-- Perform one ledger call on the pair; the flag tells whether it returned without error. -/
def Op.run (env : Env) (walletID : Nat) (name : String) (op : Op) (w : World) : Bool × World :=
  match op with
  | .deposit a =>
    match service.Deposit env false { WalletID := walletID, Name := name, Amount := a } w with
    | (.ok _, w1) => (true, w1)
    | (.error _, w1) => (false, w1)
  | .withdraw a =>
    match service.Withdraw env false { WalletID := walletID, Name := name, Amount := a } w with
    | (.ok _, w1) => (true, w1)
    | (.error _, w1) => (false, w1)

/-- The world after a sequence of ledger calls on the pair. -/
def runOps (env : Env) (walletID : Nat) (name : String) : List Op → World → World
  | [], w => w
  | op :: rest, w => runOps env walletID name rest (Op.run env walletID name op w).2

/-- What a call adds to the sum "deposits minus accepted withdraws". -/
def Op.contribution : Op → Bool → ℚ
  | .deposit a, _ => a
  | .withdraw a, true => -a
  | .withdraw _, false => 0

/-- Deposited amounts minus the amounts of the accepted withdraws, along a
sequence of ledger calls on the pair. -/
def netAmount (env : Env) (walletID : Nat) (name : String) : List Op → World → ℚ
  | [], _ => 0
  | op :: rest, w =>
    let r := Op.run env walletID name op w
    op.contribution r.1 + netAmount env walletID name rest r.2

end asset

namespace gorm

/-- Constraints the database keeps on table `assets`: ids come from the
sequence (positive, not beyond its last value) and are a primary key, and
(wallet id, name) is unique. -/
def AssetsOK (rows : List asset.Asset) (seq : Nat) : Prop :=
  (∀ a ∈ rows, 0 < a.ID ∧ a.ID ≤ seq) ∧
  (rows.map (fun a => a.ID)).Nodup ∧
  (rows.map (fun a => (a.WalletID, a.Name))).Nodup

instance (rows : List asset.Asset) (seq : Nat) : Decidable (AssetsOK rows seq) :=
  inferInstanceAs (Decidable (_ ∧ _ ∧ _))

/-- Constraints the database keeps on table `scheduled_transactions`. -/
def TransactionsOK (rows : List transaction.Transaction) (seq : Nat) : Prop :=
  (∀ t ∈ rows, 0 < t.ID ∧ t.ID ≤ seq) ∧ (rows.map (fun t => t.ID)).Nodup

instance (rows : List transaction.Transaction) (seq : Nat) : Decidable (TransactionsOK rows seq) :=
  inferInstanceAs (Decidable (_ ∧ _))

end gorm

/-- The wallet directory answers a query for `id` with the wallet of that id
whenever it answers with a wallet. -/
def Env.Faithful (env : Env) : Prop :=
  ∀ k id wl, env.GetWallet k id = .ok wl → wl.ID = id

/-- The wallet directory knows the wallet `id` throughout the run. -/
def Env.Knows (env : Env) (id : Nat) : Prop :=
  ∀ k, env.GetWallet k id = .ok { ID := id }

/-- No store call fails. -/
def Env.NoFault (env : Env) : Prop := ∀ k, env.fault k = none

namespace scheduler

/-- The filter of the poll of a cycle: pending transfers scheduled at `now` or before. -/
def dueFilter (now : Time) : transaction.Filters :=
  { Status := [transaction.TransactionPending], ScheduledEnd := now }

/-- The transfer `t` has been applied between the worlds `w` and `w1`: the source
balance of its asset is lower by its amount, the destination balance higher by
its amount, and `t` is stored as completed. -/
def Moved (t : transaction.Transaction) (w w1 : World) : Prop :=
  asset.balance w1.db.assets t.SourceWalletID t.AssetName =
    asset.balance w.db.assets t.SourceWalletID t.AssetName - t.Amount ∧
  asset.balance w1.db.assets t.DestinationWalletID t.AssetName =
    asset.balance w.db.assets t.DestinationWalletID t.AssetName + t.Amount ∧
  { t with Status := transaction.TransactionCompleted } ∈ w1.db.transactions ∧
  (∀ x ∈ w1.db.transactions, x.ID = t.ID → x.Status = transaction.TransactionCompleted)

/-- How often the executor logged the completion of the transfer `id`. -/
def completions (id : Nat) (log : List LogEntry) : Nat :=
  log.count (LogEntry.InfoID "transaction completed" id)

end scheduler

/-- An environment in which no store call fails and every wallet is known. -/
def calmEnv : Env :=
  { fault := fun _ => none, GetWallet := fun _ id => .ok { ID := id } }

/-- A world with the given committed rows and nothing else. -/
def World.ofRows (assets : List asset.Asset) (transactions : List transaction.Transaction) : World :=
  { db := { assets := assets, transactions := transactions }, tx := none,
    assetSeq := assets.length, transactionSeq := transactions.length, trace := [], log := [] }

/-! ## Sample data: the end-to-end scenarios of the specification -/

/-- A transfer of 4 "BTC" from wallet 1 to wallet 2, pending, scheduled at instant 5. -/
def sampleTransfer : transaction.Transaction :=
  { ID := 1, SourceWalletID := 1, DestinationWalletID := 2, AssetName := "BTC", Amount := 4,
    Status := transaction.TransactionPending, ScheduledAt := 5 }

/-- Wallet 1 holds 10 "BTC", wallet 2 holds 0 "BTC"; the sample transfer is stored. -/
def sampleWorld : World :=
  World.ofRows
    [{ ID := 1, WalletID := 1, Name := "BTC", Amount := 10 },
     { ID := 2, WalletID := 2, Name := "BTC", Amount := 0 }]
    [sampleTransfer]

/-- The same with only 2 "BTC" in wallet 1. -/
def shortWorld : World :=
  World.ofRows
    [{ ID := 1, WalletID := 1, Name := "BTC", Amount := 2 },
     { ID := 2, WalletID := 2, Name := "BTC", Amount := 0 }]
    [sampleTransfer]

/-- A store without rows. -/
def emptyWorld : World := World.ofRows [] []

/-- A scheduler polling every 10 seconds. -/
def sampleScheduler : scheduler.Scheduler := { cfg := { Interval := 10 } }

/-- What a call of the ledger service may change: nothing of the log, of the
transfer rows or of the transfer id sequence; with a transaction handle
nothing of the committed rows, without one nothing of the open transaction. -/
def World.LedgerStep (tx : Bool) (w w1 : World) : Prop :=
  w1.log = w.log ∧ w1.transactionSeq = w.transactionSeq ∧
  w1.db.transactions = w.db.transactions ∧
  w1.tx.map (fun t => t.transactions) = w.tx.map (fun t => t.transactions) ∧
  (tx = true → w1.db = w.db) ∧ (tx = false → w1.tx = w.tx)

/-- Every amount is non-negative, in the committed rows and in the rows of the
open transaction. -/
def World.NonNegative (w : World) : Prop :=
  ∀ tx T, w.target tx = some T → asset.NonNegative T.assets

namespace transaction

/-- No stored transfer with this id is pending. -/
def NotPending (id : Nat) (rows : List Transaction) : Prop :=
  ∀ r ∈ rows, r.ID = id → r.Status ≠ TransactionPending

/-- A transfer row before and after: unchanged, or gone from pending to completed
with nothing else changed. -/
def Completes (r r1 : Transaction) : Prop :=
  r1 = r ∨ (r.Status = TransactionPending ∧ r1 = { r with Status := TransactionCompleted })

/-- A transfer row before and after: unchanged, or gone from pending to cancelled
with nothing else changed. -/
def Cancels (r r1 : Transaction) : Prop :=
  r1 = r ∨ (r.Status = TransactionPending ∧ r1 = { r with Status := TransactionCancelled })

end transaction

/-! ## Request validation (package `request` of `transaction`) -/

namespace transaction

/-- `ScheduleTransactionRequest.Validate`: `Required` on each of the five
fields, which refuses the zero value of the field's type and nothing else.
`none` is Go's `nil` error. -/
def ScheduleTransactionRequest.Validate (r : ScheduleTransactionRequest) : Option Error :=
  if r.SourceWalletID = 0 ∨ r.DestinationWalletID = 0 ∨ r.AssetName = "" ∨ r.Amount = 0 ∨
      r.ScheduledAt = 0 then
    some (Error.New ("schedule transaction create validation error: " ++
      asset.blankFields
        [("amount", r.Amount == 0), ("asset_name", r.AssetName == ""),
         ("destination_wallet_id", r.DestinationWalletID == 0),
         ("scheduled_at", r.ScheduledAt == 0),
         ("source_wallet_id", r.SourceWalletID == 0)]))
  else none

/-- The filter `ScheduleTransaction` hands to `GetAsset`: the asset name of the
request, the source and the destination wallet. -/
def ScheduleTransactionRequest.assetFilters (r : ScheduleTransactionRequest) : asset.Filters :=
  { Name := [r.AssetName], WalletID := [r.SourceWalletID, r.DestinationWalletID] }

/-- The entity `ScheduleTransaction` hands to `CreateTransaction`. -/
def ScheduleTransactionRequest.entity (r : ScheduleTransactionRequest) : Transaction :=
  { ID := 0, SourceWalletID := r.SourceWalletID, DestinationWalletID := r.DestinationWalletID,
    Amount := r.Amount, AssetName := r.AssetName, Status := TransactionPending,
    ScheduledAt := r.ScheduledAt }

/-- The world in which `ScheduleTransaction` reaches its balance check: both
wallets and the balance rows have been queried. -/
def ScheduleTransactionRequest.queried (r : ScheduleTransactionRequest) (w : World) : World :=
  ((w.record (Call.GetWallet r.SourceWalletID)).record
    (Call.GetWallet r.DestinationWalletID)).record (Call.GetAsset r.assetFilters)

/-- The filter `CancelTransaction` hands to `GetTransactions`. -/
def idFilter (id : Nat) : Filters := { ID := [id] }

end transaction

/-- Calls that hand a transfer record to the store for insertion. -/
def Call.isCreateTransaction : Call → Bool
  | .CreateTransaction _ _ => true
  | _ => false

/-- Calls that write to the store. -/
def Call.isWrite : Call → Bool
  | .CreateAsset _ _ => true
  | .UpdateAsset _ _ => true
  | .CreateTransaction _ _ => true
  | .UpdateTransaction _ _ => true
  | .DeleteTransaction _ _ => true
  | _ => false

namespace scheduler

/-- The line the executor logs for its attempt at a transfer: the completion of
that transfer, or the failure with the error of its atomic unit. -/
def Outcome (t : transaction.Transaction) (line : LogEntry) : Prop :=
  line = LogEntry.InfoID "transaction completed" t.ID ∨
    ∃ err, line = LogEntry.Error "transaction failed" err

end scheduler

/-! ## Sample data for the transfer service and the executor -/

/-- A request to move 10 "BTC" from wallet 1 to wallet 2 at instant 5. -/
def sampleRequest : transaction.ScheduleTransactionRequest :=
  { SourceWalletID := 1, DestinationWalletID := 2, AssetName := "BTC", Amount := 10,
    ScheduledAt := 5 }

/-- A request to move 50 "BTC" from wallet 1 to wallet 1. -/
def selfRequest : transaction.ScheduleTransactionRequest :=
  { SourceWalletID := 1, DestinationWalletID := 1, AssetName := "BTC", Amount := 50,
    ScheduledAt := 5 }

/-- A request to move -5 "BTC" from wallet 1 to wallet 2. -/
def negativeRequest : transaction.ScheduleTransactionRequest :=
  { SourceWalletID := 1, DestinationWalletID := 2, AssetName := "BTC", Amount := -5,
    ScheduledAt := 5 }

/-- A request for an asset of which wallet 2 has no record. -/
def unknownAssetRequest : transaction.ScheduleTransactionRequest :=
  { SourceWalletID := 1, DestinationWalletID := 2, AssetName := "ETH", Amount := 1,
    ScheduledAt := 5 }

/-- Wallet 1 holds 10 "BTC" and 3 "ETH", wallet 2 holds 0 "BTC"; no transfer is stored. -/
def walletsWorld : World :=
  World.ofRows
    [{ ID := 1, WalletID := 1, Name := "BTC", Amount := 10 },
     { ID := 2, WalletID := 2, Name := "BTC", Amount := 0 },
     { ID := 3, WalletID := 1, Name := "ETH", Amount := 3 }]
    []

/-- A pending transfer of 4 "BTC" from wallet 1 to wallet 1. -/
def selfTransfer : transaction.Transaction :=
  { ID := 1, SourceWalletID := 1, DestinationWalletID := 1, AssetName := "BTC", Amount := 4,
    Status := transaction.TransactionPending, ScheduledAt := 5 }

/-- Wallet 1 holds 10 "BTC"; the transfer from wallet 1 to itself is stored. -/
def selfWorld : World :=
  World.ofRows [{ ID := 1, WalletID := 1, Name := "BTC", Amount := 10 }] [selfTransfer]

/-- A pending transfer of 50 "BTC" from wallet 1 to wallet 2, due at instant 3. -/
def largeTransfer : transaction.Transaction :=
  { ID := 1, SourceWalletID := 1, DestinationWalletID := 2, AssetName := "BTC", Amount := 50,
    Status := transaction.TransactionPending, ScheduledAt := 3 }

/-- A pending transfer of 4 "BTC" from wallet 1 to wallet 2, due at instant 5. -/
def smallTransfer : transaction.Transaction :=
  { ID := 2, SourceWalletID := 1, DestinationWalletID := 2, AssetName := "BTC", Amount := 4,
    Status := transaction.TransactionPending, ScheduledAt := 5 }

/-- A pending transfer of 1 "BTC" from wallet 1 to wallet 2, due at instant 200. -/
def laterTransfer : transaction.Transaction :=
  { ID := 3, SourceWalletID := 1, DestinationWalletID := 2, AssetName := "BTC", Amount := 1,
    Status := transaction.TransactionPending, ScheduledAt := 200 }

/-- A cancelled transfer of 2 "BTC" from wallet 1 to wallet 2, scheduled at instant 4. -/
def cancelledTransfer : transaction.Transaction :=
  { ID := 4, SourceWalletID := 1, DestinationWalletID := 2, AssetName := "BTC", Amount := 2,
    Status := transaction.TransactionCancelled, ScheduledAt := 4 }

/-- Wallet 1 holds 10 "BTC", wallet 2 holds 0 "BTC"; four transfers are stored:
one beyond the balance, one within it, one not yet due, one cancelled. -/
def batchWorld : World :=
  World.ofRows
    [{ ID := 1, WalletID := 1, Name := "BTC", Amount := 10 },
     { ID := 2, WalletID := 2, Name := "BTC", Amount := 0 }]
    [largeTransfer, smallTransfer, laterTransfer, cancelledTransfer]

/-- An environment whose store refuses the first call made to it and performs
every later one; every wallet is known. -/
def firstCallFails : Env :=
  { fault := fun k => if k = 0 then some (DBError.other "connection refused") else none,
    GetWallet := fun _ id => .ok { ID := id } }

/-! ## Reading balances, request validation and handlers of package `asset` -/

namespace asset

/-- The `request.GetAssetsParams`. -/
structure GetAssetsParams where
  ID : List Nat := []
  WalletID : List Nat := []
  Name : List String := []
deriving DecidableEq

/-- `service.GetAssets`. -/
def service.GetAssets (env : Env) (request : GetAssetsParams) (w : World) :
    Except Error (List Asset) × World :=
  repository.GetAsset env
    { ID := request.ID, Name := request.Name, WalletID := request.WalletID } w

/-- `CreateDepositRequest.Validate`: `Required` on `WalletID`, `Name` and `Amount`,
which refuses the zero value of the field's type and nothing else. -/
def CreateDepositRequest.Validate (r : CreateDepositRequest) : Option Error :=
  if r.WalletID = 0 ∨ r.Name = "" ∨ r.Amount = 0 then
    some (Error.New ("deposit create validation error: " ++
      blankFields
        [("amount", r.Amount == 0), ("name", r.Name == ""), ("wallet_id", r.WalletID == 0)]))
  else none

/-- `CreateWithdrawRequest.Validate`: the same rules as for a deposit. -/
def CreateWithdrawRequest.Validate (r : CreateWithdrawRequest) : Option Error :=
  if r.WalletID = 0 ∨ r.Name = "" ∨ r.Amount = 0 then
    some (Error.New ("withdraw create validation error: " ++
      blankFields
        [("amount", r.Amount == 0), ("name", r.Name == ""), ("wallet_id", r.WalletID == 0)]))
  else none

namespace Handler

/-- `Handler.CreateAsset` from the bound request on: the status code of the
response.  The handlers call the services with a `nil` transaction handle. -/
def CreateAsset (env : Env) (req : CreateAssetRequest) (w : World) : Nat × World :=
  match req.Validate with
  | some _ => (400, w)
  | none =>
    match service.CreateAsset env false req w with
    | (.error err, w1) => if err = ErrDuplicateAsset then (409, w1) else (500, w1)
    | (.ok _, w1) => (201, w1)

/-- `Handler.GetAssets` from the decoded parameters on. -/
def GetAssets (env : Env) (req : GetAssetsParams) (w : World) : Nat × World :=
  match service.GetAssets env req w with
  | (.error _, w1) => (500, w1)
  | (.ok _, w1) => (200, w1)

/-- `Handler.Deposit` from the bound request on. -/
def Deposit (env : Env) (req : CreateDepositRequest) (w : World) : Nat × World :=
  match req.Validate with
  | some _ => (400, w)
  | none =>
    match service.Deposit env false req w with
    | (.error err, w1) => if err = wallet.ErrWalletNotFound then (400, w1) else (500, w1)
    | (.ok _, w1) => (200, w1)

/-- `Handler.Withdraw` from the bound request on. -/
def Withdraw (env : Env) (req : CreateWithdrawRequest) (w : World) : Nat × World :=
  match req.Validate with
  | some _ => (400, w)
  | none =>
    match service.Withdraw env false req w with
    | (.error err, w1) => if err = wallet.ErrWalletNotFound then (400, w1) else (500, w1)
    | (.ok _, w1) => (200, w1)

end Handler

/-- Sum of the amounts of the balance records of one asset name, over all wallets. -/
def total (rows : List Asset) (name : String) : ℚ :=
  ((rows.filter (fun a => a.Name = name)).map (fun a => a.Amount)).sum

end asset

/-! ## Handlers of package `transaction` -/

namespace transaction
namespace Handler

/-- `Handler.ScheduleTransaction` from the bound request on: the status code of
the response, or the panic of the service. -/
def ScheduleTransaction (env : Env) (req : ScheduleTransactionRequest) (w : World) :
    Panics Nat × World :=
  match req.Validate with
  | some _ => (.returns 400, w)
  | none =>
    match service.ScheduleTransaction env req w with
    | (.panics msg, w1) => (.panics msg, w1)
    | (.returns (.error err), w1) =>
      if err = wallet.ErrWalletNotFound then (.returns 400, w1) else (.returns 500, w1)
    | (.returns (.ok _), w1) => (.returns 201, w1)

/-- `Handler.DeleteTransaction`; `id` is what `common.ParseIntFromString` (package
`common` is not among the sources) makes of the path parameter, `none` when it
returns an error. -/
def DeleteTransaction (env : Env) (id : Option Nat) (w : World) : Nat × World :=
  match id with
  | none => (400, w)
  | some id =>
    match service.CancelTransaction env id w with
    | (some _, w1) => (500, w1)
    | (none, w1) => (204, w1)

end Handler
end transaction

/-! ## Sample data for the handlers -/

/-- An environment whose directory knows no wallet and whose store performs every call. -/
def noWalletEnv : Env :=
  { fault := fun _ => none, GetWallet := fun _ _ => .error wallet.ErrWalletNotFound }

/-- An environment whose store refuses every call with the same driver error;
every wallet is known. -/
def brokenStoreEnv : Env :=
  { fault := fun _ => some (DBError.other "connection refused"),
    GetWallet := fun _ id => .ok { ID := id } }

/-- An environment whose directory knows wallet 1 only and whose store performs
every call. -/
def oneWalletEnv : Env :=
  { fault := fun _ => none,
    GetWallet := fun _ id => if id = 1 then .ok { ID := 1 } else .error wallet.ErrWalletNotFound }

/-! ## The batch of a cycle in the words of the specification -/

namespace scheduler

/-- The line the body of the loop logs for the result of an atomic unit: the
error of a unit that failed, the id of the transfer otherwise. -/
def outcomeLine (t : transaction.Transaction) : Except Error Unit → LogEntry
  | .error err => LogEntry.Error "transaction failed" err
  | .ok _ => LogEntry.InfoID "transaction completed" t.ID

/-- The batch as the specification words it (4.3, step 3), to be compared with
the loop of `Scheduler.Start`: for each due transfer, in the order given, one
atomic unit is opened around withdraw, deposit and status update, in the world
the transfers before it left; the outcome is logged, and whether the unit
failed or not the next transfer follows. -/
def batchBySpec (env : Env) : List transaction.Transaction → World → World
  | [], w => w
  | t :: rest, w =>
    batchBySpec env rest
      ((transaction.repository.InTransaction env (atomicUnit env t) w).2.logLine
        (outcomeLine t (transaction.repository.InTransaction env (atomicUnit env t) w).1))

end scheduler

/-- Number of atomic units opened: the `Begin` calls of a trace. -/
def unitsOpened (trace : List Call) : Nat := trace.count Call.Begin

/-- Calls to the wallet directory. -/
def Call.isGetWallet : Call → Bool
  | .GetWallet _ => true
  | _ => false

/-- Number of queries the wallet directory received. -/
def directoryQueries (trace : List Call) : Nat := trace.countP Call.isGetWallet

/-! ## Lemmas on the store -/

theorem World.LedgerStep.stay (tx : Bool) (w : World) : World.LedgerStep tx w w := by
  simp [World.LedgerStep]

theorem World.LedgerStep.andThen {tx : Bool} {w w1 w2 : World}
    (h1 : World.LedgerStep tx w w1) (h2 : World.LedgerStep tx w1 w2) :
    World.LedgerStep tx w w2 := by
  obtain ⟨a1, a2, a3, a4, a5, a6⟩ := h1
  obtain ⟨b1, b2, b3, b4, b5, b6⟩ := h2
  refine ⟨b1.trans a1, b2.trans a2, b3.trans a3, b4.trans a4, ?_, ?_⟩
  · intro h; rw [b5 h, a5 h]
  · intro h; rw [b6 h, a6 h]

theorem World.LedgerStep.ofRecord (tx : Bool) (w : World) (c : Call) :
    World.LedgerStep tx w (w.record c) := by
  simp [World.LedgerStep, World.record]

theorem World.LedgerStep.setAssets {tx : Bool} {w : World} {T : Tables}
    (h : w.target tx = some T) (rows : List asset.Asset) :
    World.LedgerStep tx w (w.setTarget tx { T with assets := rows }) := by
  cases tx <;> simp_all [World.LedgerStep, World.target, World.setTarget]

namespace gorm

theorem insertAsset_step {env : Env} {tx : Bool} {item : asset.Asset} {w w1 : World}
    {r : Except DBError asset.Asset} (h : CreateAsset env tx item w = (r, w1)) :
    World.LedgerStep tx w w1 := by
  have h0 := World.LedgerStep.ofRecord tx w (Call.CreateAsset tx item)
  unfold CreateAsset at h
  dsimp only at h
  split at h
  · cases h; exact h0
  · split at h
    · cases h; exact h0
    · rename_i T hT
      split at h
      · cases h
        refine h0.andThen ?_
        simp [World.LedgerStep]
      · cases h
        refine h0.andThen ?_
        cases tx <;> simp_all [World.LedgerStep, World.target, World.setTarget, World.record]

theorem SaveAsset_step {env : Env} {tx : Bool} {item : asset.Asset} {w w1 : World}
    {r : Except DBError Unit} (h : SaveAsset env tx item w = (r, w1)) :
    World.LedgerStep tx w w1 := by
  have h0 := World.LedgerStep.ofRecord tx w (Call.UpdateAsset tx item)
  unfold SaveAsset at h
  dsimp only at h
  split at h
  · cases h; exact h0
  · split at h
    · cases h; exact h0
    · rename_i T hT
      split at h
      · split at h
        · cases h
          refine h0.andThen ?_
          simp [World.LedgerStep]
        · cases h
          refine h0.andThen ?_
          cases tx <;> simp_all [World.LedgerStep, World.target, World.setTarget, World.record]
      · cases h
        refine h0.andThen ?_
        cases tx <;> simp_all [World.LedgerStep, World.target, World.setTarget, World.record]

theorem FindAssets_step {env : Env} (tx : Bool) {filters : asset.Filters} {w w1 : World}
    {r : Except DBError (List asset.Asset)} (h : FindAssets env filters w = (r, w1)) :
    World.LedgerStep tx w w1 := by
  have h0 := World.LedgerStep.ofRecord tx w (Call.GetAsset filters)
  unfold FindAssets at h
  dsimp only at h
  split at h <;> (cases h; exact h0)

end gorm

namespace asset

theorem walletClient_step {env : Env} (tx : Bool) {id : Nat} {w w1 : World}
    {r : Except Error wallet.Wallet} (h : wallet.GetWallet env id w = (r, w1)) :
    World.LedgerStep tx w w1 := by
  unfold wallet.GetWallet at h
  cases h
  exact World.LedgerStep.ofRecord _ _ _

namespace repository

theorem CreateAsset_step {env : Env} {tx : Bool} {item : Asset} {w w1 : World}
    {r : Except Error Asset} (h : CreateAsset env tx item w = (r, w1)) :
    World.LedgerStep tx w w1 := by
  unfold CreateAsset at h
  split at h
  · rename_i heq
    have := gorm.insertAsset_step heq
    split at h <;> (cases h; exact this)
  · rename_i heq
    have := gorm.insertAsset_step heq
    cases h; exact this

theorem UpdateAsset_step {env : Env} {tx : Bool} {item : Asset} {w w1 : World}
    {r : Except Error Unit} (h : UpdateAsset env tx item w = (r, w1)) :
    World.LedgerStep tx w w1 := by
  unfold UpdateAsset at h
  split at h <;> (rename_i heq; have := gorm.SaveAsset_step heq; cases h; exact this)

theorem GetAsset_step {env : Env} (tx : Bool) {filters : Filters} {w w1 : World}
    {r : Except Error (List Asset)} (h : GetAsset env filters w = (r, w1)) :
    World.LedgerStep tx w w1 := by
  unfold GetAsset at h
  split at h <;> (rename_i heq; have := gorm.FindAssets_step tx heq; cases h; exact this)

end repository

namespace service

theorem Deposit_step {env : Env} {tx : Bool} {req : CreateDepositRequest} {w w1 : World}
    {r : Except Error Asset} (h : Deposit env tx req w = (r, w1)) :
    World.LedgerStep tx w w1 := by
  unfold Deposit at h
  split at h
  · rename_i h1
    cases h; exact walletClient_step tx h1
  · rename_i h1
    have s1 := walletClient_step tx h1
    split at h
    · rename_i h2
      cases h; exact s1.andThen (repository.GetAsset_step tx h2)
    · rename_i h2
      have s2 := s1.andThen (repository.GetAsset_step tx h2)
      dsimp only at h
      split at h
      · rename_i h3
        split at h3
        · have s3 := s2.andThen (repository.CreateAsset_step h3)
          cases h; exact s3
        · cases h3
      · rename_i w3 h3
        have s3 : World.LedgerStep tx w w3 := by
          split at h3
          · exact s2.andThen (repository.CreateAsset_step h3)
          · cases h3; exact s2
        split at h <;>
          (rename_i h4; have := s3.andThen (repository.UpdateAsset_step h4); cases h; exact this)

theorem Withdraw_step {env : Env} {tx : Bool} {req : CreateWithdrawRequest} {w w1 : World}
    {r : Except Error Asset} (h : Withdraw env tx req w = (r, w1)) :
    World.LedgerStep tx w w1 := by
  unfold Withdraw at h
  split at h
  · rename_i h1
    cases h; exact walletClient_step tx h1
  · rename_i h1
    have s1 := walletClient_step tx h1
    split at h
    · rename_i h2
      cases h; exact s1.andThen (repository.GetAsset_step tx h2)
    · rename_i h2
      have s2 := s1.andThen (repository.GetAsset_step tx h2)
      dsimp only at h
      split at h
      · rename_i h3
        split at h3
        · have s3 := s2.andThen (repository.CreateAsset_step h3)
          cases h; exact s3
        · cases h3
      · rename_i w3 h3
        have s3 : World.LedgerStep tx w w3 := by
          split at h3
          · exact s2.andThen (repository.CreateAsset_step h3)
          · cases h3; exact s2
        split at h
        · cases h; exact s3
        · split at h <;>
            (rename_i h4; have := s3.andThen (repository.UpdateAsset_step h4); cases h; exact this)

end service
end asset

namespace gorm

theorem SaveTransaction_scope {env : Env} {item : transaction.Transaction} {w w1 : World}
    {r : Except DBError Unit} (h : SaveTransaction env true item w = (r, w1)) :
    w1.db = w.db ∧ w1.log = w.log ∧
    (item.ID ≠ 0 → w1.transactionSeq = w.transactionSeq) ∧
    (r = .ok () → item.ID ≠ 0 → ∀ T, w.tx = some T →
      w1.tx = some { T with transactions := upsertTransaction T.transactions item }) := by
  unfold SaveTransaction at h
  dsimp only at h
  split at h
  · cases h; simp [World.record]
  · split at h
    · cases h; simp [World.record]
    · rename_i T hT
      split at h
      · rename_i h0
        split at h <;> (cases h; simp_all [World.record, World.setTarget, World.target])
      · cases h
        simp_all [World.record, World.setTarget, World.target]

end gorm

namespace scheduler

/-- What running the atomic unit inside an open transaction does to the world. -/
theorem atomicUnit_scope {env : Env} {t : transaction.Transaction} {w w1 : World}
    {r : Except Error Unit} (h : atomicUnit env t true w = (r, w1)) :
    w1.db = w.db ∧ w1.log = w.log ∧
    (t.ID ≠ 0 → w1.transactionSeq = w.transactionSeq) ∧
    (r = .ok () → t.ID ≠ 0 → ∀ T, w.tx = some T → ∃ T1, w1.tx = some T1 ∧
      T1.transactions =
        gorm.upsertTransaction T.transactions { t with Status := transaction.TransactionCompleted }) := by
  unfold atomicUnit at h
  split at h
  · rename_i h1
    obtain ⟨a1, a2, a3, a4, a5, a6⟩ := asset.service.Withdraw_step h1
    cases h
    simp [a1, a2, a5]
  · rename_i wa h1
    obtain ⟨a1, a2, a3, a4, a5, a6⟩ := asset.service.Withdraw_step h1
    split at h
    · rename_i h2
      obtain ⟨b1, b2, b3, b4, b5, b6⟩ := asset.service.Deposit_step h2
      cases h
      simp [a1, a2, a5, b1, b2, b5]
    · rename_i wb h2
      obtain ⟨b1, b2, b3, b4, b5, b6⟩ := asset.service.Deposit_step h2
      have hdb : wb.db = w.db := by rw [b5 rfl, a5 rfl]
      have hlog : wb.log = w.log := by rw [b1, a1]
      have hseq : wb.transactionSeq = w.transactionSeq := by rw [b2, a2]
      have htx : wb.tx.map (fun t => t.transactions) = w.tx.map (fun t => t.transactions) := by
        rw [b4, a4]
      unfold transaction.repository.UpdateTransaction at h
      split at h
      · rename_i h3
        split at h3
        · rename_i h4
          obtain ⟨c1, c2, c3, c4⟩ := gorm.SaveTransaction_scope h4
          cases h3; cases h
          refine ⟨by rw [c1, hdb], by rw [c2, hlog], fun hid => by rw [c3 hid, hseq], ?_⟩
          intro hr; cases hr
        · cases h3
      · rename_i h3
        split at h3
        · cases h3
        · rename_i h4
          obtain ⟨c1, c2, c3, c4⟩ := gorm.SaveTransaction_scope h4
          cases h3; cases h
          refine ⟨by rw [c1, hdb], by rw [c2, hlog], fun hid => by rw [c3 hid, hseq], ?_⟩
          intro _ hid T hT
          rw [hT] at htx
          cases hwb : wb.tx with
          | none => simp [hwb] at htx
          | some Tb =>
            simp [hwb] at htx
            refine ⟨_, c4 rfl hid Tb hwb, ?_⟩
            simp [htx]

end scheduler

namespace scheduler

/-- The two ways the processing of one transfer can end: the unit did not
commit, the committed rows are untouched and a failure is logged; or it
committed, the transfer is stored as completed and a completion is logged. -/
theorem process_cases (env : Env) (w : World) (t : transaction.Transaction) :
    ((∃ e, (transaction.repository.InTransaction env (atomicUnit env t) w).1 = .error e ∧
        (process env w t).log = w.log ++ [LogEntry.Error "transaction failed" e]) ∧
      (process env w t).db = w.db ∧
      (t.ID ≠ 0 → (process env w t).transactionSeq = w.transactionSeq)) ∨
    ((transaction.repository.InTransaction env (atomicUnit env t) w).1 = .ok () ∧
      (process env w t).log = w.log ++ [LogEntry.InfoID "transaction completed" t.ID] ∧
      (t.ID ≠ 0 → (process env w t).transactionSeq = w.transactionSeq) ∧
      (t.ID ≠ 0 → (process env w t).db.transactions =
        gorm.upsertTransaction w.db.transactions
          { t with Status := transaction.TransactionCompleted })) := by
  unfold process transaction.repository.InTransaction gorm.Begin
  dsimp only
  cases hf : env.fault w.trace.length with
  | some e =>
    left
    simp [World.logLine, World.record]
  | none =>
    dsimp only
    cases hu : atomicUnit env t true
        { db := (w.record Call.Begin).db, tx := some (w.record Call.Begin).db,
          assetSeq := (w.record Call.Begin).assetSeq,
          transactionSeq := (w.record Call.Begin).transactionSeq,
          trace := (w.record Call.Begin).trace, log := (w.record Call.Begin).log } with
    | mk r w2 =>
      obtain ⟨u1, u2, u3, u4⟩ := atomicUnit_scope hu
      cases r with
      | error e =>
        left
        simp [World.logLine, gorm.Rollback, World.record] at u1 u2 u3 ⊢
        exact ⟨u2, u1, u3⟩
      | ok u =>
        dsimp only
        unfold gorm.Commit
        dsimp only
        cases hc : env.fault w2.trace.length with
        | some e =>
          left
          simp [World.logLine, World.record] at u1 u2 u3 ⊢
          exact ⟨u2, u1, u3⟩
        | none =>
          dsimp only
          cases htx : (w2.record Call.Commit).tx with
          | none =>
            left
            simp [World.logLine, World.record] at u1 u2 u3 ⊢
            exact ⟨u2, u1, u3⟩
          | some T2 =>
            right
            simp [World.logLine, World.record] at u1 u2 u3 htx ⊢
            refine ⟨u2, u3, ?_⟩
            intro hid
            obtain ⟨T1, hT1, hT1t⟩ := u4 rfl hid _ rfl
            rw [htx] at hT1
            cases hT1
            simpa [World.record] using hT1t

end scheduler

/-! ### Projections of the world updates -/

@[simp] theorem World.record_db (w : World) (c : Call) : (w.record c).db = w.db := rfl
@[simp] theorem World.record_tx (w : World) (c : Call) : (w.record c).tx = w.tx := rfl
@[simp] theorem World.record_assetSeq (w : World) (c : Call) :
    (w.record c).assetSeq = w.assetSeq := rfl
@[simp] theorem World.record_transactionSeq (w : World) (c : Call) :
    (w.record c).transactionSeq = w.transactionSeq := rfl
@[simp] theorem World.record_log (w : World) (c : Call) : (w.record c).log = w.log := rfl
@[simp] theorem World.record_trace (w : World) (c : Call) :
    (w.record c).trace = w.trace ++ [c] := rfl
@[simp] theorem World.record_target (w : World) (c : Call) (tx : Bool) :
    (w.record c).target tx = w.target tx := rfl

@[simp] theorem World.setTarget_target (w : World) (tx : Bool) (T : Tables) :
    (w.setTarget tx T).target tx = some T := by
  cases tx <;> rfl
@[simp] theorem World.setTarget_assetSeq (w : World) (tx : Bool) (T : Tables) :
    (w.setTarget tx T).assetSeq = w.assetSeq := by
  cases tx <;> rfl
@[simp] theorem World.setTarget_trace (w : World) (tx : Bool) (T : Tables) :
    (w.setTarget tx T).trace = w.trace := by
  cases tx <;> rfl
@[simp] theorem World.setTarget_log (w : World) (tx : Bool) (T : Tables) :
    (w.setTarget tx T).log = w.log := by
  cases tx <;> rfl
@[simp] theorem World.setTarget_false_db (w : World) (T : Tables) :
    (w.setTarget false T).db = T := rfl
@[simp] theorem World.setTarget_false_tx (w : World) (T : Tables) :
    (w.setTarget false T).tx = w.tx := rfl
@[simp] theorem World.setTarget_true_db (w : World) (T : Tables) :
    (w.setTarget true T).db = w.db := rfl
@[simp] theorem World.setTarget_true_tx (w : World) (T : Tables) :
    (w.setTarget true T).tx = some T := rfl
@[simp] theorem World.target_false (w : World) : w.target false = some w.db := rfl
@[simp] theorem World.target_true (w : World) : w.target true = w.tx := rfl

namespace asset
namespace repository

theorem GetAsset_ok {env : Env} {filters : Filters} {w : World}
    (hf : env.fault w.trace.length = none) :
    GetAsset env filters w = (.ok (w.db.assets.filter filters.admits), w.record (Call.GetAsset filters)) := by
  simp [GetAsset, gorm.FindAssets, hf]

theorem CreateAsset_ok {env : Env} {tx : Bool} {item : Asset} {w : World} {T : Tables}
    (hf : env.fault w.trace.length = none) (hT : w.target tx = some T) (hid : item.ID = 0)
    (hfree : gorm.assetConflict T.assets { item with ID := w.assetSeq + 1 } = false) :
    CreateAsset env tx item w =
      (.ok { item with ID := w.assetSeq + 1 },
        World.setTarget { w.record (Call.CreateAsset tx item) with assetSeq := w.assetSeq + 1 } tx
          { T with assets := T.assets ++ [{ item with ID := w.assetSeq + 1 }] }) := by
  simp [CreateAsset, gorm.CreateAsset, hf, hT, hid, gorm.newID, gorm.newSeq, hfree]

theorem UpdateAsset_ok {env : Env} {tx : Bool} {item : Asset} {w : World} {T : Tables}
    (hf : env.fault w.trace.length = none) (hT : w.target tx = some T) (hid : item.ID ≠ 0) :
    UpdateAsset env tx item w =
      (.ok (), (w.record (Call.UpdateAsset tx item)).setTarget tx
        { T with assets := gorm.upsertAsset T.assets item }) := by
  simp [UpdateAsset, gorm.SaveAsset, hf, hT, hid]

end repository
end asset

namespace gorm

/-- Saving a changed copy of the row just inserted at the end overwrites that row. -/
theorem upsertAsset_last (rows : List asset.Asset) (row item : asset.Asset)
    (hid : item.ID = row.ID) (hfree : assetConflict rows row = false) :
    upsertAsset (rows ++ [row]) item = rows ++ [item] := by
  have hno : ∀ r ∈ rows, r.ID ≠ row.ID := by
    intro r hr h
    have := List.any_eq_false.mp hfree r hr
    simp [h] at this
  unfold upsertAsset
  have hany : (rows ++ [row]).any (fun r => r.ID == item.ID) = true := by
    simp [hid]
  rw [if_pos hany, List.map_append]
  congr 1
  · conv_rhs => rw [← List.map_id rows]
    apply List.map_congr_left
    intro r hr
    simp [hid, hno r hr]
  · simp [hid]

end gorm
namespace asset

theorem pairFilter_admits (walletID : Nat) (name : String) (a : Asset) :
    (pairFilter walletID name).admits a = true ↔ a.WalletID = walletID ∧ a.Name = name := by
  simp [pairFilter, Filters.admits]
  tauto

namespace service

/-- `Withdraw` on a pair whose record `a` holds enough. -/
theorem Withdraw_found (env : Env) (tx : Bool) (req : CreateWithdrawRequest) (w : World)
    (wl : wallet.Wallet) (a : Asset) (rest : List Asset) (T : Tables)
    (hwallet : env.GetWallet w.trace.length req.WalletID = .ok wl) (hfault : env.NoFault)
    (hfound : w.db.assets.filter (pairFilter req.WalletID req.Name).admits = a :: rest)
    (hT : w.target tx = some T) (hid : a.ID ≠ 0) (hle : req.Amount ≤ a.Amount) :
    ∃ w1, Withdraw env tx req w = (.ok { a with Amount := a.Amount - req.Amount }, w1) ∧
      w1.assetSeq = w.assetSeq ∧
      w1.trace = w.trace ++ [Call.GetWallet req.WalletID,
        Call.GetAsset (pairFilter req.WalletID req.Name),
        Call.UpdateAsset tx { a with Amount := a.Amount - req.Amount }] ∧
      w1.target tx = some
        { T with assets := gorm.upsertAsset T.assets { a with Amount := a.Amount - req.Amount } } := by
  have hnlt : ¬ a.Amount < req.Amount := not_lt.mpr hle
  simp [Withdraw, wallet.GetWallet, repository.GetAsset, gorm.FindAssets, hwallet,
    hfault _, World.record, pairFilter] at hfound ⊢
  simp [hfound, hnlt, repository.UpdateAsset, gorm.SaveAsset, hfault _, World.record, hid]
  cases tx <;> simp_all [World.target, World.setTarget]

/-- `Withdraw` on a pair whose record `a` holds too little. -/
theorem Withdraw_short (env : Env) (tx : Bool) (req : CreateWithdrawRequest) (w : World)
    (wl : wallet.Wallet) (a : Asset) (rest : List Asset)
    (hwallet : env.GetWallet w.trace.length req.WalletID = .ok wl) (hfault : env.NoFault)
    (hfound : w.db.assets.filter (pairFilter req.WalletID req.Name).admits = a :: rest)
    (hlt : a.Amount < req.Amount) :
    Withdraw env tx req w =
      (.error (Error.New "amount is not enough to withdraw"),
        (w.record (Call.GetWallet req.WalletID)).record
          (Call.GetAsset (pairFilter req.WalletID req.Name))) := by
  simp [Withdraw, wallet.GetWallet, repository.GetAsset, gorm.FindAssets, hwallet,
    hfault _, World.record, pairFilter] at hfound ⊢
  simp [hfound, hlt]

/-- `Withdraw` of a positive amount on a pair without record: the zero-balance
record is created and the call is rejected. -/
theorem Withdraw_new (env : Env) (tx : Bool) (req : CreateWithdrawRequest) (w : World)
    (wl : wallet.Wallet) (T : Tables)
    (hwallet : env.GetWallet w.trace.length req.WalletID = .ok wl) (hfault : env.NoFault)
    (hnone : w.db.assets.filter (pairFilter req.WalletID req.Name).admits = [])
    (hT : w.target tx = some T)
    (hfree : gorm.assetConflict T.assets
      { ID := w.assetSeq + 1, WalletID := wl.ID, Name := req.Name, Amount := 0 } = false)
    (hpos : 0 < req.Amount) :
    ∃ w1, Withdraw env tx req w = (.error (Error.New "amount is not enough to withdraw"), w1) ∧
      w1.assetSeq = w.assetSeq + 1 ∧
      w1.target tx = some { T with assets := T.assets ++
        [{ ID := w.assetSeq + 1, WalletID := wl.ID, Name := req.Name, Amount := 0 }] } := by
  unfold pairFilter at hnone
  have hnlt : (0 : ℚ) < req.Amount := hpos
  simp [Withdraw, wallet.GetWallet, repository.GetAsset, gorm.FindAssets, hwallet,
    hfault _, World.record, pairFilter, hnone, repository.CreateAsset, gorm.CreateAsset,
    gorm.newID, gorm.newSeq]
  cases tx <;> simp_all [World.target, World.setTarget]

/-- `Deposit` on a pair that has the record `a`. -/
theorem Deposit_found (env : Env) (tx : Bool) (req : CreateDepositRequest) (w : World)
    (wl : wallet.Wallet) (a : Asset) (rest : List Asset) (T : Tables)
    (hwallet : env.GetWallet w.trace.length req.WalletID = .ok wl) (hfault : env.NoFault)
    (hfound : w.db.assets.filter (pairFilter req.WalletID req.Name).admits = a :: rest)
    (hT : w.target tx = some T) (hid : a.ID ≠ 0) :
    ∃ w1, Deposit env tx req w = (.ok { a with Amount := a.Amount + req.Amount }, w1) ∧
      w1.assetSeq = w.assetSeq ∧
      w1.target tx = some
        { T with assets := gorm.upsertAsset T.assets { a with Amount := a.Amount + req.Amount } } := by
  simp [Deposit, wallet.GetWallet, repository.GetAsset, gorm.FindAssets, hwallet,
    hfault _, World.record, pairFilter] at hfound ⊢
  simp [hfound, repository.UpdateAsset, gorm.SaveAsset, hfault _, World.record, hid]
  cases tx <;> simp_all [World.target, World.setTarget]

/-- `Deposit` on a pair without record: the record is created with the deposited amount. -/
theorem Deposit_new (env : Env) (tx : Bool) (req : CreateDepositRequest) (w : World)
    (wl : wallet.Wallet) (T : Tables)
    (hwallet : env.GetWallet w.trace.length req.WalletID = .ok wl) (hfault : env.NoFault)
    (hnone : w.db.assets.filter (pairFilter req.WalletID req.Name).admits = [])
    (hT : w.target tx = some T)
    (hfree : gorm.assetConflict T.assets
      { ID := w.assetSeq + 1, WalletID := wl.ID, Name := req.Name, Amount := 0 } = false) :
    ∃ w1, Deposit env tx req w =
        (.ok { ID := w.assetSeq + 1, WalletID := wl.ID, Name := req.Name, Amount := req.Amount },
          w1) ∧
      w1.assetSeq = w.assetSeq + 1 ∧
      w1.target tx = some { T with assets := T.assets ++
        [{ ID := w.assetSeq + 1, WalletID := wl.ID, Name := req.Name, Amount := req.Amount }] } := by
  unfold pairFilter at hnone
  have hf1 : env.fault (w.trace.length + 1) = none := hfault _
  have hf2 : env.fault (w.trace.length + 1 + 1) = none := hfault _
  have hf3 : env.fault (w.trace.length + 1 + 1 + 1) = none := hfault _
  simp only [Deposit, wallet.GetWallet, hwallet]
  rw [repository.GetAsset_ok (by simpa using hf1)]
  simp only [World.record_db, hnone]
  rw [repository.CreateAsset_ok (T := T) (by simpa using hf2) (by simpa using hT) rfl
    (by simpa using hfree)]
  dsimp only
  rw [repository.UpdateAsset_ok
    (T := { assets := T.assets ++ [⟨w.assetSeq + 1, wl.ID, req.Name, 0⟩],
            transactions := T.transactions })
    (by simpa using hf3) (by simp) (by simp)]
  simp only [zero_add]
  refine ⟨_, rfl, by simp, ?_⟩
  simp
  exact gorm.upsertAsset_last _ _ _ rfl hfree

end service
end asset

/-! ### Looking up and overwriting balance rows -/

namespace asset

theorem lookup_eq_some {rows : List Asset} {walletID : Nat} {name : String} {a : Asset} :
    lookup rows walletID name = some a ↔
      ∃ rest, rows.filter (pairFilter walletID name).admits = a :: rest := by
  unfold lookup
  cases h : rows.filter (pairFilter walletID name).admits with
  | nil => simp
  | cons x xs => simp

theorem lookup_eq_none {rows : List Asset} {walletID : Nat} {name : String} :
    lookup rows walletID name = none ↔ rows.filter (pairFilter walletID name).admits = [] := by
  unfold lookup
  cases h : rows.filter (pairFilter walletID name).admits with
  | nil => simp
  | cons x xs => simp

theorem lookup_mem {rows : List Asset} {walletID : Nat} {name : String} {a : Asset}
    (h : lookup rows walletID name = some a) :
    a ∈ rows ∧ a.WalletID = walletID ∧ a.Name = name := by
  obtain ⟨rest, hrest⟩ := lookup_eq_some.mp h
  have hmem : a ∈ rows.filter (pairFilter walletID name).admits := by simp [hrest]
  rw [List.mem_filter, pairFilter_admits] at hmem
  exact hmem

theorem lookup_none_not_mem {rows : List Asset} {walletID : Nat} {name : String}
    (h : lookup rows walletID name = none) :
    ∀ r ∈ rows, ¬ (r.WalletID = walletID ∧ r.Name = name) := by
  intro r hr hp
  have hnil := lookup_eq_none.mp h
  have : r ∈ rows.filter (pairFilter walletID name).admits := by
    rw [List.mem_filter, pairFilter_admits]; exact ⟨hr, hp⟩
  simp [hnil] at this

theorem balance_of_some {rows : List Asset} {walletID : Nat} {name : String} {a : Asset}
    (h : lookup rows walletID name = some a) : balance rows walletID name = a.Amount := by
  simp [balance, h]

theorem balance_of_none {rows : List Asset} {walletID : Nat} {name : String}
    (h : lookup rows walletID name = none) : balance rows walletID name = 0 := by
  simp [balance, h]

end asset

namespace gorm

theorem upsertAsset_of_mem {rows : List asset.Asset} {item : asset.Asset}
    (h : ∃ r ∈ rows, r.ID = item.ID) :
    upsertAsset rows item = rows.map (fun r => if r.ID = item.ID then item else r) := by
  unfold upsertAsset
  have : rows.any (fun r => r.ID == item.ID) = true := by
    simpa using h
  rw [if_pos this]

theorem upsertAsset_of_not_mem {rows : List asset.Asset} {item : asset.Asset}
    (h : ∀ r ∈ rows, r.ID ≠ item.ID) : upsertAsset rows item = rows ++ [item] := by
  unfold upsertAsset
  have : ¬ rows.any (fun r => r.ID == item.ID) = true := by
    simpa using h
  rw [if_neg this]

theorem mem_upsertAsset {rows : List asset.Asset} {item x : asset.Asset}
    (h : x ∈ upsertAsset rows item) : x = item ∨ (x ∈ rows ∧ x.ID ≠ item.ID) := by
  unfold upsertAsset at h
  split at h
  · rw [List.mem_map] at h
    obtain ⟨r, hr, hx⟩ := h
    by_cases hid : r.ID = item.ID
    · left; simp [hid] at hx; exact hx.symm
    · right; simp [hid] at hx; subst hx; exact ⟨hr, hid⟩
  · rename_i hany
    rw [List.mem_append] at h
    rcases h with h | h
    · right
      refine ⟨h, ?_⟩
      intro hid
      apply hany
      simp
      exact ⟨x, h, hid⟩
    · left; simpa using h

theorem self_mem_upsertAsset (rows : List asset.Asset) (item : asset.Asset) :
    item ∈ upsertAsset rows item := by
  unfold upsertAsset
  split
  · rename_i hany
    simp at hany
    obtain ⟨r, hr, hid⟩ := hany
    rw [List.mem_map]
    exact ⟨r, hr, by simp [hid]⟩
  · simp

theorem mem_upsertAsset_of_ne {rows : List asset.Asset} {item x : asset.Asset}
    (hx : x ∈ rows) (hne : x.ID ≠ item.ID) : x ∈ upsertAsset rows item := by
  unfold upsertAsset
  split
  · rw [List.mem_map]
    exact ⟨x, hx, by simp [hne]⟩
  · simp [hx]

/-- Overwriting a row does not show in a query that admits neither the new
row nor any row carrying its id. -/
theorem filter_upsertAsset_other {rows : List asset.Asset} {item : asset.Asset}
    (p : asset.Asset → Bool) (hrows : ∀ r ∈ rows, r.ID = item.ID → p r = false)
    (hitem : p item = false) :
    (upsertAsset rows item).filter p = rows.filter p := by
  unfold upsertAsset
  split
  · clear * - hrows hitem
    induction rows with
    | nil => simp
    | cons x xs ih =>
      have ih1 := ih (fun r hr => hrows r (List.mem_cons_of_mem _ hr))
      by_cases hid : x.ID = item.ID
      · have := hrows x (List.mem_cons_self _ _) hid
        simp [hid, hitem, this, ih1, List.filter_cons]
      · simp [hid, ih1, List.filter_cons]
  · simp [List.filter_append, List.filter_cons, hitem]

end gorm

namespace asset

/-- Overwriting the looked-up row of a pair with a row of the same id and
pair makes the new row the looked-up row of the pair. -/
theorem lookup_upsert_self {rows : List Asset} {walletID : Nat} {name : String}
    {a : Asset} (item : Asset) (h : lookup rows walletID name = some a) (hid : item.ID = a.ID)
    (hw : item.WalletID = walletID) (hn : item.Name = name) :
    lookup (gorm.upsertAsset rows item) walletID name = some item := by
  have hmem := lookup_mem h
  rw [gorm.upsertAsset_of_mem ⟨a, hmem.1, hid.symm⟩]
  have hpi : (pairFilter walletID name).admits item = true :=
    (pairFilter_admits _ _ _).mpr ⟨hw, hn⟩
  clear hmem
  induction rows with
  | nil => simp [lookup] at h
  | cons x xs ih =>
    by_cases hx : x.ID = item.ID
    · simp [lookup, hx, hpi, List.filter_cons]
    · by_cases hpx : (pairFilter walletID name).admits x = true
      · simp [lookup, List.filter_cons, hpx] at h
        subst h
        exact absurd hid.symm hx
      · have h1 : lookup xs walletID name = some a := by
          simpa [lookup, List.filter_cons, hpx] using h
        have := ih h1
        simp [lookup, List.filter_cons, hx, hpx] at this ⊢
        exact this

end asset

/-! ### The constraints on table `assets` are kept -/

namespace gorm

theorem AssetsOK.sameAsset {rows : List asset.Asset} {seq : Nat} (h : AssetsOK rows seq)
    {r s : asset.Asset} (hr : r ∈ rows) (hs : s ∈ rows) (hid : r.ID = s.ID) : r = s :=
  List.inj_on_of_nodup_map h.2.1 hr hs hid

theorem AssetsOK.free {rows : List asset.Asset} {seq : Nat} (h : AssetsOK rows seq)
    (walletID : Nat) (name : String) (amount : ℚ)
    (hpair : ∀ r ∈ rows, ¬ (r.WalletID = walletID ∧ r.Name = name)) :
    assetConflict rows
      { ID := seq + 1, WalletID := walletID, Name := name, Amount := amount } = false := by
  unfold assetConflict
  rw [List.any_eq_false]
  intro r hr
  have h1 := (h.1 r hr).2
  have h2 := hpair r hr
  have h3 : r.ID ≠ seq + 1 := by omega
  simp [h3]
  tauto

theorem AssetsOK.append {rows : List asset.Asset} {seq : Nat} (h : AssetsOK rows seq)
    (row : asset.Asset) (hfree : assetConflict rows row = false) (hid : row.ID = seq + 1) :
    AssetsOK (rows ++ [row]) (seq + 1) := by
  have hno := List.any_eq_false.mp hfree
  obtain ⟨h1, h2, h3⟩ := h
  refine ⟨?_, ?_, ?_⟩
  · intro a ha
    rw [List.mem_append] at ha
    rcases ha with ha | ha
    · have := h1 a ha; omega
    · simp at ha; subst ha; omega
  · rw [List.map_append, List.nodup_append]
    refine ⟨h2, by simp, ?_⟩
    intro x hx hx1
    simp at hx1
    rw [List.mem_map] at hx
    obtain ⟨r, hr, hrx⟩ := hx
    have := hno r hr
    simp at this
    exact this.1 (hrx.trans hx1)
  · rw [List.map_append, List.nodup_append]
    refine ⟨h3, by simp, ?_⟩
    intro x hx hx1
    simp at hx1
    rw [List.mem_map] at hx
    obtain ⟨r, hr, hrx⟩ := hx
    have := hno r hr
    simp at this
    rw [hx1] at hrx
    simp at hrx
    exact this.2 hrx.1 hrx.2

theorem AssetsOK.upsert {rows : List asset.Asset} {seq : Nat} (h : AssetsOK rows seq)
    {a item : asset.Asset} (ha : a ∈ rows) (hid : item.ID = a.ID)
    (hw : item.WalletID = a.WalletID) (hn : item.Name = a.Name) :
    AssetsOK (upsertAsset rows item) seq := by
  rw [upsertAsset_of_mem ⟨a, ha, hid.symm⟩]
  have hID : (rows.map (fun r => if r.ID = item.ID then item else r)).map (fun a => a.ID) =
      rows.map (fun a => a.ID) := by
    rw [List.map_map]
    apply List.map_congr_left
    intro r _
    by_cases hr : r.ID = item.ID <;> simp [hr]
  have hpair : (rows.map (fun r => if r.ID = item.ID then item else r)).map
      (fun a => (a.WalletID, a.Name)) = rows.map (fun a => (a.WalletID, a.Name)) := by
    rw [List.map_map]
    apply List.map_congr_left
    intro r hr
    by_cases hri : r.ID = item.ID
    · have : r = a := h.sameAsset hr ha (hri.trans hid)
      subst this
      simp [hri, hw, hn]
    · simp [hri]
  refine ⟨?_, by rw [hID]; exact h.2.1, by rw [hpair]; exact h.2.2⟩
  intro x hx
  rw [List.mem_map] at hx
  obtain ⟨r, hr, hrx⟩ := hx
  by_cases hri : r.ID = item.ID
  · simp [hri] at hrx; subst hrx
    rw [hid]; exact h.1 a ha
  · simp [hri] at hrx; subst hrx
    exact h.1 r hr

theorem AssetsOK.mono {rows : List asset.Asset} {seq : Nat} (h : AssetsOK rows seq) :
    AssetsOK rows (seq + 1) := by
  refine ⟨fun a ha => ?_, h.2.1, h.2.2⟩
  have := h.1 a ha
  omega

end gorm

/-! ### Ledger calls made without transaction scope -/

namespace asset

/-- With the constraint on pairs, the record of a pair is the only row the pair filter admits. -/
theorem filter_eq_singleton {rows : List Asset} {seq : Nat} (hok : gorm.AssetsOK rows seq)
    {walletID : Nat} {name : String} {a : Asset} (h : lookup rows walletID name = some a) :
    rows.filter (pairFilter walletID name).admits = [a] := by
  obtain ⟨rest, hrest⟩ := lookup_eq_some.mp h
  cases rest with
  | nil => exact hrest
  | cons x xs =>
    exfalso
    have hsub : ((rows.filter (pairFilter walletID name).admits).map
        (fun a => (a.WalletID, a.Name))).Nodup :=
      List.Nodup.sublist (List.Sublist.map _ (List.filter_sublist _)) hok.2.2
    have ha : a ∈ rows.filter (pairFilter walletID name).admits := by simp [hrest]
    have hx : x ∈ rows.filter (pairFilter walletID name).admits := by simp [hrest]
    rw [List.mem_filter, pairFilter_admits] at ha hx
    rw [hrest] at hsub
    simp [ha.2.1, ha.2.2, hx.2.1, hx.2.2] at hsub

/-- A direct `Deposit` for a wallet the directory knows, with a working store:
it succeeds, the record of the pair holds the old balance plus the amount and
keeps its id, and the rows of other pairs are as before. -/
theorem Deposit_direct {env : Env} {w : World} (walletID : Nat) (name : String) (amount : ℚ)
    (hk : env.Knows walletID) (hf : env.NoFault) (hok : gorm.AssetsOK w.db.assets w.assetSeq) :
    ∃ r w1, service.Deposit env false
        { WalletID := walletID, Name := name, Amount := amount } w = (.ok r, w1) ∧
      gorm.AssetsOK w1.db.assets w1.assetSeq ∧
      lookup w1.db.assets walletID name = some r ∧
      r.Amount = balance w.db.assets walletID name + amount ∧
      (∀ a, lookup w.db.assets walletID name = some a → r.ID = a.ID) ∧
      (∀ p : Asset → Bool, (∀ x, x.WalletID = walletID → x.Name = name → p x = false) →
        w1.db.assets.filter p = w.db.assets.filter p) := by
  cases hl : lookup w.db.assets walletID name with
  | none =>
    have hnone := lookup_eq_none.mp hl
    have hfree := hok.free walletID name 0 (lookup_none_not_mem hl)
    obtain ⟨w1, h1, h2, h3⟩ := service.Deposit_new env false
      { WalletID := walletID, Name := name, Amount := amount } w { ID := walletID } w.db
      (hk _) hf hnone rfl hfree
    simp only [World.target_false, Option.some.injEq] at h3
    refine ⟨_, w1, h1, ?_, ?_, ?_, ?_, ?_⟩
    · rw [h3, h2]
      exact hok.append ⟨w.assetSeq + 1, walletID, name, amount⟩
        (hok.free walletID name amount (lookup_none_not_mem hl)) rfl
    · rw [h3]
      simp [lookup, List.filter_append, hnone, List.filter_cons, pairFilter_admits]
    · simp [balance_of_none hl]
    · intro a ha; cases ha
    · intro p hp
      rw [h3]
      simp [List.filter_append, List.filter_cons, hp]
  | some a =>
    obtain ⟨rest, hrest⟩ := lookup_eq_some.mp hl
    have hmem := lookup_mem hl
    have hid : a.ID ≠ 0 := by have := hok.1 a hmem.1; omega
    obtain ⟨w1, h1, h2, h3⟩ := service.Deposit_found env false
      { WalletID := walletID, Name := name, Amount := amount } w { ID := walletID } a rest w.db
      (hk _) hf hrest rfl hid
    simp only [World.target_false, Option.some.injEq] at h3
    refine ⟨_, w1, h1, ?_, ?_, ?_, ?_, ?_⟩
    · rw [h3, h2]
      exact hok.upsert hmem.1 rfl rfl rfl
    · rw [h3]
      exact lookup_upsert_self _ hl rfl hmem.2.1 hmem.2.2
    · simp [balance_of_some hl]
    · intro b hb; cases hb; rfl
    · intro p hp
      rw [h3]
      apply gorm.filter_upsertAsset_other
      · intro r hr hrid
        have : r = a := hok.sameAsset hr hmem.1 hrid
        subst this
        exact hp _ hmem.2.1 hmem.2.2
      · exact hp _ hmem.2.1 hmem.2.2

/-- A direct `Withdraw` of a positive amount for a wallet the directory knows,
with a working store: it is accepted exactly when the balance covers the
amount; then the record holds the balance minus the amount, otherwise the
balance is as before. -/
theorem Withdraw_direct {env : Env} {w : World} (walletID : Nat) (name : String) (amount : ℚ)
    (hk : env.Knows walletID) (hf : env.NoFault) (hok : gorm.AssetsOK w.db.assets w.assetSeq)
    (hpos : 0 < amount) :
    ∃ r w1, service.Withdraw env false
        { WalletID := walletID, Name := name, Amount := amount } w = (r, w1) ∧
      gorm.AssetsOK w1.db.assets w1.assetSeq ∧
      ((amount ≤ balance w.db.assets walletID name ∧ (∃ a, r = .ok a) ∧
          balance w1.db.assets walletID name = balance w.db.assets walletID name - amount) ∨
        (balance w.db.assets walletID name < amount ∧ (∃ e, r = .error e) ∧
          balance w1.db.assets walletID name = balance w.db.assets walletID name)) := by
  cases hl : lookup w.db.assets walletID name with
  | none =>
    have hnone := lookup_eq_none.mp hl
    have hfree := hok.free walletID name 0 (lookup_none_not_mem hl)
    obtain ⟨w1, h1, h2, h3⟩ := service.Withdraw_new env false
      { WalletID := walletID, Name := name, Amount := amount } w { ID := walletID } w.db
      (hk _) hf hnone rfl hfree hpos
    simp only [World.target_false, Option.some.injEq] at h3
    refine ⟨_, w1, h1, ?_, Or.inr ⟨?_, ⟨_, rfl⟩, ?_⟩⟩
    · rw [h3, h2]
      exact hok.append ⟨w.assetSeq + 1, walletID, name, 0⟩ hfree rfl
    · simpa [balance_of_none hl] using hpos
    · rw [balance_of_none hl, h3]
      simp [balance, lookup, List.filter_append, hnone, List.filter_cons, pairFilter_admits]
  | some a =>
    obtain ⟨rest, hrest⟩ := lookup_eq_some.mp hl
    have hmem := lookup_mem hl
    have hid : a.ID ≠ 0 := by have := hok.1 a hmem.1; omega
    by_cases hle : amount ≤ a.Amount
    · obtain ⟨w1, h1, h2, _, h3⟩ := service.Withdraw_found env false
        { WalletID := walletID, Name := name, Amount := amount } w { ID := walletID } a rest
        w.db (hk _) hf hrest rfl hid hle
      simp only [World.target_false, Option.some.injEq] at h3
      refine ⟨_, w1, h1, ?_, Or.inl ⟨?_, ⟨_, rfl⟩, ?_⟩⟩
      · rw [h3, h2]
        exact hok.upsert hmem.1 rfl rfl rfl
      · simpa [balance_of_some hl] using hle
      · rw [h3]
        have := lookup_upsert_self { a with Amount := a.Amount - amount } hl rfl
          hmem.2.1 hmem.2.2
        simp [balance_of_some this, balance_of_some hl]
    · have hlt : a.Amount < amount := not_le.mp hle
      have h1 := service.Withdraw_short env false
        { WalletID := walletID, Name := name, Amount := amount } w { ID := walletID } a rest
        (hk _) hf hrest hlt
      refine ⟨_, _, h1, ?_, Or.inr ⟨?_, ⟨_, rfl⟩, ?_⟩⟩
      · simpa using hok
      · simpa [balance_of_some hl] using hlt
      · simp

end asset

/-! ## Sequences of ledger calls -/

namespace asset

/-- One ledger call of a sequence: constraints kept, balance moved by the
amount the call contributes, balance still non-negative. -/
theorem Op.run_spec {env : Env} {w : World} (walletID : Nat) (name : String) (op : Op)
    (hk : env.Knows walletID) (hf : env.NoFault) (hok : gorm.AssetsOK w.db.assets w.assetSeq)
    (hpos : 0 < op.amount) (h0 : 0 ≤ balance w.db.assets walletID name) :
    gorm.AssetsOK (Op.run env walletID name op w).2.db.assets
        (Op.run env walletID name op w).2.assetSeq ∧
      balance (Op.run env walletID name op w).2.db.assets walletID name =
        balance w.db.assets walletID name +
          op.contribution (Op.run env walletID name op w).1 ∧
      0 ≤ balance (Op.run env walletID name op w).2.db.assets walletID name := by
  cases op with
  | deposit a =>
    obtain ⟨r, w1, h1, h2, h3, h4, _, _⟩ := Deposit_direct walletID name a hk hf hok
    have hb : balance w1.db.assets walletID name = balance w.db.assets walletID name + a := by
      rw [balance_of_some h3, h4]
    have ha : 0 < a := hpos
    simp only [Op.run, h1, Op.contribution]
    exact ⟨h2, hb, by rw [hb]; linarith⟩
  | withdraw a =>
    have ha : 0 < a := hpos
    obtain ⟨r, w1, h1, h2, h3⟩ := Withdraw_direct walletID name a hk hf hok ha
    rcases h3 with ⟨hle, ⟨x, hx⟩, hb⟩ | ⟨hlt, ⟨e, he⟩, hb⟩
    · subst hx
      simp only [Op.run, h1, Op.contribution]
      exact ⟨h2, by rw [hb]; ring, by rw [hb]; linarith⟩
    · subst he
      simp only [Op.run, h1, Op.contribution]
      exact ⟨h2, by rw [hb]; ring, by rw [hb]; exact h0⟩

theorem runOps_spec {env : Env} (walletID : Nat) (name : String) (hk : env.Knows walletID)
    (hf : env.NoFault) (ops : List Op) :
    ∀ w : World, gorm.AssetsOK w.db.assets w.assetSeq → (∀ op ∈ ops, 0 < op.amount) →
      0 ≤ balance w.db.assets walletID name →
      balance (runOps env walletID name ops w).db.assets walletID name =
          balance w.db.assets walletID name + netAmount env walletID name ops w ∧
        0 ≤ balance (runOps env walletID name ops w).db.assets walletID name := by
  induction ops with
  | nil =>
    intro w _ _ h0
    simp [runOps, netAmount, h0]
  | cons op rest ih =>
    intro w hok hpos h0
    obtain ⟨s1, s2, s3⟩ := Op.run_spec walletID name op hk hf hok
      (hpos op (List.mem_cons_self _ _)) h0
    obtain ⟨i1, i2⟩ := ih (Op.run env walletID name op w).2 s1
      (fun o ho => hpos o (List.mem_cons_of_mem _ ho)) s3
    refine ⟨?_, i2⟩
    simp only [runOps, netAmount]
    rw [i1, s2]
    ring

end asset

/-! ## The claims -/

/-- C3. A finite sequence of `Deposit` and `Withdraw` calls with positive amounts
on one (wallet, name) pair, the wallet known to the directory, no store
failure, no other writer: the stored balance after the sequence is the balance
before it (0 for a fresh pair) plus the deposited amounts minus the amounts of
the accepted withdraws, and the stored balance is non-negative after every
call of the sequence. -/
theorem C3_ledger_sequence_balance (env : Env) (w : World) (walletID : Nat) (name : String)
    (ops : List asset.Op) (hk : env.Knows walletID) (hf : env.NoFault)
    (hok : gorm.AssetsOK w.db.assets w.assetSeq) (hpos : ∀ op ∈ ops, 0 < op.amount)
    (h0 : 0 ≤ asset.balance w.db.assets walletID name) :
    asset.balance (asset.runOps env walletID name ops w).db.assets walletID name =
        asset.balance w.db.assets walletID name + asset.netAmount env walletID name ops w ∧
      ∀ n, 0 ≤ asset.balance
        (asset.runOps env walletID name (ops.take n) w).db.assets walletID name := by
  refine ⟨(asset.runOps_spec walletID name hk hf ops w hok hpos h0).1, fun n => ?_⟩
  exact (asset.runOps_spec walletID name hk hf (ops.take n) w hok
    (fun o ho => hpos o (List.mem_of_mem_take ho)) h0).2

/-- C2. If the atomic unit of a transfer does not commit (its `Withdraw`, its
`Deposit` or its status update returned an error, or the transaction could not
be opened or committed), then after the transfer has been processed every
balance row and every transfer row is exactly as before, so a pending transfer
is still stored as pending, and the failure is logged.  The writes made inside
the unit (a `Withdraw` already performed when the `Deposit` fails) are gone. -/
theorem C2_failed_unit_rolls_back (env : Env) (w : World) (t : transaction.Transaction)
    (e : Error)
    (hfail : (transaction.repository.InTransaction env (scheduler.atomicUnit env t) w).1 =
      .error e) :
    (scheduler.process env w t).db.assets = w.db.assets ∧
      (scheduler.process env w t).db.transactions = w.db.transactions ∧
      (t ∈ w.db.transactions → t ∈ (scheduler.process env w t).db.transactions) ∧
      (scheduler.process env w t).log = w.log ++ [LogEntry.Error "transaction failed" e] := by
  rcases scheduler.process_cases env w t with ⟨⟨e1, h1, h2⟩, h3, _⟩ | ⟨h1, _⟩
  · rw [hfail] at h1
    cases h1
    refine ⟨by rw [h3], by rw [h3], fun h => by rw [h3]; exact h, h2⟩
  · rw [hfail] at h1
    cases h1

/-- C5. `Withdraw` on an existing balance record `a` (wallet known to the
directory, store calls succeeding), with or without transaction scope: when
the record holds less than the requested amount the call returns the error
"amount is not enough to withdraw" and no record, and after the directory
query and the lookup it makes no further call, so `UpdateAsset` is not called
and nothing is written; otherwise, equality included, it saves and returns
the record with the amount reduced by the request and id, wallet id and name
unchanged. -/
theorem C5_withdraw_existing_record (env : Env) (tx : Bool)
    (req : asset.CreateWithdrawRequest) (w : World) (wl : wallet.Wallet) (a : asset.Asset)
    (T : Tables)
    (hwallet : env.GetWallet w.trace.length req.WalletID = .ok wl) (hfault : env.NoFault)
    (hfound : asset.lookup w.db.assets req.WalletID req.Name = some a)
    (hT : w.target tx = some T) (hid : 0 < a.ID) :
    (a.Amount < req.Amount →
      (asset.service.Withdraw env tx req w).1 =
          .error (Error.New "amount is not enough to withdraw") ∧
        (asset.service.Withdraw env tx req w).2.trace =
          w.trace ++ [Call.GetWallet req.WalletID,
            Call.GetAsset (asset.pairFilter req.WalletID req.Name)] ∧
        (asset.service.Withdraw env tx req w).2.db = w.db ∧
        (asset.service.Withdraw env tx req w).2.tx = w.tx) ∧
    (req.Amount ≤ a.Amount →
      (asset.service.Withdraw env tx req w).1 =
          .ok { a with Amount := a.Amount - req.Amount } ∧
        (asset.service.Withdraw env tx req w).2.trace =
          w.trace ++ [Call.GetWallet req.WalletID,
            Call.GetAsset (asset.pairFilter req.WalletID req.Name),
            Call.UpdateAsset tx { a with Amount := a.Amount - req.Amount }] ∧
        (asset.service.Withdraw env tx req w).2.target tx = some
          { T with assets :=
              gorm.upsertAsset T.assets { a with Amount := a.Amount - req.Amount } } ∧
        { a with Amount := a.Amount - req.Amount } ∈
          gorm.upsertAsset T.assets { a with Amount := a.Amount - req.Amount }) := by
  obtain ⟨rest, hrest⟩ := asset.lookup_eq_some.mp hfound
  constructor
  · intro hlt
    rw [asset.service.Withdraw_short env tx req w wl a rest hwallet hfault hrest hlt]
    simp
  · intro hle
    obtain ⟨w1, h1, _, h2, h3⟩ := asset.service.Withdraw_found env tx req w wl a rest T
      hwallet hfault hrest hT (by omega) hle
    rw [h1]
    exact ⟨rfl, h2, h3, gorm.self_mem_upsertAsset _ _⟩

/-- C8. A pair without balance record, the directory returning the wallet for
the requested id, the store working: after one direct `Deposit` of `a` the
store holds exactly one record for the pair, with amount `a`; after a second
`Deposit` of `b` it still holds exactly one record for the pair, with the same
id and amount `a + b`. -/
theorem C8_first_and_second_deposit (env : Env) (w : World) (walletID : Nat) (name : String)
    (a b : ℚ) (hk : env.Knows walletID) (hf : env.NoFault)
    (hok : gorm.AssetsOK w.db.assets w.assetSeq)
    (hnone : asset.lookup w.db.assets walletID name = none) :
    ∃ x y w1 w2,
      asset.service.Deposit env false { WalletID := walletID, Name := name, Amount := a } w =
          (.ok x, w1) ∧
        w1.db.assets.filter (asset.pairFilter walletID name).admits = [x] ∧ x.Amount = a ∧
      asset.service.Deposit env false { WalletID := walletID, Name := name, Amount := b } w1 =
          (.ok y, w2) ∧
        w2.db.assets.filter (asset.pairFilter walletID name).admits = [y] ∧
        y.ID = x.ID ∧ y.Amount = a + b := by
  obtain ⟨x, w1, h1, ok1, l1, a1, _, _⟩ := asset.Deposit_direct walletID name a hk hf hok
  obtain ⟨y, w2, h2, ok2, l2, a2, i2, _⟩ := asset.Deposit_direct walletID name b hk hf ok1
  refine ⟨x, y, w1, w2, h1, asset.filter_eq_singleton ok1 l1, ?_, h2,
    asset.filter_eq_singleton ok2 l2, i2 x l1, ?_⟩
  · rw [a1, asset.balance_of_none hnone, zero_add]
  · rw [a2, asset.balance_of_some l1, a1, asset.balance_of_none hnone, zero_add]

/-! ### What a store call that returned has done -/

namespace gorm

theorem insertAsset_inv {env : Env} {tx : Bool} {item : asset.Asset} {w w1 : World}
    {r : Except DBError asset.Asset} (h : CreateAsset env tx item w = (r, w1)) :
    w1.trace = w.trace ++ [Call.CreateAsset tx item] ∧
    ((∃ e, r = .error e ∧ w1.db = w.db ∧ w1.tx = w.tx) ∨
      (∃ T, w.target tx = some T ∧
        r = .ok { item with ID := newID w.assetSeq item.ID } ∧
        assetConflict T.assets { item with ID := newID w.assetSeq item.ID } = false ∧
        w1.target tx = some
          { T with assets := T.assets ++ [{ item with ID := newID w.assetSeq item.ID }] })) := by
  unfold CreateAsset at h
  dsimp only at h
  split at h
  · cases h; simp
  · split at h
    · cases h; simp
    · rename_i T hT
      split at h
      · cases h; simp
      · rename_i hc
        cases h
        refine ⟨by simp, Or.inr ⟨T, by simpa using hT, rfl, by simpa using hc, by simp⟩⟩

theorem SaveAsset_inv {env : Env} {tx : Bool} {item : asset.Asset} {w w1 : World}
    {r : Except DBError Unit} (h : SaveAsset env tx item w = (r, w1)) :
    w1.trace = w.trace ++ [Call.UpdateAsset tx item] ∧
    ((∃ e, r = .error e ∧ w1.db = w.db ∧ w1.tx = w.tx) ∨
      (r = .ok () ∧ ∃ T, w.target tx = some T ∧
        ((item.ID ≠ 0 ∧
            w1.target tx = some { T with assets := upsertAsset T.assets item }) ∨
          (item.ID = 0 ∧
            assetConflict T.assets { item with ID := w.assetSeq + 1 } = false ∧
            w1.target tx = some
              { T with assets := T.assets ++ [{ item with ID := w.assetSeq + 1 }] })))) := by
  unfold SaveAsset at h
  dsimp only at h
  split at h
  · cases h; simp
  · split at h
    · cases h; simp
    · rename_i T hT
      split at h
      · rename_i h0
        split at h
        · cases h; simp
        · rename_i hc
          cases h
          refine ⟨by simp, Or.inr ⟨rfl, T, by simpa using hT, Or.inr ⟨h0, by simpa using hc, ?_⟩⟩⟩
          simp
      · rename_i h0
        cases h
        refine ⟨by simp, Or.inr ⟨rfl, T, by simpa using hT, Or.inl ⟨h0, by simp⟩⟩⟩

theorem FindAssets_inv {env : Env} {filters : asset.Filters} {w w1 : World}
    {r : Except DBError (List asset.Asset)} (h : FindAssets env filters w = (r, w1)) :
    w1 = w.record (Call.GetAsset filters) ∧
    ((∃ e, r = .error e) ∨ r = .ok (w.db.assets.filter filters.admits)) := by
  unfold FindAssets at h
  dsimp only at h
  split at h <;> (cases h; simp)

end gorm

namespace asset
namespace repository

theorem CreateAsset_inv {env : Env} {tx : Bool} {item : Asset} {w w1 : World}
    {r : Except Error Asset} (h : CreateAsset env tx item w = (r, w1)) :
    w1.trace = w.trace ++ [Call.CreateAsset tx item] ∧
    ((∃ e, r = .error e ∧ w1.db = w.db ∧ w1.tx = w.tx) ∨
      (∃ T, w.target tx = some T ∧
        r = .ok { item with ID := gorm.newID w.assetSeq item.ID } ∧
        gorm.assetConflict T.assets { item with ID := gorm.newID w.assetSeq item.ID } = false ∧
        w1.target tx = some
          { T with assets :=
              T.assets ++ [{ item with ID := gorm.newID w.assetSeq item.ID }] })) := by
  unfold CreateAsset at h
  split at h
  · rename_i heq
    obtain ⟨t1, t2⟩ := gorm.insertAsset_inv heq
    rcases t2 with ⟨e, he, h1, h2⟩ | ⟨T, _, he, _⟩
    · split at h <;> (cases h; exact ⟨t1, Or.inl ⟨_, rfl, h1, h2⟩⟩)
    · cases he
  · rename_i heq
    obtain ⟨t1, t2⟩ := gorm.insertAsset_inv heq
    cases h
    rcases t2 with ⟨e, he, _⟩ | ⟨T, hT, he, hc, hw⟩
    · cases he
    · cases he
      exact ⟨t1, Or.inr ⟨T, hT, rfl, hc, hw⟩⟩

theorem UpdateAsset_inv {env : Env} {tx : Bool} {item : Asset} {w w1 : World}
    {r : Except Error Unit} (h : UpdateAsset env tx item w = (r, w1)) :
    w1.trace = w.trace ++ [Call.UpdateAsset tx item] ∧
    ((∃ e, r = .error e ∧ w1.db = w.db ∧ w1.tx = w.tx) ∨
      (r = .ok () ∧ ∃ T, w.target tx = some T ∧
        ((item.ID ≠ 0 ∧
            w1.target tx = some { T with assets := gorm.upsertAsset T.assets item }) ∨
          (item.ID = 0 ∧
            gorm.assetConflict T.assets { item with ID := w.assetSeq + 1 } = false ∧
            w1.target tx = some
              { T with assets := T.assets ++ [{ item with ID := w.assetSeq + 1 }] })))) := by
  unfold UpdateAsset at h
  split at h
  · rename_i heq
    obtain ⟨t1, t2⟩ := gorm.SaveAsset_inv heq
    cases h
    rcases t2 with ⟨e, he, h1, h2⟩ | ⟨he, _⟩
    · exact ⟨t1, Or.inl ⟨_, rfl, h1, h2⟩⟩
    · cases he
  · rename_i heq
    obtain ⟨t1, t2⟩ := gorm.SaveAsset_inv heq
    cases h
    rcases t2 with ⟨e, he, _⟩ | ⟨_, hT⟩
    · cases he
    · exact ⟨t1, Or.inr ⟨rfl, hT⟩⟩

theorem GetAsset_inv {env : Env} {filters : Filters} {w w1 : World}
    {r : Except Error (List Asset)} (h : GetAsset env filters w = (r, w1)) :
    w1 = w.record (Call.GetAsset filters) ∧
    ((∃ e, r = .error e) ∨ r = .ok (w.db.assets.filter filters.admits)) := by
  unfold GetAsset at h
  split at h
  · rename_i heq
    obtain ⟨t1, _⟩ := gorm.FindAssets_inv heq
    cases h
    exact ⟨t1, Or.inl ⟨_, rfl⟩⟩
  · rename_i heq
    obtain ⟨t1, t2⟩ := gorm.FindAssets_inv heq
    cases h
    rcases t2 with ⟨e, he⟩ | he
    · cases he
    · cases he
      exact ⟨t1, Or.inr rfl⟩

end repository
end asset

/-! ### Non-negative amounts -/

theorem World.NonNegative.afterRecord {w : World} (h : w.NonNegative) (c : Call) :
    (w.record c).NonNegative := by
  intro tx T hT
  exact h tx T (by simpa using hT)

/-- A world whose rows, for each handle, are old rows or non-negative rows is
non-negative. -/
theorem World.NonNegative.step {w w1 : World} (h : w.NonNegative) {tx : Bool}
    (hstep : World.LedgerStep tx w w1)
    (hrows : ∀ T1, w1.target tx = some T1 →
      ∃ T, w.target tx = some T ∧ ∀ x ∈ T1.assets, x ∈ T.assets ∨ 0 ≤ x.Amount) :
    w1.NonNegative := by
  intro tx1 T1 hT1
  by_cases htx : tx1 = tx
  · subst htx
    obtain ⟨T, hT, hx⟩ := hrows T1 hT1
    intro x hxm
    rcases hx x hxm with hx | hx
    · exact h _ T hT x hx
    · exact hx
  · obtain ⟨_, _, _, _, s5, s6⟩ := hstep
    cases tx <;> cases tx1 <;> simp at htx
    · have := s6 rfl
      exact h true T1 (by simpa [this] using hT1)
    · have := s5 rfl
      exact h false T1 (by simpa [this] using hT1)

namespace asset

theorem walletClient_inv {env : Env} {id : Nat} {w w1 : World} {r : Except Error wallet.Wallet}
    (h : wallet.GetWallet env id w = (r, w1)) :
    w1 = w.record (Call.GetWallet id) ∧ r = env.GetWallet w.trace.length id := by
  unfold wallet.GetWallet at h
  obtain ⟨ha, hb⟩ := Prod.mk.inj h
  exact ⟨hb.symm, ha.symm⟩

namespace repository

theorem CreateAsset_nonneg {env : Env} {tx : Bool} {item : Asset} {w w1 : World}
    {r : Except Error Asset} (h : CreateAsset env tx item w = (r, w1))
    (hitem : 0 ≤ item.Amount) (hw : w.NonNegative) :
    w1.NonNegative ∧ ∀ row, r = .ok row → row.Amount = item.Amount := by
  have hstep := CreateAsset_step h
  obtain ⟨_, hcase⟩ := CreateAsset_inv h
  rcases hcase with ⟨e, he, h1, h2⟩ | ⟨T, hT, hr, _, hT1⟩
  · refine ⟨hw.step hstep ?_, ?_⟩
    · intro T1 hT1
      refine ⟨T1, ?_, fun x hx => Or.inl hx⟩
      cases tx <;> simp_all
    · intro row hrow; rw [he] at hrow; cases hrow
  · refine ⟨hw.step hstep ?_, ?_⟩
    · intro T1 h1
      rw [hT1] at h1
      cases h1
      refine ⟨T, hT, fun x hx => ?_⟩
      simp at hx
      rcases hx with hx | hx
      · exact Or.inl hx
      · right; rw [hx]; exact hitem
    · intro row hrow; rw [hr] at hrow; cases hrow; rfl

theorem UpdateAsset_nonneg {env : Env} {tx : Bool} {item : Asset} {w w1 : World}
    {r : Except Error Unit} (h : UpdateAsset env tx item w = (r, w1))
    (hitem : 0 ≤ item.Amount) (hw : w.NonNegative) : w1.NonNegative := by
  have hstep := UpdateAsset_step h
  obtain ⟨_, hcase⟩ := UpdateAsset_inv h
  rcases hcase with ⟨e, he, h1, h2⟩ | ⟨_, T, hT, ⟨_, hT1⟩ | ⟨_, _, hT1⟩⟩
  · refine hw.step hstep ?_
    intro T1 hT1
    refine ⟨T1, ?_, fun x hx => Or.inl hx⟩
    cases tx <;> simp_all
  · refine hw.step hstep ?_
    intro T1 h1
    rw [hT1] at h1
    cases h1
    refine ⟨T, hT, fun x hx => ?_⟩
    rcases gorm.mem_upsertAsset hx with hx | hx
    · right; rw [hx]; exact hitem
    · exact Or.inl hx.1
  · refine hw.step hstep ?_
    intro T1 h1
    rw [hT1] at h1
    cases h1
    refine ⟨T, hT, fun x hx => ?_⟩
    simp at hx
    rcases hx with hx | hx
    · exact Or.inl hx
    · right; rw [hx]; exact hitem

theorem GetAsset_nonneg {env : Env} {filters : Filters} {w w1 : World}
    {r : Except Error (List Asset)} (h : GetAsset env filters w = (r, w1))
    (hw : w.NonNegative) :
    w1.NonNegative ∧ ∀ rows, r = .ok rows → ∀ a ∈ rows, 0 ≤ a.Amount := by
  obtain ⟨h1, h2⟩ := GetAsset_inv h
  subst h1
  refine ⟨hw.afterRecord _, ?_⟩
  intro rows hrows a ha
  rcases h2 with ⟨e, he⟩ | he
  · rw [he] at hrows; cases hrows
  · rw [he] at hrows
    cases hrows
    exact hw false w.db rfl a (List.mem_of_mem_filter ha)

end repository

namespace service

theorem Deposit_nonneg {env : Env} {tx : Bool} {req : CreateDepositRequest} {w : World}
    (hreq : 0 ≤ req.Amount) (hw : w.NonNegative) : (Deposit env tx req w).2.NonNegative := by
  unfold Deposit
  split
  · rename_i h1
    rw [(walletClient_inv h1).1]
    exact hw.afterRecord _
  · rename_i h1
    obtain ⟨h1, _⟩ := walletClient_inv h1
    subst h1
    have n1 := hw.afterRecord (Call.GetWallet req.WalletID)
    split
    · rename_i h2
      exact (repository.GetAsset_nonneg h2 n1).1
    · rename_i assets w2 h2
      obtain ⟨n2, hrows⟩ := repository.GetAsset_nonneg h2 n1
      dsimp only
      split
      · rename_i h3
        split at h3
        · exact (repository.CreateAsset_nonneg h3 (le_refl _) n2).1
        · cases h3
      · rename_i x w3 h3
        have hx : w3.NonNegative ∧ 0 ≤ x.Amount := by
          split at h3
          · obtain ⟨c1, c2⟩ := repository.CreateAsset_nonneg h3 (le_refl _) n2
            exact ⟨c1, by rw [c2 x rfl]⟩
          · cases h3
            exact ⟨n2, hrows _ rfl _ (List.mem_cons_self _ _)⟩
        split <;>
          (rename_i h4
           exact repository.UpdateAsset_nonneg h4 (by simp; linarith [hx.2]) hx.1)

theorem Withdraw_nonneg {env : Env} {tx : Bool} {req : CreateWithdrawRequest} {w : World}
    (hw : w.NonNegative) : (Withdraw env tx req w).2.NonNegative := by
  unfold Withdraw
  split
  · rename_i h1
    rw [(walletClient_inv h1).1]
    exact hw.afterRecord _
  · rename_i h1
    obtain ⟨h1, _⟩ := walletClient_inv h1
    subst h1
    have n1 := hw.afterRecord (Call.GetWallet req.WalletID)
    split
    · rename_i h2
      exact (repository.GetAsset_nonneg h2 n1).1
    · rename_i assets w2 h2
      obtain ⟨n2, hrows⟩ := repository.GetAsset_nonneg h2 n1
      dsimp only
      split
      · rename_i h3
        split at h3
        · exact (repository.CreateAsset_nonneg h3 (le_refl _) n2).1
        · cases h3
      · rename_i x w3 h3
        have hx : w3.NonNegative ∧ 0 ≤ x.Amount := by
          split at h3
          · obtain ⟨c1, c2⟩ := repository.CreateAsset_nonneg h3 (le_refl _) n2
            exact ⟨c1, by rw [c2 x rfl]⟩
          · cases h3
            exact ⟨n2, hrows _ rfl _ (List.mem_cons_self _ _)⟩
        split
        · exact hx.1
        · rename_i hlt
          split <;>
            (rename_i h4
             exact repository.UpdateAsset_nonneg h4 (by simp; linarith [hx.2]) hx.1)

end service
end asset

/-- C4, as the code has it.  Starting from a store in which every balance
amount is non-negative (committed rows and rows of an open transaction), every
balance amount is still non-negative after `CreateAsset` with a request whose
amount is non-negative, and after `Deposit` or `Withdraw` with a positive
amount. -/
theorem C4_nonnegative_kept (env : Env) (w : World) (hw : w.NonNegative) :
    (∀ tx (req : asset.CreateAssetRequest), 0 ≤ req.Amount →
      (asset.service.CreateAsset env tx req w).2.NonNegative) ∧
    (∀ tx (req : asset.CreateDepositRequest), 0 < req.Amount →
      (asset.service.Deposit env tx req w).2.NonNegative) ∧
    (∀ tx (req : asset.CreateWithdrawRequest), 0 < req.Amount →
      (asset.service.Withdraw env tx req w).2.NonNegative) := by
  refine ⟨fun tx req hreq => ?_, fun tx req hreq => ?_, fun tx req _ => ?_⟩
  · have hrun : asset.repository.CreateAsset env tx
        { ID := 0, WalletID := req.WalletID, Name := req.Name, Amount := req.Amount } w =
        ((asset.service.CreateAsset env tx req w).1, (asset.service.CreateAsset env tx req w).2) :=
      rfl
    exact (asset.repository.CreateAsset_nonneg hrun hreq hw).1
  · exact asset.service.Deposit_nonneg (le_of_lt hreq) hw
  · exact asset.service.Withdraw_nonneg hw

/-- C4 fails as stated: a `CreateAsset` request with amount -5 passes
`Validate`, the service accepts it, and the store then holds a negative
balance. -/
theorem C4_counterexample_negative_create :
    asset.CreateAssetRequest.Validate { WalletID := 1, Name := "BTC", Amount := -5 } = none ∧
    asset.NonNegative (World.ofRows [] []).db.assets ∧
    (asset.service.CreateAsset calmEnv false { WalletID := 1, Name := "BTC", Amount := -5 }
        (World.ofRows [] [])).1 = .ok { ID := 1, WalletID := 1, Name := "BTC", Amount := -5 } ∧
    ¬ asset.NonNegative
      (asset.service.CreateAsset calmEnv false { WalletID := 1, Name := "BTC", Amount := -5 }
        (World.ofRows [] [])).2.db.assets := by
  decide!

namespace asset
namespace service

/-- The three ways a direct `Withdraw` can end: with an error and nothing
written; with an error after the zero-balance record of a pair without record
was created; or accepted, which needs a balance that covers the amount. -/
theorem Withdraw_outcome {env : Env} {req : CreateWithdrawRequest} {w w1 : World}
    {r : Except Error Asset} (h : Withdraw env false req w = (r, w1)) :
    ((∃ e, r = .error e) ∧ w1.db = w.db) ∨
    (∃ wl e, env.GetWallet w.trace.length req.WalletID = .ok wl ∧
      lookup w.db.assets req.WalletID req.Name = none ∧ r = .error e ∧
      w1.db.assets = w.db.assets ++
        [{ ID := w.assetSeq + 1, WalletID := wl.ID, Name := req.Name, Amount := 0 }]) ∨
    ((∃ x, r = .ok x) ∧ req.Amount ≤ balance w.db.assets req.WalletID req.Name) := by
  unfold Withdraw at h
  split at h
  · rename_i h1
    obtain ⟨h1, _⟩ := walletClient_inv h1
    cases h
    exact Or.inl ⟨⟨_, rfl⟩, by rw [h1]; rfl⟩
  · rename_i wl wa h1
    obtain ⟨h1, hwl⟩ := walletClient_inv h1
    subst h1
    split at h
    · rename_i h2
      obtain ⟨h2, _⟩ := repository.GetAsset_inv h2
      cases h
      exact Or.inl ⟨⟨_, rfl⟩, by rw [h2]; rfl⟩
    · rename_i assets w2 h2
      obtain ⟨h2, hrows⟩ := repository.GetAsset_inv h2
      subst h2
      have hassets : assets = w.db.assets.filter (pairFilter req.WalletID req.Name).admits := by
        rcases hrows with ⟨e, he⟩ | he
        · cases he
        · cases he; rfl
      dsimp only at h
      split at h
      · rename_i h3
        split at h3
        · obtain ⟨_, hc⟩ := repository.CreateAsset_inv h3
          rcases hc with ⟨e, he, hdb, _⟩ | ⟨T, _, he, _⟩
          · cases h
            exact Or.inl ⟨⟨_, rfl⟩, by rw [hdb]; rfl⟩
          · cases he
        · cases h3
      · rename_i x w3 h3
        split at h3
        · -- the pair has no record: the zero record is created
          have hnone : lookup w.db.assets req.WalletID req.Name = none :=
            lookup_eq_none.mpr hassets.symm
          obtain ⟨_, hc⟩ := repository.CreateAsset_inv h3
          rcases hc with ⟨e, he, _⟩ | ⟨T, hT, he, _, hT1⟩
          · cases he
          · simp only [World.target_false, World.record_db, Option.some.injEq] at hT hT1
            subst hT
            cases he
            have hw3 : w3.db.assets = w.db.assets ++
                [{ ID := w.assetSeq + 1, WalletID := wl.ID, Name := req.Name, Amount := 0 }] := by
              rw [hT1]; simp [gorm.newID]
            split at h
            · cases h
              exact Or.inr (Or.inl ⟨wl, _, hwl.symm, hnone, rfl, hw3⟩)
            · rename_i hlt
              have hle : req.Amount ≤ balance w.db.assets req.WalletID req.Name := by
                rw [balance_of_none hnone]
                simpa using hlt
              split at h
              · rename_i h4
                obtain ⟨_, _, s3, _, _, s6⟩ := repository.UpdateAsset_step h4
                obtain ⟨_, hu⟩ := repository.UpdateAsset_inv h4
                cases h
                rcases hu with ⟨e, he, hdb, _⟩ | ⟨he, _⟩
                · exact Or.inr (Or.inl ⟨wl, _, hwl.symm, hnone, rfl, by rw [hdb]; exact hw3⟩)
                · cases he
              · cases h
                exact Or.inr (Or.inr ⟨⟨_, rfl⟩, hle⟩)
        · -- the pair has the record `x`
          rename_i a rest
          cases h3
          have hsome : lookup w.db.assets req.WalletID req.Name = some x :=
            lookup_eq_some.mpr ⟨rest, hassets.symm⟩
          split at h
          · cases h
            exact Or.inl ⟨⟨_, rfl⟩, rfl⟩
          · rename_i hlt
            have hle : req.Amount ≤ balance w.db.assets req.WalletID req.Name := by
              rw [balance_of_some hsome]
              exact not_lt.mp hlt
            split at h
            · rename_i h4
              obtain ⟨_, hu⟩ := repository.UpdateAsset_inv h4
              cases h
              rcases hu with ⟨e, he, hdb, _⟩ | ⟨he, _⟩
              · exact Or.inl ⟨⟨_, rfl⟩, by rw [hdb]; rfl⟩
              · cases he
            · cases h
              exact Or.inr (Or.inr ⟨⟨_, rfl⟩, hle⟩)

end service
end asset

/-- C6, as the code has it.  A direct `Withdraw` (no transaction scope) whose
amount exceeds the current balance of the pair, a pair without record counting
as balance 0, returns an error and updates or removes no balance record: when
the pair has a record the store is identical afterwards; when it has none the
store is identical except that the zero-balance record of the pair may have
been created. -/
theorem C6_rejected_withdraw_effect (env : Env) (req : asset.CreateWithdrawRequest) (w : World)
    (hdir : env.Faithful)
    (hbal : asset.balance w.db.assets req.WalletID req.Name < req.Amount) :
    (∃ e, (asset.service.Withdraw env false req w).1 = .error e) ∧
    (asset.service.Withdraw env false req w).2.db.transactions = w.db.transactions ∧
    (asset.service.Withdraw env false req w).2.tx = w.tx ∧
    ((∃ a, asset.lookup w.db.assets req.WalletID req.Name = some a) →
      (asset.service.Withdraw env false req w).2.db = w.db) ∧
    (asset.lookup w.db.assets req.WalletID req.Name = none →
      (asset.service.Withdraw env false req w).2.db.assets = w.db.assets ∨
      (asset.service.Withdraw env false req w).2.db.assets = w.db.assets ++
        [{ ID := w.assetSeq + 1, WalletID := req.WalletID, Name := req.Name, Amount := 0 }]) := by
  obtain ⟨r, w1, h⟩ : ∃ r w1, asset.service.Withdraw env false req w = (r, w1) := ⟨_, _, rfl⟩
  obtain ⟨_, _, s3, _, _, s6⟩ := asset.service.Withdraw_step h
  rw [h]
  refine ⟨?_, s3, s6 rfl, ?_⟩
  · rcases asset.service.Withdraw_outcome h with ⟨he, _⟩ | ⟨_, e, _, _, he, _⟩ | ⟨_, hle⟩
    · exact he
    · exact ⟨e, he⟩
    · exact absurd hbal (not_lt.mpr hle)
  · rcases asset.service.Withdraw_outcome h with ⟨_, hdb⟩ | ⟨wl, e, hwl, hnone, _, hrows⟩ | ⟨_, hle⟩
    · exact ⟨fun _ => hdb, fun _ => Or.inl (by rw [hdb])⟩
    · refine ⟨fun ⟨a, ha⟩ => ?_, fun _ => Or.inr ?_⟩
      · rw [hnone] at ha; cases ha
      · rw [hrows, hdir _ _ _ hwl]
    · exact absurd hbal (not_lt.mpr hle)

/-- C6 fails as stated: on an empty store a direct `Withdraw` of 5 for wallet 1
and "BTC" is rejected, and afterwards the store holds a balance record that
was not there before. -/
theorem C6_counterexample_record_created :
    asset.balance (World.ofRows [] []).db.assets 1 "BTC" < 5 ∧
    (asset.service.Withdraw calmEnv false { WalletID := 1, Name := "BTC", Amount := 5 }
        (World.ofRows [] [])).1 = .error (Error.New "amount is not enough to withdraw") ∧
    (World.ofRows [] []).db.assets = [] ∧
    (asset.service.Withdraw calmEnv false { WalletID := 1, Name := "BTC", Amount := 5 }
        (World.ofRows [] [])).2.db.assets =
      [{ ID := 1, WalletID := 1, Name := "BTC", Amount := 0 }] := by
  decide!

/-- C7. A successful `Deposit` of `req.Amount` on the pair
(`req.WalletID`, `req.Name`), the directory answering with the wallet asked
for, `T` the rows the call writes to (the committed rows for a call without
scope): the returned record `r` belongs to the pair, carries the id of the
pair's record when there was one, and holds the prior amount, the one of
the committed record that the lookup reads (0 without record), plus the
deposit; the rows afterwards are the rows before with the
row of that id replaced by `r`, or with `r` added when there was none; no
other row is created or changed; the directory was queried exactly once. -/
theorem C7_successful_deposit (env : Env) (tx : Bool) (req : asset.CreateDepositRequest)
    (w w1 : World) (r : asset.Asset) (T : Tables)
    (h : asset.service.Deposit env tx req w = (.ok r, w1))
    (hdir : env.Faithful) (hT : w.target tx = some T)
    (hids : ∀ a ∈ w.db.assets, a.ID ≠ 0) :
    r.WalletID = req.WalletID ∧ r.Name = req.Name ∧
    r.Amount = asset.balance w.db.assets req.WalletID req.Name + req.Amount ∧
    (∀ a, asset.lookup w.db.assets req.WalletID req.Name = some a → r.ID = a.ID) ∧
    w1.target tx = some { T with assets := gorm.upsertAsset T.assets r } ∧
    r ∈ gorm.upsertAsset T.assets r ∧
    (∀ x ∈ T.assets, x.ID ≠ r.ID → x ∈ gorm.upsertAsset T.assets r) ∧
    (∀ x ∈ gorm.upsertAsset T.assets r, x = r ∨ (x ∈ T.assets ∧ x.ID ≠ r.ID)) ∧
    directoryQueries w1.trace = directoryQueries w.trace + 1 := by
  have hmemb : r ∈ gorm.upsertAsset T.assets r ∧
      (∀ x ∈ T.assets, x.ID ≠ r.ID → x ∈ gorm.upsertAsset T.assets r) ∧
      (∀ x ∈ gorm.upsertAsset T.assets r, x = r ∨ (x ∈ T.assets ∧ x.ID ≠ r.ID)) :=
    ⟨gorm.self_mem_upsertAsset _ _, fun x hx hne => gorm.mem_upsertAsset_of_ne hx hne,
      fun x hx => gorm.mem_upsertAsset hx⟩
  unfold asset.service.Deposit at h
  split at h
  · cases h
  · rename_i wl wa h1
    obtain ⟨h1, hwl⟩ := asset.walletClient_inv h1
    subst h1
    have hwlid : wl.ID = req.WalletID := hdir _ _ _ hwl.symm
    split at h
    · cases h
    · rename_i assets w2 h2
      obtain ⟨h2, hrows⟩ := asset.repository.GetAsset_inv h2
      subst h2
      have hassets :
          assets = w.db.assets.filter (asset.pairFilter req.WalletID req.Name).admits := by
        rcases hrows with ⟨e, he⟩ | he
        · cases he
        · cases he; rfl
      dsimp only at h
      split at h
      · cases h
      · rename_i x w3 h3
        split at h
        · cases h
        · rename_i u w4 h4
          obtain ⟨hr, hw1⟩ : r = { x with Amount := x.Amount + req.Amount } ∧ w1 = w4 := by
            cases h; exact ⟨rfl, rfl⟩
          subst hw1
          obtain ⟨t4, hu⟩ := asset.repository.UpdateAsset_inv h4
          split at h3
          · -- no record: created, then saved
            have hnone : asset.lookup w.db.assets req.WalletID req.Name = none :=
              asset.lookup_eq_none.mpr hassets.symm
            obtain ⟨t3, hc⟩ := asset.repository.CreateAsset_inv h3
            rcases hc with ⟨e, he, _⟩ | ⟨T0, hT0, he, hfree, hT3⟩
            · cases he
            · have hx : x = ⟨w.assetSeq + 1, wl.ID, req.Name, 0⟩ := by
                have := Except.ok.inj he
                simpa [gorm.newID] using this
              subst hx
              simp only [zero_add] at hr
              subst hr
              simp only [World.record_target] at hT0
              rw [hT] at hT0
              cases hT0
              simp only [gorm.newID, if_true, World.record_assetSeq] at hfree hT3
              rcases hu with ⟨e, he, _⟩ | ⟨_, T3, hT3', ⟨_, hT4⟩ | ⟨h0, _⟩⟩
              · cases he
              · rw [hT3] at hT3'
                cases hT3'
                have hno : ∀ x ∈ T.assets, x.ID ≠ w.assetSeq + 1 := by
                  intro x hx hid
                  have := List.any_eq_false.mp hfree x hx
                  simp [hid] at this
                refine ⟨hwlid, rfl, ?_, ?_, ?_, hmemb.1, hmemb.2.1, hmemb.2.2, ?_⟩
                · simp [asset.balance_of_none hnone]
                · intro a ha; rw [hnone] at ha; cases ha
                · dsimp only at hT4
                  simp only [zero_add] at hT4
                  rw [hT4, gorm.upsertAsset_last T.assets ⟨w.assetSeq + 1, wl.ID, req.Name, 0⟩
                      ⟨w.assetSeq + 1, wl.ID, req.Name, req.Amount⟩ rfl hfree,
                    gorm.upsertAsset_of_not_mem (fun x hx => hno x hx)]
                · rw [t4, t3]
                  simp [directoryQueries, List.countP_append, List.countP_cons,
                    Call.isGetWallet]
              · simp at h0
          · -- the record `x` of the pair is saved with the new amount
            rename_i a rest
            cases h3
            subst hr
            have hsome : asset.lookup w.db.assets req.WalletID req.Name = some x :=
              asset.lookup_eq_some.mpr ⟨rest, hassets.symm⟩
            have hmem := asset.lookup_mem hsome
            have hxid : x.ID ≠ 0 := hids x hmem.1
            rcases hu with ⟨e, he, _⟩ | ⟨_, T3, hT3', ⟨_, hT4⟩ | ⟨h0, _⟩⟩
            · cases he
            · simp only [World.record_target] at hT3'
              rw [hT] at hT3'
              cases hT3'
              refine ⟨hmem.2.1, hmem.2.2, ?_, ?_, hT4, hmemb.1, hmemb.2.1, hmemb.2.2, ?_⟩
              · simp [asset.balance_of_some hsome]
              · intro a ha; rw [hsome] at ha; cases ha; rfl
              · rw [t4]
                simp [directoryQueries, List.countP_append, List.countP_cons,
                  Call.isGetWallet]
            · exact absurd h0 hxid

/-! ### A transfer that goes through -/

namespace gorm

theorem mem_upsertTransaction {rows : List transaction.Transaction}
    {item x : transaction.Transaction} (h : x ∈ upsertTransaction rows item) :
    x = item ∨ (x ∈ rows ∧ x.ID ≠ item.ID) := by
  unfold upsertTransaction at h
  split at h
  · rw [List.mem_map] at h
    obtain ⟨r, hr, hx⟩ := h
    by_cases hid : r.ID = item.ID
    · left; simp [hid] at hx; exact hx.symm
    · right; simp [hid] at hx; subst hx; exact ⟨hr, hid⟩
  · rename_i hany
    rw [List.mem_append] at h
    rcases h with h | h
    · right
      refine ⟨h, ?_⟩
      intro hid
      apply hany
      simp
      exact ⟨x, h, hid⟩
    · left; simpa using h

theorem self_mem_upsertTransaction (rows : List transaction.Transaction)
    (item : transaction.Transaction) : item ∈ upsertTransaction rows item := by
  unfold upsertTransaction
  split
  · rename_i hany
    simp at hany
    obtain ⟨r, hr, hid⟩ := hany
    rw [List.mem_map]
    exact ⟨r, hr, by simp [hid]⟩
  · simp

end gorm

namespace transaction
namespace repository

theorem UpdateTransaction_ok (env : Env) (tx : Bool) (item : Transaction) (w : World)
    (T : Tables) (hf : env.fault w.trace.length = none) (hT : w.target tx = some T)
    (hid : item.ID ≠ 0) :
    UpdateTransaction env tx item w =
      (.ok (), (w.record (Call.UpdateTransaction tx item)).setTarget tx
        { T with transactions := gorm.upsertTransaction T.transactions item }) := by
  simp [UpdateTransaction, gorm.SaveTransaction, hf, hT, hid]

end repository
end transaction

namespace gorm

theorem Begin_ok {env : Env} (w : World) (hf : env.fault w.trace.length = none) :
    ∃ w0, Begin env w = (.ok (), w0) ∧ w0.db = w.db ∧ w0.tx = some w.db ∧
      w0.assetSeq = w.assetSeq ∧ w0.transactionSeq = w.transactionSeq ∧ w0.log = w.log ∧
      w0.trace = w.trace ++ [Call.Begin] := by
  simp [Begin, hf]

end gorm

namespace scheduler

/-- With a working store, a unit that returns without error is committed: the
committed rows become the rows of the transaction. -/
theorem process_commit {env : Env} {w w0 w2 : World} {t : transaction.Transaction}
    {T2 : Tables} (hf : env.NoFault) (hb : gorm.Begin env w = (.ok (), w0))
    (hu : atomicUnit env t true w0 = (.ok (), w2)) (hT2 : w2.tx = some T2) :
    (process env w t).db = T2 ∧
      (process env w t).log = w.log ++ [LogEntry.InfoID "transaction completed" t.ID] := by
  have hlog := (atomicUnit_scope hu).2.1
  have hlog0 : w0.log = w.log := by
    obtain ⟨w0', h1, _, _, _, _, h2, _⟩ := gorm.Begin_ok w (hf _)
    rw [hb] at h1
    cases h1
    exact h2
  simp only [process, transaction.repository.InTransaction, hb, hu, gorm.Commit, hf _,
    World.record_tx, hT2]
  simp [World.logLine, hlog, hlog0]

end scheduler

namespace scheduler

/-- Processing a stored transfer `t` in the body of the executor loop, with
source wallet different from destination wallet, both wallets known to the
directory, a positive amount covered by the source balance, and a working
store, applies the transfer. -/
theorem process_moves_amount (env : Env) (w : World) (t : transaction.Transaction)
    (hf : env.NoFault) (hsrc : env.Knows t.SourceWalletID)
    (hdst : env.Knows t.DestinationWalletID)
    (hok : gorm.AssetsOK w.db.assets w.assetSeq)
    (htx : gorm.TransactionsOK w.db.transactions w.transactionSeq)
    (ht : t ∈ w.db.transactions)
    (hne : t.SourceWalletID ≠ t.DestinationWalletID) (hpos : 0 < t.Amount)
    (hbal : t.Amount ≤ asset.balance w.db.assets t.SourceWalletID t.AssetName) :
    Moved t w (process env w t) := by
  unfold Moved
  have htid : t.ID ≠ 0 := by have := htx.1 t ht; omega
  -- the source record
  obtain ⟨a, ha⟩ : ∃ a, asset.lookup w.db.assets t.SourceWalletID t.AssetName = some a := by
    cases hl : asset.lookup w.db.assets t.SourceWalletID t.AssetName with
    | none => rw [asset.balance_of_none hl] at hbal; exact absurd hpos (not_lt.mpr hbal)
    | some a => exact ⟨a, rfl⟩
  have hamem := asset.lookup_mem ha
  have haid : a.ID ≠ 0 := by have := hok.1 a hamem.1; omega
  have hale : t.Amount ≤ a.Amount := by rwa [asset.balance_of_some ha] at hbal
  obtain ⟨rest, harest⟩ := asset.lookup_eq_some.mp ha
  -- begin
  obtain ⟨w0, hb, b1, b2, b3, _, _, _⟩ := gorm.Begin_ok w (hf _)
  -- withdraw inside the transaction
  obtain ⟨wa, hW, wseq, _, hTa⟩ := asset.service.Withdraw_found env true
    { WalletID := t.SourceWalletID, Name := t.AssetName, Amount := t.Amount }
    w0 { ID := t.SourceWalletID } a rest w.db
    (hsrc _) hf (by rw [b1]; exact harest) (by simpa using b2) haid hale
  have hWstep := asset.service.Withdraw_step hW
  have hadb : wa.db = w.db := by rw [hWstep.2.2.2.2.1 rfl, b1]
  simp only [World.target_true] at hTa
  have hok1 : gorm.AssetsOK
      (gorm.upsertAsset w.db.assets { a with Amount := a.Amount - t.Amount }) w.assetSeq :=
    hok.upsert hamem.1 rfl rfl rfl
  -- rows of the source pair and of the destination pair after the withdraw
  have hsrc1 : asset.lookup
      (gorm.upsertAsset w.db.assets { a with Amount := a.Amount - t.Amount })
      t.SourceWalletID t.AssetName = some { a with Amount := a.Amount - t.Amount } :=
    asset.lookup_upsert_self _ ha rfl hamem.2.1 hamem.2.2
  have hdst1 : (gorm.upsertAsset w.db.assets { a with Amount := a.Amount - t.Amount }).filter
      (asset.pairFilter t.DestinationWalletID t.AssetName).admits =
      w.db.assets.filter (asset.pairFilter t.DestinationWalletID t.AssetName).admits := by
    apply gorm.filter_upsertAsset_other
    · intro r hr hrid
      have : r = a := hok.sameAsset hr hamem.1 hrid
      subst this
      rw [Bool.eq_false_iff, Ne, asset.pairFilter_admits]
      intro h; exact hne (hamem.2.1.symm.trans h.1)
    · rw [Bool.eq_false_iff, Ne, asset.pairFilter_admits]
      intro h; exact hne (hamem.2.1.symm.trans h.1)
  -- deposit inside the transaction
  obtain ⟨y, wb, rows2, hD, hTb, hs2, hd2⟩ : ∃ y wb rows2,
      asset.service.Deposit env true
        { WalletID := t.DestinationWalletID, Name := t.AssetName, Amount := t.Amount } wa =
          (.ok y, wb) ∧
      wb.tx = some { assets := rows2, transactions := w.db.transactions } ∧
      asset.balance rows2 t.SourceWalletID t.AssetName = a.Amount - t.Amount ∧
      asset.balance rows2 t.DestinationWalletID t.AssetName =
        asset.balance w.db.assets t.DestinationWalletID t.AssetName + t.Amount := by
    cases hl : asset.lookup w.db.assets t.DestinationWalletID t.AssetName with
    | none =>
      have hnone := asset.lookup_eq_none.mp hl
      have hfree : gorm.assetConflict
          (gorm.upsertAsset w.db.assets { a with Amount := a.Amount - t.Amount })
          { ID := wa.assetSeq + 1, WalletID := t.DestinationWalletID, Name := t.AssetName,
            Amount := 0 } = false := by
        rw [wseq, b3]
        apply hok1.free
        intro r hr hp
        rcases gorm.mem_upsertAsset hr with hr | hr
        · subst hr
          exact hne (hamem.2.1.symm.trans hp.1)
        · exact asset.lookup_none_not_mem hl r hr.1 hp
      obtain ⟨wb, hD, _, hTb⟩ := asset.service.Deposit_new env true
        { WalletID := t.DestinationWalletID, Name := t.AssetName, Amount := t.Amount }
        wa { ID := t.DestinationWalletID }
        { w.db with assets :=
          gorm.upsertAsset w.db.assets { a with Amount := a.Amount - t.Amount } }
        (hdst _) hf (by rw [hadb]; exact hnone) (by simpa using hTa) hfree
      refine ⟨_, wb, _, hD, by simpa using hTb, ?_, ?_⟩
      · have : asset.lookup
            (gorm.upsertAsset w.db.assets { a with Amount := a.Amount - t.Amount } ++
              [{ ID := wa.assetSeq + 1, WalletID := t.DestinationWalletID,
                 Name := t.AssetName, Amount := t.Amount }])
            t.SourceWalletID t.AssetName = some { a with Amount := a.Amount - t.Amount } := by
          obtain ⟨rest1, hrest1⟩ := asset.lookup_eq_some.mp hsrc1
          apply asset.lookup_eq_some.mpr
          refine ⟨rest1, ?_⟩
          rw [List.filter_append, hrest1]
          simp [List.filter_cons, asset.pairFilter_admits, Ne.symm hne]
        rw [asset.balance_of_some this]
      · have : asset.lookup
            (gorm.upsertAsset w.db.assets { a with Amount := a.Amount - t.Amount } ++
              [{ ID := wa.assetSeq + 1, WalletID := t.DestinationWalletID,
                 Name := t.AssetName, Amount := t.Amount }])
            t.DestinationWalletID t.AssetName =
            some { ID := wa.assetSeq + 1, WalletID := t.DestinationWalletID,
                   Name := t.AssetName, Amount := t.Amount } := by
          unfold asset.lookup
          rw [List.filter_append, hdst1, hnone]
          simp [List.filter_cons, asset.pairFilter_admits]
        rw [asset.balance_of_some this, asset.balance_of_none hl, zero_add]
    | some b =>
      obtain ⟨rest2, hbrest⟩ := asset.lookup_eq_some.mp hl
      have hbmem := asset.lookup_mem hl
      have hbid : b.ID ≠ 0 := by have := hok.1 b hbmem.1; omega
      have hab : a.ID ≠ b.ID := by
        intro h
        have : a = b := hok.sameAsset hamem.1 hbmem.1 h
        subst this
        exact hne (hamem.2.1.symm.trans hbmem.2.1)
      obtain ⟨wb, hD, _, hTb⟩ := asset.service.Deposit_found env true
        { WalletID := t.DestinationWalletID, Name := t.AssetName, Amount := t.Amount }
        wa { ID := t.DestinationWalletID } b rest2
        { w.db with assets :=
          gorm.upsertAsset w.db.assets { a with Amount := a.Amount - t.Amount } }
        (hdst _) hf (by rw [hadb]; exact hbrest) (by simpa using hTa) hbid
      refine ⟨_, wb, _, hD, by simpa using hTb, ?_, ?_⟩
      · have hfl : (gorm.upsertAsset
              (gorm.upsertAsset w.db.assets { a with Amount := a.Amount - t.Amount })
              { b with Amount := b.Amount + t.Amount }).filter
              (asset.pairFilter t.SourceWalletID t.AssetName).admits =
            (gorm.upsertAsset w.db.assets { a with Amount := a.Amount - t.Amount }).filter
              (asset.pairFilter t.SourceWalletID t.AssetName).admits := by
          apply gorm.filter_upsertAsset_other
          · intro r hr hrid
            rw [Bool.eq_false_iff, Ne, asset.pairFilter_admits]
            intro hp
            rcases gorm.mem_upsertAsset hr with hr | hr
            · subst hr
              exact hab hrid
            · have : r = b := hok.sameAsset hr.1 hbmem.1 hrid
              subst this
              exact hne (hp.1.symm.trans hbmem.2.1)
          · rw [Bool.eq_false_iff, Ne, asset.pairFilter_admits]
            intro hp
            exact hne (hp.1.symm.trans hbmem.2.1)
        have : asset.lookup (gorm.upsertAsset
              (gorm.upsertAsset w.db.assets { a with Amount := a.Amount - t.Amount })
              { b with Amount := b.Amount + t.Amount })
            t.SourceWalletID t.AssetName = some { a with Amount := a.Amount - t.Amount } := by
          unfold asset.lookup
          rw [hfl]
          exact hsrc1
        rw [asset.balance_of_some this]
      · have hl1 : asset.lookup
            (gorm.upsertAsset w.db.assets { a with Amount := a.Amount - t.Amount })
            t.DestinationWalletID t.AssetName = some b := by
          unfold asset.lookup
          rw [hdst1]
          exact hl
        have := asset.lookup_upsert_self { b with Amount := b.Amount + t.Amount }
          hl1 rfl hbmem.2.1 hbmem.2.2
        rw [asset.balance_of_some this, asset.balance_of_some hl]
  -- the status update and the commit
  have hDstep := asset.service.Deposit_step hD
  have hU := transaction.repository.UpdateTransaction_ok env true
    { t with Status := transaction.TransactionCompleted } wb
    { assets := rows2, transactions := w.db.transactions } (hf _)
    (by simpa using hTb) htid
  obtain ⟨w2, hunit, hw2⟩ : ∃ w2, scheduler.atomicUnit env t true w0 = (.ok (), w2) ∧
      w2.tx = some ⟨rows2, gorm.upsertTransaction w.db.transactions
        { t with Status := transaction.TransactionCompleted }⟩ := by
    simp only [scheduler.atomicUnit, hW, hD, hU]
    exact ⟨_, rfl, by simp⟩
  obtain ⟨hdb, _⟩ := scheduler.process_commit hf hb hunit hw2
  rw [hdb]
  refine ⟨?_, hd2, gorm.self_mem_upsertTransaction _ _, ?_⟩
  · rw [hs2, asset.balance_of_some ha]
  · intro x hx hxid
    rcases gorm.mem_upsertTransaction hx with hx | hx
    · rw [hx]
    · exact absurd hxid hx.2

end scheduler

/-- C1. A pending transfer `t` that is due, with source wallet different from
destination wallet, both wallets known to the directory, a positive amount
covered by the source balance, on a working store: processing `t` in the body
of the executor loop leaves the source balance of the asset lower by exactly
the amount, the destination balance higher by exactly the amount (a missing
destination record counting as 0) and the transfer stored as completed; and so
does a whole cycle of the executor at clock reading `now` when `t` is the
transfer its poll returns. -/
theorem C1_transfer_moves_amount (env : Env) (w : World) (t : transaction.Transaction)
    (hf : env.NoFault) (hsrc : env.Knows t.SourceWalletID)
    (hdst : env.Knows t.DestinationWalletID)
    (hok : gorm.AssetsOK w.db.assets w.assetSeq)
    (htx : gorm.TransactionsOK w.db.transactions w.transactionSeq)
    (ht : t ∈ w.db.transactions)
    (hne : t.SourceWalletID ≠ t.DestinationWalletID) (hpos : 0 < t.Amount)
    (hbal : t.Amount ≤ asset.balance w.db.assets t.SourceWalletID t.AssetName) :
    scheduler.Moved t w (scheduler.process env w t) ∧
    ∀ (s : scheduler.Scheduler) (now : Time),
      w.db.transactions.filter (scheduler.dueFilter now).admits = [t] →
      (scheduler.cycle s env now w).1 = true ∧
        scheduler.Moved t w (scheduler.cycle s env now w).2 := by
  refine ⟨scheduler.process_moves_amount env w t hf hsrc hdst hok htx ht hne hpos hbal, ?_⟩
  intro s now hdue
  unfold scheduler.dueFilter at hdue
  have h := scheduler.process_moves_amount env
    (w.record (Call.GetTransactions
      { Status := [transaction.TransactionPending], ScheduledEnd := now })) t hf hsrc hdst
    (by simpa using hok) (by simpa using htx) (by simpa using ht) hne hpos
    (by simpa using hbal)
  simp only [scheduler.cycle, transaction.repository.GetTransactions, gorm.FindTransactions,
    hf _, hdue]
  refine ⟨trivial, ?_⟩
  simpa [scheduler.Moved] using h

/-! ### Transfer rows under the executor -/

namespace gorm

theorem TransactionsOK.sameRow {rows : List transaction.Transaction} {seq : Nat}
    (h : TransactionsOK rows seq) {r s : transaction.Transaction} (hr : r ∈ rows)
    (hs : s ∈ rows) (hid : r.ID = s.ID) : r = s :=
  List.inj_on_of_nodup_map h.2 hr hs hid

theorem upsertTransaction_of_mem {rows : List transaction.Transaction}
    (item : transaction.Transaction) (h : ∃ r ∈ rows, r.ID = item.ID) :
    upsertTransaction rows item = rows.map (fun r => if r.ID = item.ID then item else r) := by
  unfold upsertTransaction
  have : rows.any (fun r => r.ID == item.ID) = true := by
    simpa using h
  rw [if_pos this]

/-- Saving a stored transfer with another status changes that row only, and only its status. -/
theorem upsertTransaction_status {rows : List transaction.Transaction} {seq : Nat}
    (hok : TransactionsOK rows seq) {t : transaction.Transaction} (ht : t ∈ rows)
    (status : transaction.TransactionStatus) :
    List.Forall₂ (fun r r1 => r1 = r ∨ (r = t ∧ r1 = { t with Status := status })) rows
        (upsertTransaction rows { t with Status := status }) ∧
      TransactionsOK (upsertTransaction rows { t with Status := status }) seq := by
  rw [upsertTransaction_of_mem { t with Status := status } ⟨t, ht, rfl⟩]
  constructor
  · rw [List.forall₂_map_right_iff]
    apply List.forall₂_same.mpr
    intro r hr
    by_cases hid : r.ID = t.ID
    · right
      have : r = t := hok.sameRow hr ht hid
      subst this
      simp
    · left
      simp [hid]
  · have hID : (rows.map (fun r => if r.ID = t.ID then { t with Status := status } else r)).map
        (fun a => a.ID) = rows.map (fun a => a.ID) := by
      rw [List.map_map]
      apply List.map_congr_left
      intro r _
      by_cases hr : r.ID = t.ID <;> simp [hr]
    refine ⟨?_, by rw [hID]; exact hok.2⟩
    intro x hx
    rw [List.mem_map] at hx
    obtain ⟨r, hr, hrx⟩ := hx
    by_cases hri : r.ID = t.ID
    · simp [hri] at hrx; subst hrx
      exact hok.1 t ht
    · simp [hri] at hrx; subst hrx
      exact hok.1 r hr

end gorm

namespace transaction

theorem completed_ne_pending : TransactionCompleted ≠ TransactionPending := by decide

theorem cancelled_ne_pending : TransactionCancelled ≠ TransactionPending := by decide

theorem Completes.same (r : Transaction) : Completes r r := Or.inl rfl

theorem Completes.thenCompletes {a b c : Transaction} (h1 : Completes a b) (h2 : Completes b c) :
    Completes a c := by
  rcases h1 with h1 | ⟨p1, h1⟩
  · subst h1; exact h2
  · rcases h2 with h2 | ⟨p2, _⟩
    · subst h2; exact Or.inr ⟨p1, h1⟩
    · rw [h1] at p2
      exact absurd p2 completed_ne_pending

theorem forall₂_completes_refl (rows : List Transaction) : List.Forall₂ Completes rows rows :=
  List.forall₂_same.mpr (fun r _ => Completes.same r)

theorem forall₂_completes_trans {l1 l2 l3 : List Transaction}
    (h1 : List.Forall₂ Completes l1 l2) (h2 : List.Forall₂ Completes l2 l3) :
    List.Forall₂ Completes l1 l3 := by
  induction h1 generalizing l3 with
  | nil => cases h2; exact List.Forall₂.nil
  | cons hab _ ih =>
    cases h2 with
    | cons hbc htl => exact List.Forall₂.cons (hab.thenCompletes hbc) (ih htl)

/-- Rows that are not pending stay as they are, so a transfer that is not pending stays so. -/
theorem NotPending.of_completes {id : Nat} {rows rows1 : List Transaction}
    (h : List.Forall₂ Completes rows rows1) (hnp : NotPending id rows) :
    NotPending id rows1 := by
  induction h with
  | nil => intro r hr; cases hr
  | cons hab _ ih =>
    rename_i a b l1 l2
    intro r hr hid
    rw [List.mem_cons] at hr
    rcases hr with hr | hr
    · subst hr
      rcases hab with hab | ⟨_, hab⟩
      · subst hab
        exact hnp r (List.mem_cons_self _ _) hid
      · rw [hab]
        exact completed_ne_pending
    · exact ih (fun x hx => hnp x (List.mem_cons_of_mem _ hx)) r hr hid

/-- A row that is not pending is found unchanged afterwards. -/
theorem mem_of_completes {rows rows1 : List Transaction}
    (h : List.Forall₂ Completes rows rows1) {r : Transaction} (hr : r ∈ rows)
    (hnp : r.Status ≠ TransactionPending) : r ∈ rows1 := by
  induction h with
  | nil => cases hr
  | cons hab _ ih =>
    rw [List.mem_cons] at hr
    rcases hr with hr | hr
    · subst hr
      rcases hab with hab | ⟨hp, _⟩
      · subst hab; exact List.mem_cons_self _ _
      · exact absurd hp hnp
    · exact List.mem_cons_of_mem _ (ih hr)

end transaction

namespace scheduler

theorem completions_error (id : Nat) (log : List LogEntry) (msg : String) (e : Error) :
    completions id (log ++ [LogEntry.Error msg e]) = completions id log := by
  simp [completions, List.count_append, List.count_cons]

theorem completions_info (id : Nat) (log : List LogEntry) (msg : String) :
    completions id (log ++ [LogEntry.Info msg]) = completions id log := by
  simp [completions, List.count_append, List.count_cons]

theorem completions_completed (id id1 : Nat) (log : List LogEntry) :
    completions id (log ++ [LogEntry.InfoID "transaction completed" id1]) =
      completions id log + (if id = id1 then 1 else 0) := by
  by_cases h : id = id1
  · subst h
    simp [completions, List.count_append, List.count_cons]
  · have h1 : ¬ id1 = id := fun h2 => h h2.symm
    simp [completions, List.count_append, List.count_cons, h, h1]

/-- Processing a stored pending transfer: either the committed rows are as
before and no completion is logged, or the transfer is stored as completed,
the other transfers are as before, and one completion is logged for it. -/
theorem process_transfer (env : Env) (w : World) (t : transaction.Transaction)
    (hok : gorm.TransactionsOK w.db.transactions w.transactionSeq)
    (ht : t ∈ w.db.transactions) (hp : t.Status = transaction.TransactionPending) :
    gorm.TransactionsOK (process env w t).db.transactions (process env w t).transactionSeq ∧
    List.Forall₂ transaction.Completes w.db.transactions (process env w t).db.transactions ∧
    (((process env w t).db = w.db ∧
        ∀ i, completions i (process env w t).log = completions i w.log) ∨
      (transaction.NotPending t.ID (process env w t).db.transactions ∧
        (∀ x ∈ w.db.transactions, x.ID ≠ t.ID → x ∈ (process env w t).db.transactions) ∧
        ∀ i, completions i (process env w t).log =
          completions i w.log + (if i = t.ID then 1 else 0))) := by
  have htid : t.ID ≠ 0 := by have := hok.1 t ht; omega
  rcases process_cases env w t with ⟨⟨e, _, hlog⟩, hdb, hseq⟩ | ⟨_, hlog, hseq, hrows⟩
  · rw [hdb, hseq htid]
    refine ⟨hok, transaction.forall₂_completes_refl _, Or.inl ⟨rfl, fun i => ?_⟩⟩
    rw [hlog, completions_error]
  · obtain ⟨f1, f2⟩ := gorm.upsertTransaction_status hok ht transaction.TransactionCompleted
    rw [hrows htid, hseq htid]
    refine ⟨f2, ?_, Or.inr ⟨?_, ?_, fun i => ?_⟩⟩
    · refine List.Forall₂.imp ?_ f1
      intro r r1 h
      rcases h with h | ⟨h1, h2⟩
      · exact Or.inl h
      · subst h1
        exact Or.inr ⟨hp, h2⟩
    · intro x hx hxid
      rcases gorm.mem_upsertTransaction hx with hx | hx
      · rw [hx]
        exact transaction.completed_ne_pending
      · exact absurd hxid hx.2
    · intro x hx hne
      rw [gorm.upsertTransaction_of_mem
        { t with Status := transaction.TransactionCompleted } ⟨t, ht, rfl⟩,
        List.mem_map]
      exact ⟨x, hx, by simp [hne]⟩
    · rw [hlog, completions_completed]

/-- The inner loop of a cycle over a list of stored pending transfers with distinct ids. -/
theorem foldl_process (env : Env) (id : Nat) (ts : List transaction.Transaction) :
    ∀ w : World, gorm.TransactionsOK w.db.transactions w.transactionSeq →
      (ts.map (fun t => t.ID)).Nodup →
      (∀ t ∈ ts, t ∈ w.db.transactions ∧ t.Status = transaction.TransactionPending) →
      gorm.TransactionsOK (ts.foldl (process env) w).db.transactions
          (ts.foldl (process env) w).transactionSeq ∧
        List.Forall₂ transaction.Completes w.db.transactions
          (ts.foldl (process env) w).db.transactions ∧
        (id ∉ ts.map (fun t => t.ID) →
          completions id (ts.foldl (process env) w).log = completions id w.log) ∧
        (completions id (ts.foldl (process env) w).log = completions id w.log ∨
          (completions id (ts.foldl (process env) w).log = completions id w.log + 1 ∧
            transaction.NotPending id (ts.foldl (process env) w).db.transactions)) := by
  induction ts with
  | nil =>
    intro w hok _ _
    exact ⟨hok, transaction.forall₂_completes_refl _, fun _ => rfl, Or.inl rfl⟩
  | cons t rest ih =>
    intro w hok hnd hmem
    rw [List.map_cons, List.nodup_cons] at hnd
    obtain ⟨htm, htp⟩ := hmem t (List.mem_cons_self _ _)
    obtain ⟨p1, p2, p3⟩ := process_transfer env w t hok htm htp
    have hrest : ∀ t2 ∈ rest, t2 ∈ (process env w t).db.transactions ∧
        t2.Status = transaction.TransactionPending := by
      intro t2 ht2
      obtain ⟨m2, s2⟩ := hmem t2 (List.mem_cons_of_mem _ ht2)
      refine ⟨?_, s2⟩
      rcases p3 with ⟨hdb, _⟩ | ⟨_, hkeep, _⟩
      · rw [hdb]; exact m2
      · apply hkeep t2 m2
        intro h
        exact hnd.1 (List.mem_map.mpr ⟨t2, ht2, h⟩)
    obtain ⟨i1, i2, i3, i4⟩ := ih (process env w t) p1 hnd.2 hrest
    simp only [List.foldl_cons]
    refine ⟨i1, transaction.forall₂_completes_trans p2 i2, ?_, ?_⟩
    · intro hnot
      rw [List.map_cons, List.mem_cons, not_or] at hnot
      rw [i3 hnot.2]
      rcases p3 with ⟨_, hc⟩ | ⟨_, _, hc⟩
      · exact hc id
      · rw [hc id, if_neg hnot.1, add_zero]
    · rcases p3 with ⟨_, hc⟩ | ⟨hnp, _, hc⟩
      · rw [← hc id]
        exact i4
      · by_cases hid : id = t.ID
        · right
          subst hid
          rw [i3 hnd.1, hc t.ID, if_pos rfl]
          exact ⟨rfl, transaction.NotPending.of_completes i2 hnp⟩
        · rw [hc id, if_neg hid, add_zero] at i4 i3
          exact i4

end scheduler

namespace scheduler

/-- What the poll of a cycle returns are stored pending transfers. -/
theorem due_pending {rows : List transaction.Transaction} {now : Time}
    {t : transaction.Transaction}
    (h : t ∈ rows.filter
      ({ Status := [transaction.TransactionPending], ScheduledEnd := now } :
        transaction.Filters).admits) :
    t ∈ rows ∧ t.Status = transaction.TransactionPending := by
  rw [List.mem_filter] at h
  refine ⟨h.1, ?_⟩
  have h2 := h.2
  simp [transaction.Filters.admits] at h2
  exact h2.1

/-- One cycle of the executor on the transfer rows and the completion count of one id. -/
theorem cycle_spec (s : Scheduler) (env : Env) (now : Time) (id : Nat) (w : World)
    (hok : gorm.TransactionsOK w.db.transactions w.transactionSeq) :
    gorm.TransactionsOK (cycle s env now w).2.db.transactions
        (cycle s env now w).2.transactionSeq ∧
      List.Forall₂ transaction.Completes w.db.transactions
        (cycle s env now w).2.db.transactions ∧
      (transaction.NotPending id w.db.transactions →
        completions id (cycle s env now w).2.log = completions id w.log) ∧
      (completions id (cycle s env now w).2.log = completions id w.log ∨
        (completions id (cycle s env now w).2.log = completions id w.log + 1 ∧
          transaction.NotPending id (cycle s env now w).2.db.transactions)) := by
  unfold cycle transaction.repository.GetTransactions gorm.FindTransactions
  dsimp only
  cases hfault : env.fault w.trace.length with
  | some e =>
    dsimp only
    refine ⟨hok, transaction.forall₂_completes_refl _, fun _ => ?_, Or.inl ?_⟩ <;>
      simp [World.logLine, completions_error]
  | none =>
    dsimp only
    generalize hts : w.db.transactions.filter
      ({ Status := [transaction.TransactionPending], ScheduledEnd := now } :
        transaction.Filters).admits = ts
    generalize hw2 : (if ts.length = 0 then
        (w.record (Call.GetTransactions
          { Status := [transaction.TransactionPending], ScheduledEnd := now })).logLine
          (LogEntry.Info "no pending transactions")
      else w.record (Call.GetTransactions
          { Status := [transaction.TransactionPending], ScheduledEnd := now })) = w2
    have hdb2 : w2.db = w.db := by
      rw [← hw2]; split <;> simp [World.logLine]
    have hseq2 : w2.transactionSeq = w.transactionSeq := by
      rw [← hw2]; split <;> simp [World.logLine]
    have hlog2 : completions id w2.log = completions id w.log := by
      rw [← hw2]; split <;> simp [World.logLine, completions_info]
    have hmem : ∀ t ∈ ts, t ∈ w2.db.transactions ∧
        t.Status = transaction.TransactionPending := by
      intro t ht
      rw [← hts] at ht
      rw [hdb2]
      exact due_pending ht
    have hnd : (ts.map (fun t => t.ID)).Nodup := by
      rw [← hts]
      exact List.Nodup.sublist (List.Sublist.map _ (List.filter_sublist _)) hok.2
    obtain ⟨f1, f2, f3, f4⟩ := foldl_process env id ts w2 (by rw [hdb2, hseq2]; exact hok)
      hnd hmem
    rw [hdb2] at f2
    rw [hlog2] at f3 f4
    refine ⟨by simpa using f1, by simpa using f2, ?_, by simpa using f4⟩
    intro hnp
    have : id ∉ ts.map (fun t => t.ID) := by
      intro hin
      rw [List.mem_map] at hin
      obtain ⟨t, ht, hid⟩ := hin
      obtain ⟨m, p⟩ := hmem t ht
      rw [hdb2] at m
      exact hnp t m hid p
    simpa using f3 this

/-- Cycles run one after another, seen from a transfer that is not pending. -/
theorem loop_not_pending (s : Scheduler) (env : Env) (id : Nat) (nows : List Time) :
    ∀ w : World, gorm.TransactionsOK w.db.transactions w.transactionSeq →
      transaction.NotPending id w.db.transactions →
      completions id (loop s env nows w).2.log = completions id w.log ∧
        List.Forall₂ transaction.Completes w.db.transactions
          (loop s env nows w).2.db.transactions := by
  induction nows with
  | nil =>
    intro w _ _
    exact ⟨rfl, transaction.forall₂_completes_refl _⟩
  | cons now rest ih =>
    intro w hok hnp
    obtain ⟨c1, c2, c3, _⟩ := cycle_spec s env now id w hok
    unfold loop
    cases hc : cycle s env now w with
    | mk continues w1 =>
      rw [hc] at c1 c2 c3
      cases continues with
      | false => exact ⟨c3 hnp, c2⟩
      | true =>
        dsimp only
        obtain ⟨i1, i2⟩ := ih w1 c1 (transaction.NotPending.of_completes c2 hnp)
        exact ⟨by rw [i1]; exact c3 hnp, transaction.forall₂_completes_trans c2 i2⟩

/-- Cycles run one after another: at most one completion per transfer id. -/
theorem loop_at_most_once (s : Scheduler) (env : Env) (id : Nat) (nows : List Time) :
    ∀ w : World, gorm.TransactionsOK w.db.transactions w.transactionSeq →
      completions id (loop s env nows w).2.log ≤ completions id w.log + 1 := by
  induction nows with
  | nil =>
    intro w _
    simp [loop]
  | cons now rest ih =>
    intro w hok
    obtain ⟨c1, c2, _, c4⟩ := cycle_spec s env now id w hok
    unfold loop
    cases hc : cycle s env now w with
    | mk continues w1 =>
      simp only [hc] at c1 c2 c4
      cases continues with
      | false =>
        dsimp only
        rcases c4 with c4 | ⟨c4, _⟩ <;> omega
      | true =>
        dsimp only
        rcases c4 with c4 | ⟨c4, hnp⟩
        · have := ih w1 c1
          omega
        · have := (loop_not_pending s env id rest w1 c1 hnp).1
          omega

end scheduler

/-- C9. Exactly-once application, for cycles of the executor run one after
another on a store that keeps its constraints on the transfer table.  The
movement of a transfer reaches the committed ledger only when its unit
commits, which the executor logs as "transaction completed" with the
transfer's id: a processing that logs no completion leaves every committed
row as it was.  For every transfer id and every number of cycles, at most one
completion is logged; and for a transfer that is not pending at the start
(completed or cancelled, also by an earlier cycle) none is logged at all. -/
theorem C9_applied_at_most_once (s : scheduler.Scheduler) (env : Env) (nows : List Time)
    (w : World) (id : Nat)
    (hok : gorm.TransactionsOK w.db.transactions w.transactionSeq) :
    scheduler.completions id (scheduler.loop s env nows w).2.log ≤
        scheduler.completions id w.log + 1 ∧
      (transaction.NotPending id w.db.transactions →
        scheduler.completions id (scheduler.loop s env nows w).2.log =
          scheduler.completions id w.log) ∧
      (∀ (w1 : World) (t : transaction.Transaction),
        scheduler.completions t.ID (scheduler.process env w1 t).log =
            scheduler.completions t.ID w1.log →
          (scheduler.process env w1 t).db = w1.db) := by
  refine ⟨scheduler.loop_at_most_once s env id nows w hok,
    fun hnp => (scheduler.loop_not_pending s env id nows w hok hnp).1, ?_⟩
  intro w1 t hsame
  rcases scheduler.process_cases env w1 t with ⟨_, hdb, _⟩ | ⟨_, hlog, _⟩
  · exact hdb
  · rw [hlog, scheduler.completions_completed, if_pos rfl] at hsame
    omega

/-! ### Transfer rows under the transfer service -/

namespace transaction

theorem exists_of_forall₂_right {R : Transaction → Transaction → Prop}
    {l1 l2 : List Transaction} (h : List.Forall₂ R l1 l2) {y : Transaction} (hy : y ∈ l2) :
    ∃ x ∈ l1, R x y := by
  induction h with
  | nil => cases hy
  | cons hab _ ih =>
    rw [List.mem_cons] at hy
    rcases hy with hy | hy
    · subst hy
      exact ⟨_, List.mem_cons_self _ _, hab⟩
    · obtain ⟨x, hx, hr⟩ := ih hy
      exact ⟨x, List.mem_cons_of_mem _ hx, hr⟩

namespace repository

theorem CreateTransaction_rows {env : Env} {item : Transaction} {w w1 : World}
    {r : Except Error Transaction} (h : CreateTransaction env false item w = (r, w1)) :
    w1.db.transactions = w.db.transactions ∨
      w1.db.transactions = w.db.transactions ++
        [{ item with ID := gorm.newID w.transactionSeq item.ID }] := by
  unfold CreateTransaction gorm.CreateTransaction at h
  dsimp only at h
  cases hf : env.fault w.trace.length with
  | some e =>
    simp only [hf] at h
    cases h
    exact Or.inl rfl
  | none =>
    simp only [hf, World.record_target, World.target_false] at h
    split at h
    · rename_i h1
      split at h1
      · cases h1; cases h
        exact Or.inl rfl
      · cases h1
    · rename_i h1
      split at h1
      · cases h1
      · cases h1; cases h
        exact Or.inr rfl

end repository

namespace service

/-- `ScheduleTransaction` leaves the stored transfers as they are, or adds one pending transfer. -/
theorem ScheduleTransaction_rows (env : Env) (req : ScheduleTransactionRequest) (w : World) :
    (ScheduleTransaction env req w).2.db.transactions = w.db.transactions ∨
      ∃ row, row.Status = TransactionPending ∧
        (ScheduleTransaction env req w).2.db.transactions = w.db.transactions ++ [row] := by
  unfold ScheduleTransaction
  split
  · rename_i h1
    exact Or.inl (asset.walletClient_step false h1).2.2.1
  · rename_i h1
    have s1 := asset.walletClient_step false h1
    split
    · rename_i h2
      exact Or.inl (s1.andThen (asset.walletClient_step false h2)).2.2.1
    · rename_i h2
      have s2 := s1.andThen (asset.walletClient_step false h2)
      split
      · rename_i h3
        exact Or.inl (s2.andThen (asset.repository.GetAsset_step false h3)).2.2.1
      · rename_i assets w3 h3
        have s3 := (s2.andThen (asset.repository.GetAsset_step false h3)).2.2.1
        split
        · exact Or.inl s3
        · split
          · exact Or.inl s3
          · split
            · exact Or.inl s3
            · split
              rename_i r w4 h4
              rcases repository.CreateTransaction_rows h4 with h5 | h5
              · exact Or.inl (h5.trans s3)
              · refine Or.inr ⟨_, ?_, h5.trans (by rw [s3])⟩
                rfl

/-- `CancelTransaction` changes at most one stored transfer, from pending to cancelled. -/
theorem CancelTransaction_rows (env : Env) (id : Nat) (w : World)
    (hok : gorm.TransactionsOK w.db.transactions w.transactionSeq) :
    List.Forall₂ Cancels w.db.transactions (CancelTransaction env id w).2.db.transactions := by
  have hrefl : List.Forall₂ Cancels w.db.transactions w.db.transactions :=
    List.forall₂_same.mpr (fun r _ => Or.inl rfl)
  unfold CancelTransaction repository.GetTransactions gorm.FindTransactions
  dsimp only
  cases hf : env.fault w.trace.length with
  | some e => exact hrefl
  | none =>
    dsimp only
    cases hrows : w.db.transactions.filter ({ ID := [id] } : Filters).admits with
    | nil => exact hrefl
    | cons t rest =>
      dsimp only
      have ht : t ∈ w.db.transactions := by
        have : t ∈ w.db.transactions.filter ({ ID := [id] } : Filters).admits := by
          simp [hrows]
        exact List.mem_of_mem_filter this
      have htid : t.ID ≠ 0 := by have := hok.1 t ht; omega
      split
      · exact hrefl
      · rename_i hp
        have hp1 : t.Status = TransactionPending := by simpa using hp
        unfold repository.UpdateTransaction gorm.SaveTransaction
        dsimp only
        cases hf2 : env.fault (w.record (Call.GetTransactions { ID := [id] })).trace.length with
        | some e => exact hrefl
        | none =>
          simp only [World.record_target, World.target_false, htid, if_false]
          simp only [World.setTarget_false_db]
          refine List.Forall₂.imp ?_
            (gorm.upsertTransaction_status hok ht TransactionCancelled).1
          intro r r1 h
          rcases h with h | ⟨h1, h2⟩
          · exact Or.inl h
          · subst h1
            exact Or.inr ⟨hp1, h2⟩

end service
end transaction

/-- C10. The status of a stored transfer is a state machine with two
transitions.  On a store that keeps its constraints on the transfer table and
with each core operation run on its own: one executor cycle keeps the list of
stored transfers row by row, each row unchanged or gone from pending to
completed; `CancelTransaction` keeps it row by row, each row unchanged or gone
from pending to cancelled; `ScheduleTransaction` keeps every row and adds at
most one row, which is pending.  So no row is deleted, a row that is completed
or cancelled is never changed, and a row with status failed after any of the
three operations was there with that status before. -/
theorem C10_status_transitions (s : scheduler.Scheduler) (env : Env) (now : Time) (w : World)
    (hok : gorm.TransactionsOK w.db.transactions w.transactionSeq) :
    List.Forall₂ transaction.Completes w.db.transactions
        (scheduler.cycle s env now w).2.db.transactions ∧
      (∀ id, List.Forall₂ transaction.Cancels w.db.transactions
        (transaction.service.CancelTransaction env id w).2.db.transactions) ∧
      (∀ req, (transaction.service.ScheduleTransaction env req w).2.db.transactions =
          w.db.transactions ∨
        ∃ row, row.Status = transaction.TransactionPending ∧
          (transaction.service.ScheduleTransaction env req w).2.db.transactions =
            w.db.transactions ++ [row]) ∧
      (∀ r, r.Status = transaction.TransactionFailed →
        (r ∈ (scheduler.cycle s env now w).2.db.transactions → r ∈ w.db.transactions) ∧
        (∀ id, r ∈ (transaction.service.CancelTransaction env id w).2.db.transactions →
          r ∈ w.db.transactions) ∧
        (∀ req, r ∈ (transaction.service.ScheduleTransaction env req w).2.db.transactions →
          r ∈ w.db.transactions)) := by
  have h1 : transaction.TransactionCompleted ≠ transaction.TransactionFailed := by decide
  have h2 : transaction.TransactionCancelled ≠ transaction.TransactionFailed := by decide
  have h3 : transaction.TransactionPending ≠ transaction.TransactionFailed := by decide
  have hc := (scheduler.cycle_spec s env now 0 w hok).2.1
  have hcancel := fun id => transaction.service.CancelTransaction_rows env id w hok
  have hsched := fun req => transaction.service.ScheduleTransaction_rows env req w
  refine ⟨hc, hcancel, hsched, ?_⟩
  intro r hr
  refine ⟨fun hmem => ?_, fun id hmem => ?_, fun req hmem => ?_⟩
  · obtain ⟨x, hx, hstep⟩ := transaction.exists_of_forall₂_right hc hmem
    rcases hstep with h | ⟨_, h⟩
    · rw [h]; exact hx
    · rw [h] at hr
      exact absurd hr h1
  · obtain ⟨x, hx, hstep⟩ := transaction.exists_of_forall₂_right (hcancel id) hmem
    rcases hstep with h | ⟨_, h⟩
    · rw [h]; exact hx
    · rw [h] at hr
      exact absurd hr h2
  · rcases hsched req with h | ⟨row, hrow, h⟩
    · rw [h] at hmem; exact hmem
    · rw [h, List.mem_append] at hmem
      rcases hmem with hmem | hmem
      · exact hmem
      · simp at hmem
        rw [hmem, hrow] at hr
        exact absurd hr h3

/-! ## The claims at sample inputs -/

theorem calmEnv_knows (id : Nat) : calmEnv.Knows id := fun _ => rfl

theorem calmEnv_noFault : calmEnv.NoFault := fun _ => rfl

theorem calmEnv_faithful : calmEnv.Faithful := by
  intro k id wl h
  cases h
  rfl

/-- The scenario of the specification: 10 and 0, a transfer of 4 that is due, one
cycle of the executor, then 6 and 4, completed. -/
theorem C1_witness_ten_and_zero :
    gorm.AssetsOK sampleWorld.db.assets sampleWorld.assetSeq ∧
    gorm.TransactionsOK sampleWorld.db.transactions sampleWorld.transactionSeq ∧
    sampleTransfer ∈ sampleWorld.db.transactions ∧
    (0 : ℚ) < 4 ∧ (4 : ℚ) ≤ asset.balance sampleWorld.db.assets 1 "BTC" ∧
    sampleWorld.db.transactions.filter (scheduler.dueFilter 100).admits = [sampleTransfer] ∧
    asset.balance (scheduler.cycle sampleScheduler calmEnv 100 sampleWorld).2.db.assets 1 "BTC" =
      asset.balance sampleWorld.db.assets 1 "BTC" - 4 ∧
    asset.balance (scheduler.cycle sampleScheduler calmEnv 100 sampleWorld).2.db.assets 2 "BTC" =
      asset.balance sampleWorld.db.assets 2 "BTC" + 4 ∧
    { sampleTransfer with Status := transaction.TransactionCompleted } ∈
      (scheduler.cycle sampleScheduler calmEnv 100 sampleWorld).2.db.transactions := by
  have h1 : gorm.AssetsOK sampleWorld.db.assets sampleWorld.assetSeq := by decide
  have h2 : gorm.TransactionsOK sampleWorld.db.transactions sampleWorld.transactionSeq := by
    decide
  have h3 : sampleTransfer ∈ sampleWorld.db.transactions := List.mem_cons_self _ _
  have h4 : (0 : ℚ) < 4 := by norm_num
  have h5 : (4 : ℚ) ≤ asset.balance sampleWorld.db.assets 1 "BTC" := by decide
  have h6 : sampleWorld.db.transactions.filter (scheduler.dueFilter 100).admits =
      [sampleTransfer] := by decide
  have h := (C1_transfer_moves_amount calmEnv sampleWorld sampleTransfer calmEnv_noFault
    (calmEnv_knows _) (calmEnv_knows _) h1 h2 h3 (by decide) h4 h5).2 sampleScheduler 100 h6
  exact ⟨h1, h2, h3, h4, h5, h6, h.2.1, h.2.2.1, h.2.2.2.1⟩

/-- The scenario of the specification: a source balance of 2, a transfer of 4: the
unit fails, balances and status are as before. -/
theorem C2_witness_two_below_four :
    (transaction.repository.InTransaction calmEnv (scheduler.atomicUnit calmEnv sampleTransfer)
        shortWorld).1 = .error (Error.New "amount is not enough to withdraw") ∧
    (scheduler.process calmEnv shortWorld sampleTransfer).db.assets = shortWorld.db.assets ∧
    (scheduler.process calmEnv shortWorld sampleTransfer).db.transactions =
      shortWorld.db.transactions ∧
    sampleTransfer ∈ (scheduler.process calmEnv shortWorld sampleTransfer).db.transactions := by
  have h1 : (transaction.repository.InTransaction calmEnv
      (scheduler.atomicUnit calmEnv sampleTransfer) shortWorld).1 =
      .error (Error.New "amount is not enough to withdraw") := by decide
  have h := C2_failed_unit_rolls_back calmEnv shortWorld sampleTransfer _ h1
  exact ⟨h1, h.1, h.2.1, h.2.2.1 (List.mem_cons_self _ _)⟩

/-- Deposit 10, withdraw 4, withdraw 20 (rejected) on a fresh pair. -/
theorem C3_witness_fresh_pair :
    gorm.AssetsOK emptyWorld.db.assets emptyWorld.assetSeq ∧
    (0 : ℚ) ≤ asset.balance emptyWorld.db.assets 1 "BTC" ∧
    asset.balance (asset.runOps calmEnv 1 "BTC"
        [asset.Op.deposit 10, asset.Op.withdraw 4, asset.Op.withdraw 20]
        emptyWorld).db.assets 1 "BTC" =
      asset.balance emptyWorld.db.assets 1 "BTC" +
        asset.netAmount calmEnv 1 "BTC"
          [asset.Op.deposit 10, asset.Op.withdraw 4, asset.Op.withdraw 20] emptyWorld := by
  have h1 : gorm.AssetsOK emptyWorld.db.assets emptyWorld.assetSeq := by decide
  have h2 : (0 : ℚ) ≤ asset.balance emptyWorld.db.assets 1 "BTC" := by decide
  have h := C3_ledger_sequence_balance calmEnv emptyWorld 1 "BTC"
    [asset.Op.deposit 10, asset.Op.withdraw 4, asset.Op.withdraw 20]
    (calmEnv_knows _) calmEnv_noFault h1
    (by
      intro op hop
      simp only [List.mem_cons, List.mem_singleton, List.not_mem_nil, or_false] at hop
      rcases hop with h | h | h <;> (subst h; simp [asset.Op.amount]))
    h2
  exact ⟨h1, h2, h.1⟩

/-- A non-negative store stays non-negative under a deposit of 3. -/
theorem C4_witness_deposit_three :
    emptyWorld.NonNegative ∧
    (asset.service.Deposit calmEnv false { WalletID := 1, Name := "BTC", Amount := 3 }
      emptyWorld).2.NonNegative := by
  have h1 : emptyWorld.NonNegative := by
    intro tx T hT a ha
    cases tx <;> simp [World.target, emptyWorld, World.ofRows] at hT
    subst hT
    simp at ha
  exact ⟨h1, (C4_nonnegative_kept calmEnv emptyWorld h1).2.1 false
    { WalletID := 1, Name := "BTC", Amount := 3 } (by norm_num)⟩

/-- The test of the repository: a balance of 10, withdraw 5 gives 5; withdraw 15 is rejected. -/
theorem C5_witness_ten_minus_five :
    asset.lookup sampleWorld.db.assets 1 "BTC" =
      some { ID := 1, WalletID := 1, Name := "BTC", Amount := 10 } ∧
    (asset.service.Withdraw calmEnv false { WalletID := 1, Name := "BTC", Amount := 5 }
        sampleWorld).1 = .ok { ID := 1, WalletID := 1, Name := "BTC", Amount := 10 - 5 } := by
  have h1 : asset.lookup sampleWorld.db.assets 1 "BTC" =
      some { ID := 1, WalletID := 1, Name := "BTC", Amount := 10 } := by decide
  have h := C5_withdraw_existing_record calmEnv false
    { WalletID := 1, Name := "BTC", Amount := 5 } sampleWorld { ID := 1 }
    { ID := 1, WalletID := 1, Name := "BTC", Amount := 10 } sampleWorld.db rfl
    calmEnv_noFault h1 rfl (by decide)
  exact ⟨h1, (h.2 (by norm_num)).1⟩

/-- A withdraw of 50 from a balance of 10 is rejected and leaves the store as it was. -/
theorem C6_witness_fifty_from_ten :
    asset.balance sampleWorld.db.assets 1 "BTC" < 50 ∧
    (asset.service.Withdraw calmEnv false { WalletID := 1, Name := "BTC", Amount := 50 }
        sampleWorld).2.db = sampleWorld.db := by
  have h1 : asset.balance sampleWorld.db.assets 1 "BTC" < 50 := by decide
  have h := C6_rejected_withdraw_effect calmEnv { WalletID := 1, Name := "BTC", Amount := 50 }
    sampleWorld calmEnv_faithful h1
  exact ⟨h1, h.2.2.2.1 ⟨_, (by decide :
    asset.lookup sampleWorld.db.assets 1 "BTC" =
      some { ID := 1, WalletID := 1, Name := "BTC", Amount := 10 })⟩⟩

/-- The test of the repository: a balance of 5, a deposit of 10, a balance of 15. -/
theorem C7_witness_five_plus_ten :
    (asset.service.Deposit calmEnv false { WalletID := 1, Name := "BTC", Amount := 10 }
        (World.ofRows [{ ID := 1, WalletID := 1, Name := "BTC", Amount := 5 }] [])).1 =
      .ok { ID := 1, WalletID := 1, Name := "BTC", Amount := 15 } ∧
    (15 : ℚ) = asset.balance
        (World.ofRows [{ ID := 1, WalletID := 1, Name := "BTC", Amount := 5 }] []).db.assets
        1 "BTC" + 10 ∧
    directoryQueries
        (asset.service.Deposit calmEnv false { WalletID := 1, Name := "BTC", Amount := 10 }
          (World.ofRows [{ ID := 1, WalletID := 1, Name := "BTC", Amount := 5 }] [])).2.trace =
      directoryQueries
        (World.ofRows [{ ID := 1, WalletID := 1, Name := "BTC", Amount := 5 }] []).trace + 1 := by
  have h1 : (asset.service.Deposit calmEnv false { WalletID := 1, Name := "BTC", Amount := 10 }
        (World.ofRows [{ ID := 1, WalletID := 1, Name := "BTC", Amount := 5 }] [])).1 =
      .ok { ID := 1, WalletID := 1, Name := "BTC", Amount := 15 } := by decide!
  have h := C7_successful_deposit calmEnv false { WalletID := 1, Name := "BTC", Amount := 10 }
    (World.ofRows [{ ID := 1, WalletID := 1, Name := "BTC", Amount := 5 }] [])
    (asset.service.Deposit calmEnv false { WalletID := 1, Name := "BTC", Amount := 10 }
      (World.ofRows [{ ID := 1, WalletID := 1, Name := "BTC", Amount := 5 }] [])).2
    { ID := 1, WalletID := 1, Name := "BTC", Amount := 15 }
    (World.ofRows [{ ID := 1, WalletID := 1, Name := "BTC", Amount := 5 }] []).db
    (Prod.ext h1 rfl) calmEnv_faithful rfl (by decide)
  exact ⟨h1, h.2.2.1, h.2.2.2.2.2.2.2.2⟩

/-- The test of the repository: a first deposit of 20 "ETH" for wallet 2, then one of 5. -/
theorem C8_witness_twenty_then_five :
    gorm.AssetsOK emptyWorld.db.assets emptyWorld.assetSeq ∧
    asset.lookup emptyWorld.db.assets 2 "ETH" = none ∧
    ∃ x y w1 w2,
      asset.service.Deposit calmEnv false { WalletID := 2, Name := "ETH", Amount := 20 }
          emptyWorld = (.ok x, w1) ∧
        w1.db.assets.filter (asset.pairFilter 2 "ETH").admits = [x] ∧ x.Amount = 20 ∧
      asset.service.Deposit calmEnv false { WalletID := 2, Name := "ETH", Amount := 5 } w1 =
          (.ok y, w2) ∧
        w2.db.assets.filter (asset.pairFilter 2 "ETH").admits = [y] ∧
        y.ID = x.ID ∧ y.Amount = 20 + 5 := by
  have h1 : gorm.AssetsOK emptyWorld.db.assets emptyWorld.assetSeq := by decide
  have h2 : asset.lookup emptyWorld.db.assets 2 "ETH" = none := by decide
  exact ⟨h1, h2, C8_first_and_second_deposit calmEnv emptyWorld 2 "ETH" 20 5
    (calmEnv_knows _) calmEnv_noFault h1 h2⟩

/-- Two cycles over the sample store: the sample transfer is completed at most once. -/
theorem C9_witness_two_cycles :
    gorm.TransactionsOK sampleWorld.db.transactions sampleWorld.transactionSeq ∧
    scheduler.completions 1
        (scheduler.loop sampleScheduler calmEnv [100, 200] sampleWorld).2.log ≤
      scheduler.completions 1 sampleWorld.log + 1 := by
  have h1 : gorm.TransactionsOK sampleWorld.db.transactions sampleWorld.transactionSeq := by
    decide
  exact ⟨h1, (C9_applied_at_most_once sampleScheduler calmEnv [100, 200] sampleWorld 1 h1).1⟩

/-- One cycle over the sample store moves its transfers along the state machine. -/
theorem C10_witness_sample_cycle :
    gorm.TransactionsOK sampleWorld.db.transactions sampleWorld.transactionSeq ∧
    List.Forall₂ transaction.Completes sampleWorld.db.transactions
      (scheduler.cycle sampleScheduler calmEnv 100 sampleWorld).2.db.transactions := by
  have h1 : gorm.TransactionsOK sampleWorld.db.transactions sampleWorld.transactionSeq := by
    decide
  exact ⟨h1, (C10_status_transitions sampleScheduler calmEnv 100 sampleWorld h1).1⟩

/-! ## The transfer service -/

namespace transaction
namespace service

theorem sourceAsset_fold (s : Nat) (l : List asset.Asset) :
    ∀ init : Option asset.Asset,
      (∀ x, l.foldl (fun found a => if a.WalletID = s then some a else found) init = some x →
        init = some x ∨ (x ∈ l ∧ x.WalletID = s)) ∧
      ((init.isSome ∨ ∃ y ∈ l, y.WalletID = s) →
        ∃ x, l.foldl (fun found a => if a.WalletID = s then some a else found) init = some x) := by
  induction l with
  | nil =>
    intro init
    refine ⟨fun x h => Or.inl h, fun h => ?_⟩
    rcases h with h | ⟨y, hy, _⟩
    · cases init with
      | none => cases h
      | some v => exact ⟨v, rfl⟩
    · cases hy
  | cons a rest ih =>
    intro init
    rw [List.foldl_cons]
    obtain ⟨ih1, ih2⟩ := ih (if a.WalletID = s then some a else init)
    refine ⟨fun x h => ?_, fun h => ?_⟩
    · rcases ih1 x h with h1 | ⟨h1, h2⟩
      · by_cases ha : a.WalletID = s
        · rw [if_pos ha] at h1
          cases h1
          exact Or.inr ⟨List.mem_cons_self _ _, ha⟩
        · rw [if_neg ha] at h1
          exact Or.inl h1
      · exact Or.inr ⟨List.mem_cons_of_mem _ h1, h2⟩
    · apply ih2
      by_cases ha : a.WalletID = s
      · left
        rw [if_pos ha]
        rfl
      · rw [if_neg ha]
        rcases h with h | ⟨y, hy, hys⟩
        · exact Or.inl h
        · rcases List.mem_cons.mp hy with hy | hy
          · subst hy
            exact absurd hys ha
          · exact Or.inr ⟨y, hy, hys⟩

/-- The source balance picked by the loop is a returned row of the source wallet. -/
theorem sourceAsset_mem {l : List asset.Asset} {s : Nat} {x : asset.Asset}
    (h : sourceAsset l s = some x) : x ∈ l ∧ x.WalletID = s := by
  rcases (sourceAsset_fold s l none).1 x h with h1 | h1
  · cases h1
  · exact h1

/-- The loop finds a source balance when a returned row is of the source wallet. -/
theorem sourceAsset_exists {l : List asset.Asset} {s : Nat} {y : asset.Asset}
    (hy : y ∈ l) (hs : y.WalletID = s) : ∃ x, sourceAsset l s = some x :=
  (sourceAsset_fold s l none).2 (Or.inr ⟨y, hy, hs⟩)

end service

theorem assetFilters_admits (r : ScheduleTransactionRequest) (a : asset.Asset) :
    r.assetFilters.admits a = true ↔
      a.Name = r.AssetName ∧ (a.WalletID = r.SourceWalletID ∨ a.WalletID = r.DestinationWalletID) := by
  simp [ScheduleTransactionRequest.assetFilters, asset.Filters.admits]

namespace service

/-- With both wallets known and the store answering the lookup, `ScheduleTransaction`
is its balance check and the insertion. -/
theorem ScheduleTransaction_known (env : Env) (req : ScheduleTransactionRequest) (w : World)
    (hk1 : env.Knows req.SourceWalletID) (hk2 : env.Knows req.DestinationWalletID)
    (hf : env.fault (w.trace.length + 2) = none) :
    ScheduleTransaction env req w =
      if (w.db.assets.filter req.assetFilters.admits).length < 2 then
        (.returns (.error ErrAssetNotFound), req.queried w)
      else
        match sourceAsset (w.db.assets.filter req.assetFilters.admits) req.SourceWalletID with
        | none => (.panics "invalid memory address or nil pointer dereference", req.queried w)
        | some src =>
          if src.Amount < req.Amount then
            (.returns (.error ErrInsufficientBalance), req.queried w)
          else
            (.returns (repository.CreateTransaction env false req.entity (req.queried w)).1,
              (repository.CreateTransaction env false req.entity (req.queried w)).2) := by
  have h1 := hk1 w.trace.length
  have h2 := hk2 (w.trace.length + 1)
  unfold ScheduleTransaction wallet.GetWallet
  simp only [h1, h2, World.record_trace, List.length_append, List.length_singleton]
  rw [asset.repository.GetAsset_ok (by simpa using hf)]
  simp only [World.record_db]
  rfl

end service
end transaction

namespace transaction
namespace repository

/-- Insertion of a transfer without id into a store that keeps its constraints. -/
theorem CreateTransaction_fresh (env : Env) (item : Transaction) (w : World)
    (hf : env.fault w.trace.length = none)
    (hok : gorm.TransactionsOK w.db.transactions w.transactionSeq) (hid : item.ID = 0) :
    CreateTransaction env false item w =
      (.ok { item with ID := w.transactionSeq + 1 },
        World.setTarget
          { w.record (Call.CreateTransaction false item) with
            transactionSeq := w.transactionSeq + 1 } false
          { w.db with
            transactions := w.db.transactions ++ [{ item with ID := w.transactionSeq + 1 }] }) := by
  have hfree : gorm.transactionConflict w.db.transactions
      { item with ID := w.transactionSeq + 1 } = false := by
    unfold gorm.transactionConflict
    rw [List.any_eq_false]
    intro r hr
    have := hok.1 r hr
    simp only [beq_iff_eq]
    omega
  simp [CreateTransaction, gorm.CreateTransaction, hf, hid, gorm.newID, gorm.newSeq, hfree]

end repository

/-- Two different members make a list of length two at least. -/
theorem two_le_length {α : Type} {l : List α} {a b : α} (ha : a ∈ l) (hb : b ∈ l)
    (hne : a ≠ b) : 2 ≤ l.length := by
  cases l with
  | nil => cases ha
  | cons x rest =>
    cases rest with
    | nil =>
      rw [List.mem_singleton] at ha hb
      exact absurd (ha.trans hb.symm) hne
    | cons y rest1 => simp

/-- With a balance record for source and destination, in different wallets, the
lookup of `ScheduleTransaction` returns two rows at least and its loop picks
the record of the source. -/
theorem lookup_both {rows : List asset.Asset} {seq : Nat} (hok : gorm.AssetsOK rows seq)
    (r : ScheduleTransactionRequest) (hne : r.SourceWalletID ≠ r.DestinationWalletID)
    {a b : asset.Asset}
    (ha : asset.lookup rows r.SourceWalletID r.AssetName = some a)
    (hb : asset.lookup rows r.DestinationWalletID r.AssetName = some b) :
    ¬ (rows.filter r.assetFilters.admits).length < 2 ∧
      service.sourceAsset (rows.filter r.assetFilters.admits) r.SourceWalletID = some a := by
  obtain ⟨ha1, ha2, ha3⟩ := asset.lookup_mem ha
  obtain ⟨hb1, hb2, hb3⟩ := asset.lookup_mem hb
  have hma : a ∈ rows.filter r.assetFilters.admits := by
    rw [List.mem_filter, assetFilters_admits]
    exact ⟨ha1, ha3, Or.inl ha2⟩
  have hmb : b ∈ rows.filter r.assetFilters.admits := by
    rw [List.mem_filter, assetFilters_admits]
    exact ⟨hb1, hb3, Or.inr hb2⟩
  have hab : a ≠ b := by
    intro h
    rw [h, hb2] at ha2
    exact hne ha2.symm
  refine ⟨by have := two_le_length hma hmb hab; omega, ?_⟩
  obtain ⟨x, hx⟩ := service.sourceAsset_exists hma ha2
  obtain ⟨hx1, hx2⟩ := service.sourceAsset_mem hx
  rw [List.mem_filter, assetFilters_admits] at hx1
  have hxa : x ∈ rows.filter (asset.pairFilter r.SourceWalletID r.AssetName).admits := by
    rw [List.mem_filter, asset.pairFilter_admits]
    exact ⟨hx1.1, hx2, hx1.2.1⟩
  rw [asset.filter_eq_singleton hok ha, List.mem_singleton] at hxa
  rw [hx, hxa]

/-- With at most one record per pair and no record for one of two different
wallets, the lookup of `ScheduleTransaction` returns one row at most. -/
theorem lookup_missing {rows : List asset.Asset} {seq : Nat} (hok : gorm.AssetsOK rows seq)
    (r : ScheduleTransactionRequest)
    (h : asset.lookup rows r.SourceWalletID r.AssetName = none ∨
      asset.lookup rows r.DestinationWalletID r.AssetName = none) :
    (rows.filter r.assetFilters.admits).length < 2 := by
  have key : ∀ u v : Nat, (r.SourceWalletID = u ∧ r.DestinationWalletID = v ∨
      r.SourceWalletID = v ∧ r.DestinationWalletID = u) →
      asset.lookup rows u r.AssetName = none →
      (rows.filter r.assetFilters.admits).length < 2 := by
    intro u v huv hu
    have hsame : rows.filter r.assetFilters.admits =
        rows.filter (asset.pairFilter v r.AssetName).admits := by
      apply List.filter_congr
      intro x hx
      have hnot := asset.lookup_none_not_mem hu x hx
      rw [Bool.eq_iff_iff, assetFilters_admits, asset.pairFilter_admits]
      constructor
      · rintro ⟨h1, h2⟩
        rcases huv with ⟨e1, e2⟩ | ⟨e1, e2⟩
        · rw [e1, e2] at h2
          rcases h2 with h2 | h2
          · exact absurd ⟨h2, h1⟩ hnot
          · exact ⟨h2, h1⟩
        · rw [e1, e2] at h2
          rcases h2 with h2 | h2
          · exact ⟨h2, h1⟩
          · exact absurd ⟨h2, h1⟩ hnot
      · rintro ⟨h1, h2⟩
        refine ⟨h2, ?_⟩
        rcases huv with ⟨_, e2⟩ | ⟨e1, _⟩
        · exact Or.inr (h1.trans e2.symm)
        · exact Or.inl (h1.trans e1.symm)
    rw [hsame]
    cases hv : asset.lookup rows v r.AssetName with
    | none => rw [asset.lookup_eq_none.mp hv]; simp
    | some b => rw [asset.filter_eq_singleton hok hv]; simp
  rcases h with h | h
  · exact key _ _ (Or.inl ⟨rfl, rfl⟩) h
  · exact key _ _ (Or.inr ⟨rfl, rfl⟩) h

end transaction

namespace transaction
namespace repository

/-- What `CreateTransaction` without transaction handle has done when it returns a record. -/
theorem CreateTransaction_inv {env : Env} {item row : Transaction} {w w1 : World}
    (h : CreateTransaction env false item w = (.ok row, w1)) :
    row = { item with ID := gorm.newID w.transactionSeq item.ID } ∧
      w1.db.transactions = w.db.transactions ++ [row] ∧ w1.db.assets = w.db.assets := by
  unfold CreateTransaction gorm.CreateTransaction at h
  dsimp only at h
  cases hf : env.fault w.trace.length with
  | some e =>
    simp only [hf] at h
    cases h
  | none =>
    simp only [hf, World.record_target, World.target_false] at h
    split at h
    · cases h
    · rename_i h1
      split at h1
      · cases h1
      · cases h1; cases h
        exact ⟨rfl, rfl, rfl⟩

/-- An error of `CreateTransaction` is an error of the driver. -/
theorem CreateTransaction_error (env : Env) (tx : Bool) (item : Transaction) (w : World)
    (e : Error) (h : (CreateTransaction env tx item w).1 = .error e) : ∃ d, e = Error.db d := by
  unfold CreateTransaction at h
  split at h
  · rename_i d w1 _
    cases h
    exact ⟨d, rfl⟩
  · cases h

/-- `CreateTransaction` makes one call to the store, whatever the outcome. -/
theorem CreateTransaction_trace (env : Env) (tx : Bool) (item : Transaction) (w : World) :
    (CreateTransaction env tx item w).2.trace = w.trace ++ [Call.CreateTransaction tx item] := by
  unfold CreateTransaction gorm.CreateTransaction
  dsimp only
  cases hf : env.fault w.trace.length with
  | some e => rfl
  | none =>
    dsimp only
    cases hT : (w.record (Call.CreateTransaction tx item)).target tx with
    | none => rfl
    | some T =>
      dsimp only
      split
      · rename_i h1
        split at h1
        · cases h1; rfl
        · cases h1
      · rename_i h1
        split at h1
        · cases h1
        · cases h1
          cases tx <;> rfl

end repository

namespace service

/-- What `ScheduleTransaction` has done when it returns a record: the record
carries the values of the request, is pending, and is stored. -/
theorem ScheduleTransaction_inv {env : Env} {req : ScheduleTransactionRequest} {w w1 : World}
    {row : Transaction} (h : ScheduleTransaction env req w = (.returns (.ok row), w1)) :
    row = { req.entity with ID := row.ID } ∧
      w1.db.transactions = w.db.transactions ++ [row] ∧ w1.db.assets = w.db.assets := by
  unfold ScheduleTransaction at h
  split at h
  · cases h
  · rename_i h1
    have s1 := (asset.walletClient_inv h1).1
    split at h
    · cases h
    · rename_i h2
      have s2 := (asset.walletClient_inv h2).1
      split at h
      · cases h
      · rename_i assets w3 h3
        have s3 := (asset.repository.GetAsset_inv h3).1
        split at h
        · cases h
        · split at h
          · cases h
          · split at h
            · cases h
            · split at h
              rename_i r w4 h4
              cases h
              obtain ⟨c1, c2, c3⟩ := repository.CreateTransaction_inv h4
              subst s1 s2 s3
              refine ⟨?_, c2, c3⟩
              rw [c1]
              rfl

end service
end transaction

/-! ## The claims on the transfer service -/

/-- The balance check of `ScheduleTransaction` between two different wallets that
both exist, over a store that keeps at most one balance record per pair and
holds a record of the asset for the source and for the destination: the call
fails with `ErrInsufficientBalance` exactly when the amount of the source
record is strictly below the requested amount; a request whose amount is at
most that amount, the equal amount included, returns the pending record it
stored. -/
theorem ScheduleTransaction_balance_check (env : Env) (req : transaction.ScheduleTransactionRequest)
    (w : World) (a b : asset.Asset)
    (hk1 : env.Knows req.SourceWalletID) (hk2 : env.Knows req.DestinationWalletID)
    (hf : env.NoFault) (hok : gorm.AssetsOK w.db.assets w.assetSeq)
    (hne : req.SourceWalletID ≠ req.DestinationWalletID)
    (ha : asset.lookup w.db.assets req.SourceWalletID req.AssetName = some a)
    (hb : asset.lookup w.db.assets req.DestinationWalletID req.AssetName = some b) :
    ((transaction.service.ScheduleTransaction env req w).1 =
        .returns (.error transaction.ErrInsufficientBalance) ↔ a.Amount < req.Amount) ∧
    (req.Amount ≤ a.Amount → gorm.TransactionsOK w.db.transactions w.transactionSeq →
      (transaction.service.ScheduleTransaction env req w).1 =
          .returns (.ok { req.entity with ID := w.transactionSeq + 1 }) ∧
        (transaction.service.ScheduleTransaction env req w).2.db.transactions =
          w.db.transactions ++ [{ req.entity with ID := w.transactionSeq + 1 }]) := by
  obtain ⟨h1, h2⟩ := transaction.lookup_both hok req hne ha hb
  rw [transaction.service.ScheduleTransaction_known env req w hk1 hk2 (hf _), if_neg h1]
  simp only [h2]
  by_cases hlt : a.Amount < req.Amount
  · rw [if_pos hlt]
    exact ⟨⟨fun _ => hlt, fun _ => rfl⟩, fun hle => absurd hlt (not_lt.mpr hle)⟩
  · rw [if_neg hlt]
    refine ⟨⟨fun h => ?_, fun h => absurd h hlt⟩, fun _ hT => ?_⟩
    · have h3 : (transaction.repository.CreateTransaction env false req.entity
          (req.queried w)).1 = .error transaction.ErrInsufficientBalance := by
        injection h
      obtain ⟨d, hd⟩ := transaction.repository.CreateTransaction_error _ _ _ _ _ h3
      cases hd
    · have hT1 : gorm.TransactionsOK (req.queried w).db.transactions
          (req.queried w).transactionSeq := hT
      rw [transaction.repository.CreateTransaction_fresh env req.entity (req.queried w) (hf _)
        hT1 rfl]
      exact ⟨rfl, rfl⟩

/-- C11, the code at the failing input: wallet 1 exists and holds a record of 10
"BTC", so a record of the asset exists for the source and for the destination
of a transfer from wallet 1 to wallet 1.  The request for 50, above the
balance, is answered with `ErrAssetNotFound` and not with
`ErrInsufficientBalance`; the request for exactly 10 is answered with
`ErrAssetNotFound` too and does not succeed. -/
theorem C11_self_transfer_gets_not_found :
    calmEnv.Knows selfRequest.SourceWalletID ∧ calmEnv.Knows selfRequest.DestinationWalletID ∧
    calmEnv.NoFault ∧ gorm.AssetsOK selfWorld.db.assets selfWorld.assetSeq ∧
    asset.lookup selfWorld.db.assets selfRequest.SourceWalletID selfRequest.AssetName =
      some { ID := 1, WalletID := 1, Name := "BTC", Amount := 10 } ∧
    asset.lookup selfWorld.db.assets selfRequest.DestinationWalletID selfRequest.AssetName =
      some { ID := 1, WalletID := 1, Name := "BTC", Amount := 10 } ∧
    (10 : ℚ) < selfRequest.Amount ∧
    (transaction.service.ScheduleTransaction calmEnv selfRequest selfWorld).1 =
      .returns (.error transaction.ErrAssetNotFound) ∧
    (transaction.service.ScheduleTransaction calmEnv selfRequest selfWorld).1 ≠
      .returns (.error transaction.ErrInsufficientBalance) ∧
    (transaction.service.ScheduleTransaction calmEnv { selfRequest with Amount := 10 }
      selfWorld).1 = .returns (.error transaction.ErrAssetNotFound) := by
  refine ⟨fun _ => rfl, fun _ => rfl, fun _ => rfl, by decide, by decide, by decide, by decide,
    by decide, by decide, by decide⟩

/-- C12: for a request between two different wallets that both exist, over a
store that keeps at most one balance record per pair, `ScheduleTransaction`
fails with `ErrAssetNotFound` exactly when the record of the asset is missing
for the source or for the destination; it has then made its three lookups and
nothing else: no write reached the store, so no transfer record and no balance
record was created. -/
theorem C12_asset_not_found_iff (env : Env) (req : transaction.ScheduleTransactionRequest)
    (w : World)
    (hk1 : env.Knows req.SourceWalletID) (hk2 : env.Knows req.DestinationWalletID)
    (hf : env.NoFault) (hok : gorm.AssetsOK w.db.assets w.assetSeq)
    (hne : req.SourceWalletID ≠ req.DestinationWalletID) :
    ((transaction.service.ScheduleTransaction env req w).1 =
        .returns (.error transaction.ErrAssetNotFound) ↔
      (asset.lookup w.db.assets req.SourceWalletID req.AssetName = none ∨
        asset.lookup w.db.assets req.DestinationWalletID req.AssetName = none)) ∧
    ((transaction.service.ScheduleTransaction env req w).1 =
        .returns (.error transaction.ErrAssetNotFound) →
      (transaction.service.ScheduleTransaction env req w).2.db = w.db ∧
      (transaction.service.ScheduleTransaction env req w).2.tx = w.tx ∧
      (transaction.service.ScheduleTransaction env req w).2.trace =
        w.trace ++ [Call.GetWallet req.SourceWalletID, Call.GetWallet req.DestinationWalletID,
          Call.GetAsset req.assetFilters] ∧
      (transaction.service.ScheduleTransaction env req w).2.trace.countP Call.isWrite =
        w.trace.countP Call.isWrite ∧
      (transaction.service.ScheduleTransaction env req w).2.trace.countP
          Call.isCreateTransaction = w.trace.countP Call.isCreateTransaction) := by
  have hq : (req.queried w).trace =
      w.trace ++ [Call.GetWallet req.SourceWalletID, Call.GetWallet req.DestinationWalletID,
        Call.GetAsset req.assetFilters] := by
    simp [transaction.ScheduleTransactionRequest.queried]
  have hmiss : (asset.lookup w.db.assets req.SourceWalletID req.AssetName = none ∨
      asset.lookup w.db.assets req.DestinationWalletID req.AssetName = none) →
      transaction.service.ScheduleTransaction env req w =
        (.returns (.error transaction.ErrAssetNotFound), req.queried w) := by
    intro h
    rw [transaction.service.ScheduleTransaction_known env req w hk1 hk2 (hf _),
      if_pos (transaction.lookup_missing hok req h)]
  have hiff : (transaction.service.ScheduleTransaction env req w).1 =
        .returns (.error transaction.ErrAssetNotFound) ↔
      (asset.lookup w.db.assets req.SourceWalletID req.AssetName = none ∨
        asset.lookup w.db.assets req.DestinationWalletID req.AssetName = none) := by
    constructor
    · intro h
      cases ha : asset.lookup w.db.assets req.SourceWalletID req.AssetName with
      | none => exact Or.inl rfl
      | some a =>
        cases hb : asset.lookup w.db.assets req.DestinationWalletID req.AssetName with
        | none => exact Or.inr rfl
        | some b =>
          exfalso
          obtain ⟨h1, h2⟩ := transaction.lookup_both hok req hne ha hb
          rw [transaction.service.ScheduleTransaction_known env req w hk1 hk2 (hf _),
            if_neg h1] at h
          simp only [h2] at h
          by_cases hlt : a.Amount < req.Amount
          · rw [if_pos hlt] at h
            cases h
          · rw [if_neg hlt] at h
            have h3 : (transaction.repository.CreateTransaction env false req.entity
                (req.queried w)).1 = .error transaction.ErrAssetNotFound := by
              injection h
            obtain ⟨d, hd⟩ := transaction.repository.CreateTransaction_error _ _ _ _ _ h3
            cases hd
    · intro h
      rw [hmiss h]
  refine ⟨hiff, fun h => ?_⟩
  rw [hmiss (hiff.mp h)]
  refine ⟨rfl, rfl, hq, ?_, ?_⟩
  · simp only [hq, List.countP_append]
    simp [Call.isWrite]
  · simp only [hq, List.countP_append]
    simp [Call.isCreateTransaction]

/-- C13: a request that passes every check of `ScheduleTransaction` (both wallets
are known, the lookup returns two rows at least, and the amount does not exceed
the amount of the source row the loop picked) makes exactly one insertion call
to the store, with a pending record that carries the values of the request;
the call returns what that insertion call returns, and a returned record is
the stored one. -/
theorem C13_one_pending_record (env : Env) (req : transaction.ScheduleTransactionRequest)
    (w : World) (a : asset.Asset)
    (hk1 : env.Knows req.SourceWalletID) (hk2 : env.Knows req.DestinationWalletID)
    (hf : env.fault (w.trace.length + 2) = none)
    (hlen : 2 ≤ (w.db.assets.filter req.assetFilters.admits).length)
    (hsrc : transaction.service.sourceAsset (w.db.assets.filter req.assetFilters.admits)
      req.SourceWalletID = some a)
    (hamt : req.Amount ≤ a.Amount) :
    (transaction.service.ScheduleTransaction env req w).1 =
      .returns (transaction.repository.CreateTransaction env false req.entity
        (req.queried w)).1 ∧
    (transaction.service.ScheduleTransaction env req w).2.trace =
      w.trace ++ [Call.GetWallet req.SourceWalletID, Call.GetWallet req.DestinationWalletID,
        Call.GetAsset req.assetFilters, Call.CreateTransaction false req.entity] ∧
    (transaction.service.ScheduleTransaction env req w).2.trace.countP
        Call.isCreateTransaction = w.trace.countP Call.isCreateTransaction + 1 ∧
    (req.entity.Status = transaction.TransactionPending ∧
      req.entity.SourceWalletID = req.SourceWalletID ∧
      req.entity.DestinationWalletID = req.DestinationWalletID ∧
      req.entity.AssetName = req.AssetName ∧ req.entity.Amount = req.Amount ∧
      req.entity.ScheduledAt = req.ScheduledAt) ∧
    (∀ row, (transaction.service.ScheduleTransaction env req w).1 = .returns (.ok row) →
      row = { req.entity with ID := row.ID } ∧
      row ∈ (transaction.service.ScheduleTransaction env req w).2.db.transactions) := by
  have hq : (req.queried w).trace =
      w.trace ++ [Call.GetWallet req.SourceWalletID, Call.GetWallet req.DestinationWalletID,
        Call.GetAsset req.assetFilters] := by
    simp [transaction.ScheduleTransactionRequest.queried]
  have htrace : (transaction.service.ScheduleTransaction env req w).2.trace =
      w.trace ++ [Call.GetWallet req.SourceWalletID, Call.GetWallet req.DestinationWalletID,
        Call.GetAsset req.assetFilters, Call.CreateTransaction false req.entity] := by
    rw [transaction.service.ScheduleTransaction_known env req w hk1 hk2 hf,
      if_neg (by omega)]
    simp only [hsrc]
    rw [if_neg (not_lt.mpr hamt), transaction.repository.CreateTransaction_trace, hq]
    simp
  refine ⟨?_, htrace, ?_, ⟨rfl, rfl, rfl, rfl, rfl, rfl⟩, ?_⟩
  · rw [transaction.service.ScheduleTransaction_known env req w hk1 hk2 hf,
      if_neg (by omega)]
    simp only [hsrc]
    rw [if_neg (not_lt.mpr hamt)]
  · rw [htrace, List.countP_append]
    simp [Call.isCreateTransaction]
  · intro row hrow
    cases hres : transaction.service.ScheduleTransaction env req w with
    | mk r w1 =>
      rw [hres] at hrow
      have hr : r = .returns (.ok row) := hrow
      subst hr
      obtain ⟨c1, c2, _⟩ := transaction.service.ScheduleTransaction_inv hres
      refine ⟨c1, ?_⟩
      show row ∈ w1.db.transactions
      rw [c2]
      simp

/-- C14 (amended): for a request that passes `ScheduleTransactionRequest.Validate`
and for which `ScheduleTransaction` returns a record, the stored record carries
the amount of the request and that amount is not zero; it is strictly positive
exactly when the amount of the request is. -/
theorem C14_amount_not_zero (env : Env) (req : transaction.ScheduleTransactionRequest)
    (w : World) (row : transaction.Transaction)
    (hv : req.Validate = none)
    (hs : (transaction.service.ScheduleTransaction env req w).1 = .returns (.ok row)) :
    row ∈ (transaction.service.ScheduleTransaction env req w).2.db.transactions ∧
      row.Amount = req.Amount ∧ row.Amount ≠ 0 ∧ (0 < row.Amount ↔ 0 < req.Amount) := by
  have hnz : req.Amount ≠ 0 := by
    intro h0
    unfold transaction.ScheduleTransactionRequest.Validate at hv
    rw [if_pos (Or.inr (Or.inr (Or.inr (Or.inl h0))))] at hv
    cases hv
  cases hres : transaction.service.ScheduleTransaction env req w with
  | mk r w1 =>
    rw [hres] at hs
    have hr : r = .returns (.ok row) := hs
    subst hr
    obtain ⟨c1, c2, _⟩ := transaction.service.ScheduleTransaction_inv hres
    have hamt : row.Amount = req.Amount := by
      rw [c1]
      rfl
    refine ⟨?_, hamt, by rw [hamt]; exact hnz, by rw [hamt]⟩
    show row ∈ w1.db.transactions
    rw [c2]
    simp

/-- C14, the claim as written fails: the request for -5 "BTC" from wallet 1 to
wallet 2 passes `Validate`, `ScheduleTransaction` succeeds on it, and the stored
record has the amount -5. -/
theorem C14_counterexample_negative_amount :
    negativeRequest.Validate = none ∧
    (transaction.service.ScheduleTransaction calmEnv negativeRequest walletsWorld).1 =
      .returns (.ok { negativeRequest.entity with ID := 1 }) ∧
    (transaction.service.ScheduleTransaction calmEnv negativeRequest
      walletsWorld).2.db.transactions =
      [{ negativeRequest.entity with ID := 1 }] ∧
    ({ negativeRequest.entity with ID := 1 } : transaction.Transaction).Amount = -5 ∧
    ¬ (0 : ℚ) < -5 := by
  refine ⟨by decide, by decide, by decide, rfl, by norm_num⟩

/-- The request for exactly the 10 "BTC" that wallet 1 holds is scheduled; the
request for 50 would not be. -/
theorem ScheduleTransaction_balance_check_sample :
    ((transaction.service.ScheduleTransaction calmEnv sampleRequest walletsWorld).1 =
        .returns (.error transaction.ErrInsufficientBalance) ↔ (10 : ℚ) < sampleRequest.Amount) ∧
    (transaction.service.ScheduleTransaction calmEnv sampleRequest walletsWorld).1 =
      .returns (.ok { sampleRequest.entity with ID := 1 }) ∧
    (transaction.service.ScheduleTransaction calmEnv sampleRequest walletsWorld).2.db.transactions =
      [{ sampleRequest.entity with ID := 1 }] := by
  have h := ScheduleTransaction_balance_check calmEnv sampleRequest walletsWorld
    { ID := 1, WalletID := 1, Name := "BTC", Amount := 10 }
    { ID := 2, WalletID := 2, Name := "BTC", Amount := 0 }
    (calmEnv_knows _) (calmEnv_knows _) calmEnv_noFault (by decide) (by decide) (by decide)
    (by decide)
  have h2 := h.2 (by decide) (by decide)
  exact ⟨h.1, h2.1, h2.2⟩

/-- Wallet 2 has no record of "ETH": the request is answered with `ErrAssetNotFound`
after the three lookups, and the store is as before. -/
theorem C12_witness_unknown_asset :
    asset.lookup walletsWorld.db.assets 2 "ETH" = none ∧
    (transaction.service.ScheduleTransaction calmEnv unknownAssetRequest walletsWorld).1 =
      .returns (.error transaction.ErrAssetNotFound) ∧
    (transaction.service.ScheduleTransaction calmEnv unknownAssetRequest walletsWorld).2.db =
      walletsWorld.db ∧
    (transaction.service.ScheduleTransaction calmEnv unknownAssetRequest walletsWorld).2.trace =
      [Call.GetWallet 1, Call.GetWallet 2, Call.GetAsset unknownAssetRequest.assetFilters] := by
  have h := C12_asset_not_found_iff calmEnv unknownAssetRequest walletsWorld
    (calmEnv_knows _) (calmEnv_knows _) calmEnv_noFault (by decide) (by decide)
  have h1 : asset.lookup walletsWorld.db.assets 2 "ETH" = none := by decide
  have h2 := h.1.mpr (Or.inr h1)
  have h3 := h.2 h2
  exact ⟨h1, h2, h3.1, h3.2.2.1⟩

/-- The request for 10 "BTC" from wallet 1 (holding 10) to wallet 2: one insertion
call, and the record the store returned is the result. -/
theorem C13_witness_sample_request :
    (transaction.service.ScheduleTransaction calmEnv sampleRequest walletsWorld).1 =
      .returns (transaction.repository.CreateTransaction calmEnv false sampleRequest.entity
        (sampleRequest.queried walletsWorld)).1 ∧
    (transaction.service.ScheduleTransaction calmEnv sampleRequest walletsWorld).2.trace =
      [Call.GetWallet 1, Call.GetWallet 2, Call.GetAsset sampleRequest.assetFilters,
        Call.CreateTransaction false sampleRequest.entity] := by
  have h := C13_one_pending_record calmEnv sampleRequest walletsWorld
    { ID := 1, WalletID := 1, Name := "BTC", Amount := 10 }
    (calmEnv_knows _) (calmEnv_knows _) rfl (by decide) (by decide) (by decide)
  exact ⟨h.1, h.2.1⟩

/-- The request for 10 "BTC" passes `Validate` and is stored with the amount 10. -/
theorem C14_witness_ten :
    sampleRequest.Validate = none ∧
    ({ sampleRequest.entity with ID := 1 } : transaction.Transaction).Amount = sampleRequest.Amount ∧
    ({ sampleRequest.entity with ID := 1 } : transaction.Transaction).Amount ≠ 0 := by
  have h := C14_amount_not_zero calmEnv sampleRequest walletsWorld
    { sampleRequest.entity with ID := 1 } (by decide) (by decide)
  exact ⟨by decide, h.2.1, h.2.2.1⟩

/-! ### Cancelling a transfer -/

namespace transaction

theorem idFilter_admits (id : Nat) (t : Transaction) : (idFilter id).admits t = true ↔ t.ID = id := by
  simp [idFilter, Filters.admits]

/-- In a store that keeps its constraints, the query by id returns the transfer of that id. -/
theorem filter_id {rows : List Transaction} {seq : Nat} (hok : gorm.TransactionsOK rows seq)
    {t : Transaction} (ht : t ∈ rows) :
    ∃ rest, rows.filter (idFilter t.ID).admits = t :: rest := by
  have hmem : t ∈ rows.filter (idFilter t.ID).admits := by
    rw [List.mem_filter, idFilter_admits]
    exact ⟨ht, rfl⟩
  cases hl : rows.filter (idFilter t.ID).admits with
  | nil => rw [hl] at hmem; cases hmem
  | cons x rest =>
    have hx : x ∈ rows.filter (idFilter t.ID).admits := by rw [hl]; exact List.mem_cons_self _ _
    rw [List.mem_filter, idFilter_admits] at hx
    rw [hok.sameRow hx.1 ht hx.2]
    exact ⟨rest, rfl⟩

namespace service

/-- `CancelTransaction` for an id no stored transfer carries. -/
theorem CancelTransaction_missing (env : Env) (id : Nat) (w : World)
    (hf : env.fault w.trace.length = none) (hno : ∀ t ∈ w.db.transactions, t.ID ≠ id) :
    CancelTransaction env id w =
      (some ErrTransactionNotFound, w.record (Call.GetTransactions (idFilter id))) := by
  have hnil : w.db.transactions.filter (idFilter id).admits = [] := by
    rw [List.filter_eq_nil_iff]
    intro t ht h
    exact hno t ht ((idFilter_admits id t).mp h)
  unfold CancelTransaction repository.GetTransactions gorm.FindTransactions
  dsimp only
  rw [hf]
  dsimp only
  have hnil1 : w.db.transactions.filter (Filters.admits { ID := [id] }) = [] := hnil
  rw [hnil1]
  rfl

/-- `CancelTransaction` for a stored transfer that is not pending. -/
theorem CancelTransaction_settled (env : Env) (w : World) (t : Transaction)
    (hf : env.fault w.trace.length = none)
    (hok : gorm.TransactionsOK w.db.transactions w.transactionSeq)
    (ht : t ∈ w.db.transactions) (hp : t.Status ≠ TransactionPending) :
    CancelTransaction env t.ID w =
      (some ErrTransactionCannotBeDeleted, w.record (Call.GetTransactions (idFilter t.ID))) := by
  obtain ⟨rest, hrest⟩ := filter_id hok ht
  have hrest1 : w.db.transactions.filter (Filters.admits { ID := [t.ID] }) = t :: rest := hrest
  unfold CancelTransaction repository.GetTransactions gorm.FindTransactions
  dsimp only
  rw [hf]
  dsimp only
  rw [hrest1]
  dsimp only
  rw [if_pos hp]
  rfl

/-- `CancelTransaction` for a stored pending transfer, the store performing its calls. -/
theorem CancelTransaction_pending (env : Env) (w : World) (t : Transaction)
    (hf : env.fault w.trace.length = none) (hf1 : env.fault (w.trace.length + 1) = none)
    (hok : gorm.TransactionsOK w.db.transactions w.transactionSeq)
    (ht : t ∈ w.db.transactions) (hp : t.Status = TransactionPending) :
    CancelTransaction env t.ID w =
      (none, World.setTarget
        ((w.record (Call.GetTransactions (idFilter t.ID))).record
          (Call.UpdateTransaction false { t with Status := TransactionCancelled })) false
        { w.db with transactions :=
            gorm.upsertTransaction w.db.transactions { t with Status := TransactionCancelled } }) := by
  obtain ⟨rest, hrest⟩ := filter_id hok ht
  have hrest1 : w.db.transactions.filter (Filters.admits { ID := [t.ID] }) = t :: rest := hrest
  have hid : t.ID ≠ 0 := by have := hok.1 t ht; omega
  unfold CancelTransaction repository.GetTransactions gorm.FindTransactions
  dsimp only
  rw [hf]
  dsimp only
  rw [hrest1]
  dsimp only
  rw [if_neg (not_not.mpr hp)]
  rw [repository.UpdateTransaction_ok env false { t with Status := TransactionCancelled }
    (w.record (Call.GetTransactions { ID := [t.ID] })) w.db (by simpa using hf1) rfl hid]
  rfl

end service
end transaction

/-- C15: with the store performing its calls and keeping its constraints,
`CancelTransaction(id)` returns `ErrTransactionNotFound` and leaves the store as
it is when no transfer carries the id; returns `ErrTransactionCannotBeDeleted`
and leaves the store as it is when the transfer of that id is not pending;
otherwise returns no error, and the stored transfers are the former ones with
the status of the transfer of that id set to cancelled and nothing else
changed, the balance rows being as before. -/
theorem C15_cancel_transaction (env : Env) (id : Nat) (w : World) (hf : env.NoFault)
    (hok : gorm.TransactionsOK w.db.transactions w.transactionSeq) :
    ((∀ t ∈ w.db.transactions, t.ID ≠ id) →
      (transaction.service.CancelTransaction env id w).1 =
          some transaction.ErrTransactionNotFound ∧
        (transaction.service.CancelTransaction env id w).2.db = w.db ∧
        (transaction.service.CancelTransaction env id w).2.tx = w.tx) ∧
    (∀ t ∈ w.db.transactions, t.ID = id → t.Status ≠ transaction.TransactionPending →
      (transaction.service.CancelTransaction env id w).1 =
          some transaction.ErrTransactionCannotBeDeleted ∧
        (transaction.service.CancelTransaction env id w).2.db = w.db ∧
        (transaction.service.CancelTransaction env id w).2.tx = w.tx) ∧
    (∀ t ∈ w.db.transactions, t.ID = id → t.Status = transaction.TransactionPending →
      (transaction.service.CancelTransaction env id w).1 = none ∧
        (transaction.service.CancelTransaction env id w).2.db.transactions =
          w.db.transactions.map (fun r =>
            if r.ID = id then { r with Status := transaction.TransactionCancelled } else r) ∧
        { t with Status := transaction.TransactionCancelled } ∈
          (transaction.service.CancelTransaction env id w).2.db.transactions ∧
        (transaction.service.CancelTransaction env id w).2.db.assets = w.db.assets ∧
        (transaction.service.CancelTransaction env id w).2.tx = w.tx) := by
  refine ⟨fun hno => ?_, fun t ht hid hp => ?_, fun t ht hid hp => ?_⟩
  · rw [transaction.service.CancelTransaction_missing env id w (hf _) hno]
    exact ⟨rfl, rfl, rfl⟩
  · subst hid
    rw [transaction.service.CancelTransaction_settled env w t (hf _) hok ht hp]
    exact ⟨rfl, rfl, rfl⟩
  · subst hid
    rw [transaction.service.CancelTransaction_pending env w t (hf _) (hf _) hok ht hp]
    have hrows : gorm.upsertTransaction w.db.transactions
        { t with Status := transaction.TransactionCancelled } =
        w.db.transactions.map (fun r =>
          if r.ID = t.ID then { r with Status := transaction.TransactionCancelled } else r) := by
      rw [gorm.upsertTransaction_of_mem { t with Status := transaction.TransactionCancelled }
        ⟨t, ht, rfl⟩]
      apply List.map_congr_left
      intro r hr
      by_cases h : r.ID = t.ID
      · have hrt : r = t := hok.sameRow hr ht h
        subst hrt
        simp
      · have h1 : ¬ r.ID = ({ t with Status := transaction.TransactionCancelled } :
            transaction.Transaction).ID := h
        rw [if_neg h1, if_neg h]
    refine ⟨rfl, hrows, ?_, rfl, rfl⟩
    exact gorm.self_mem_upsertTransaction _ _

/-- C16: with the store performing its calls and keeping its constraints,
cancelling a stored pending transfer succeeds, and cancelling it again returns
`ErrTransactionCannotBeDeleted` and leaves the store as the first call left it. -/
theorem C16_cancel_twice (env : Env) (w : World) (t : transaction.Transaction)
    (hf : env.NoFault) (hok : gorm.TransactionsOK w.db.transactions w.transactionSeq)
    (ht : t ∈ w.db.transactions) (hp : t.Status = transaction.TransactionPending) :
    (transaction.service.CancelTransaction env t.ID w).1 = none ∧
    (transaction.service.CancelTransaction env t.ID
        (transaction.service.CancelTransaction env t.ID w).2).1 =
      some transaction.ErrTransactionCannotBeDeleted ∧
    (transaction.service.CancelTransaction env t.ID
        (transaction.service.CancelTransaction env t.ID w).2).2.db =
      (transaction.service.CancelTransaction env t.ID w).2.db ∧
    (transaction.service.CancelTransaction env t.ID
        (transaction.service.CancelTransaction env t.ID w).2).2.tx =
      (transaction.service.CancelTransaction env t.ID w).2.tx := by
  obtain ⟨w1, h1, hrows, hseq⟩ : ∃ w1, transaction.service.CancelTransaction env t.ID w = (none, w1) ∧
      w1.db.transactions = gorm.upsertTransaction w.db.transactions
        { t with Status := transaction.TransactionCancelled } ∧
      w1.transactionSeq = w.transactionSeq :=
    ⟨_, transaction.service.CancelTransaction_pending env w t (hf _) (hf _) hok ht hp, rfl, rfl⟩
  obtain ⟨_, hok1⟩ := gorm.upsertTransaction_status hok ht transaction.TransactionCancelled
  have hmem := gorm.self_mem_upsertTransaction w.db.transactions
    { t with Status := transaction.TransactionCancelled }
  rw [← hrows] at hok1 hmem
  rw [← hseq] at hok1
  have h2 := transaction.service.CancelTransaction_settled env w1
    { t with Status := transaction.TransactionCancelled } (hf _) hok1 hmem
    transaction.cancelled_ne_pending
  have h3 : ({ t with Status := transaction.TransactionCancelled } :
      transaction.Transaction).ID = t.ID := rfl
  rw [h3] at h2
  rw [h1]
  refine ⟨rfl, ?_, ?_, ?_⟩
  · rw [h2]
  · rw [h2]; rfl
  · rw [h2]; rfl

/-- Among the four stored transfers no one has the id 9, the one of id 4 is
cancelled, the one of id 2 is pending and gets cancelled. -/
theorem C15_witness_three_ids :
    ((transaction.service.CancelTransaction calmEnv 9 batchWorld).1 =
        some transaction.ErrTransactionNotFound ∧
      (transaction.service.CancelTransaction calmEnv 9 batchWorld).2.db = batchWorld.db) ∧
    ((transaction.service.CancelTransaction calmEnv 4 batchWorld).1 =
        some transaction.ErrTransactionCannotBeDeleted ∧
      (transaction.service.CancelTransaction calmEnv 4 batchWorld).2.db = batchWorld.db) ∧
    ((transaction.service.CancelTransaction calmEnv 2 batchWorld).1 = none ∧
      (transaction.service.CancelTransaction calmEnv 2 batchWorld).2.db.transactions =
        [largeTransfer, { smallTransfer with Status := transaction.TransactionCancelled },
          laterTransfer, cancelledTransfer] ∧
      (transaction.service.CancelTransaction calmEnv 2 batchWorld).2.db.assets =
        batchWorld.db.assets) := by
  have hok : gorm.TransactionsOK batchWorld.db.transactions batchWorld.transactionSeq := by
    decide
  have h9 := (C15_cancel_transaction calmEnv 9 batchWorld calmEnv_noFault hok).1 (by decide)
  have h4 := (C15_cancel_transaction calmEnv 4 batchWorld calmEnv_noFault hok).2.1
    cancelledTransfer (by decide) rfl (by decide)
  have h2 := (C15_cancel_transaction calmEnv 2 batchWorld calmEnv_noFault hok).2.2
    smallTransfer (by decide) rfl rfl
  refine ⟨⟨h9.1, h9.2.1⟩, ⟨h4.1, h4.2.1⟩, h2.1, ?_, h2.2.2.2.1⟩
  rw [h2.2.1]
  decide

/-- The sample transfer is cancelled once; the second call is refused and the
stored transfers are as the first call left them. -/
theorem C16_witness_sample_transfer :
    (transaction.service.CancelTransaction calmEnv 1 sampleWorld).1 = none ∧
    (transaction.service.CancelTransaction calmEnv 1
        (transaction.service.CancelTransaction calmEnv 1 sampleWorld).2).1 =
      some transaction.ErrTransactionCannotBeDeleted ∧
    (transaction.service.CancelTransaction calmEnv 1
        (transaction.service.CancelTransaction calmEnv 1 sampleWorld).2).2.db =
      (transaction.service.CancelTransaction calmEnv 1 sampleWorld).2.db := by
  have h := C16_cancel_twice calmEnv sampleWorld sampleTransfer calmEnv_noFault (by decide)
    (List.mem_cons_self _ _) rfl
  exact ⟨h.1, h.2.1, h.2.2.1⟩

/-! ### The batch of a cycle -/

namespace scheduler

/-- Processing a transfer adds one line to the log: its outcome. -/
theorem process_log (env : Env) (w : World) (t : transaction.Transaction) :
    ∃ line, Outcome t line ∧ (process env w t).log = w.log ++ [line] := by
  rcases process_cases env w t with ⟨⟨e, _, hlog⟩, _⟩ | ⟨_, hlog, _⟩
  · exact ⟨_, Or.inr ⟨e, rfl⟩, hlog⟩
  · exact ⟨_, Or.inl rfl, hlog⟩

/-- The inner loop of a cycle adds the outcome of each transfer to the log, in
the order of the list. -/
theorem foldl_process_log (env : Env) (ts : List transaction.Transaction) :
    ∀ w : World, ∃ lines, List.Forall₂ Outcome ts lines ∧
      (ts.foldl (process env) w).log = w.log ++ lines := by
  induction ts with
  | nil =>
    intro w
    exact ⟨[], List.Forall₂.nil, by simp⟩
  | cons t rest ih =>
    intro w
    obtain ⟨line, h1, h2⟩ := process_log env w t
    obtain ⟨lines, h3, h4⟩ := ih (process env w t)
    refine ⟨line :: lines, List.Forall₂.cons h1 h3, ?_⟩
    rw [List.foldl_cons, h4, h2]
    simp

/-- The inner loop of a cycle leaves the stored transfers it does not run over as they are. -/
theorem foldl_process_keeps (env : Env) (ts : List transaction.Transaction) :
    ∀ w : World, gorm.TransactionsOK w.db.transactions w.transactionSeq →
      (ts.map (fun t => t.ID)).Nodup →
      (∀ t ∈ ts, t ∈ w.db.transactions ∧ t.Status = transaction.TransactionPending) →
      ∀ r ∈ w.db.transactions, r.ID ∉ ts.map (fun t => t.ID) →
        r ∈ (ts.foldl (process env) w).db.transactions := by
  induction ts with
  | nil =>
    intro w _ _ _ r hr _
    exact hr
  | cons t rest ih =>
    intro w hok hnd hmem r hr hnot
    rw [List.map_cons, List.nodup_cons] at hnd
    rw [List.map_cons, List.mem_cons, not_or] at hnot
    obtain ⟨htm, htp⟩ := hmem t (List.mem_cons_self _ _)
    obtain ⟨p1, _, p3⟩ := process_transfer env w t hok htm htp
    have hkeep : ∀ x ∈ w.db.transactions, x.ID ≠ t.ID → x ∈ (process env w t).db.transactions := by
      intro x hx hne
      rcases p3 with ⟨hdb, _⟩ | ⟨_, hk, _⟩
      · rw [hdb]; exact hx
      · exact hk x hx hne
    have hrest : ∀ t2 ∈ rest, t2 ∈ (process env w t).db.transactions ∧
        t2.Status = transaction.TransactionPending := by
      intro t2 ht2
      obtain ⟨m2, s2⟩ := hmem t2 (List.mem_cons_of_mem _ ht2)
      refine ⟨hkeep t2 m2 ?_, s2⟩
      intro h
      exact hnd.1 (List.mem_map.mpr ⟨t2, ht2, h⟩)
    rw [List.foldl_cons]
    exact ih (process env w t) p1 hnd.2 hrest r (hkeep r hr hnot.1) hnot.2

/-- The poll of a cycle at a clock reading other than Go's zero instant admits
the pending transfers scheduled at that reading or before. -/
theorem dueFilter_admits (now : Time) (hnow : now ≠ 0) (t : transaction.Transaction) :
    (dueFilter now).admits t = true ↔
      t.Status = transaction.TransactionPending ∧ t.ScheduledAt ≤ now := by
  simp [dueFilter, transaction.Filters.admits, hnow]

/-- A cycle whose poll the store answers is the inner loop over the rows the
poll returned, followed by the pause. -/
theorem cycle_polled (s : Scheduler) (env : Env) (now : Time) (w : World)
    (hf : env.fault w.trace.length = none) :
    cycle s env now w =
      (true, ((w.db.transactions.filter (dueFilter now).admits).foldl (process env)
        (if (w.db.transactions.filter (dueFilter now).admits).length = 0 then
          (w.record (Call.GetTransactions (dueFilter now))).logLine
            (LogEntry.Info "no pending transactions")
        else w.record (Call.GetTransactions (dueFilter now)))).record
          (Call.Sleep s.cfg.Interval)) := by
  unfold cycle transaction.repository.GetTransactions gorm.FindTransactions
  dsimp only
  rw [hf]
  rfl

/-- A cycle whose poll the store refuses logs the error and ends `Start`. -/
theorem cycle_refused (s : Scheduler) (env : Env) (now : Time) (w : World) (e : DBError)
    (hf : env.fault w.trace.length = some e) :
    cycle s env now w =
      (false, (w.record (Call.GetTransactions (dueFilter now))).logLine
        (LogEntry.Error "failed to get transactions" (Error.db e))) := by
  unfold cycle transaction.repository.GetTransactions gorm.FindTransactions
  dsimp only
  rw [hf]
  rfl

end scheduler

/-! ## The claims on the executor -/

/-- C18, the code at the failing input: the store refuses the first poll and
performs every later call.  `Start` logs "failed to get transactions" and
returns: it has made the one poll and no pause, the due sample transfer is
still pending, and the second clock reading is never used, although a cycle
started in the world it left would have reached its pause. -/
theorem C18_refused_poll_ends_start :
    (scheduler.Start sampleScheduler firstCallFails [100, 200] sampleWorld).1 = false ∧
    (scheduler.Start sampleScheduler firstCallFails [100, 200] sampleWorld).2.trace =
      [Call.GetTransactions (scheduler.dueFilter 100)] ∧
    (scheduler.Start sampleScheduler firstCallFails [100, 200] sampleWorld).2.log =
      [LogEntry.Info "scheduler started",
        LogEntry.Error "failed to get transactions"
          (Error.db (DBError.other "connection refused"))] ∧
    (scheduler.Start sampleScheduler firstCallFails [100, 200] sampleWorld).2.db =
      sampleWorld.db ∧
    sampleTransfer ∈ sampleWorld.db.transactions.filter (scheduler.dueFilter 100).admits ∧
    (scheduler.cycle sampleScheduler firstCallFails 200
      (scheduler.Start sampleScheduler firstCallFails [100, 200] sampleWorld).2).1 = true := by
  refine ⟨by decide, by decide, by decide, by decide, by decide, by decide!⟩

/-- C19: at a clock reading other than Go's zero instant, over a store that
keeps its constraints, the transfers a cycle runs over are exactly the stored
transfers that are pending and scheduled at the reading or before; every
other stored transfer is still stored, unchanged, after the cycle, and no
completion is logged for it. -/
theorem C19_due_selection (s : scheduler.Scheduler) (env : Env) (now : Time) (w : World)
    (hnow : now ≠ 0) (hok : gorm.TransactionsOK w.db.transactions w.transactionSeq) :
    (∀ t, t ∈ w.db.transactions.filter (scheduler.dueFilter now).admits ↔
      (t ∈ w.db.transactions ∧ t.Status = transaction.TransactionPending ∧
        t.ScheduledAt ≤ now)) ∧
    (env.fault w.trace.length = none →
      scheduler.cycle s env now w =
        (true, ((w.db.transactions.filter (scheduler.dueFilter now).admits).foldl
          (scheduler.process env)
          (if (w.db.transactions.filter (scheduler.dueFilter now).admits).length = 0 then
            (w.record (Call.GetTransactions (scheduler.dueFilter now))).logLine
              (LogEntry.Info "no pending transactions")
          else w.record (Call.GetTransactions (scheduler.dueFilter now)))).record
            (Call.Sleep s.cfg.Interval))) ∧
    (∀ r ∈ w.db.transactions,
      ¬ (r.Status = transaction.TransactionPending ∧ r.ScheduledAt ≤ now) →
        r ∈ (scheduler.cycle s env now w).2.db.transactions ∧
        scheduler.completions r.ID (scheduler.cycle s env now w).2.log =
          scheduler.completions r.ID w.log) := by
  have hsel : ∀ t, t ∈ w.db.transactions.filter (scheduler.dueFilter now).admits ↔
      (t ∈ w.db.transactions ∧ t.Status = transaction.TransactionPending ∧
        t.ScheduledAt ≤ now) := by
    intro t
    rw [List.mem_filter, scheduler.dueFilter_admits now hnow]
  refine ⟨hsel, scheduler.cycle_polled s env now w, fun r hr hnot => ?_⟩
  cases hfault : env.fault w.trace.length with
  | some e =>
    rw [scheduler.cycle_refused s env now w e hfault]
    refine ⟨hr, ?_⟩
    simp [World.logLine, scheduler.completions_error]
  | none =>
    rw [scheduler.cycle_polled s env now w hfault]
    have hmem : ∀ t ∈ w.db.transactions.filter (scheduler.dueFilter now).admits,
        t ∈ w.db.transactions ∧ t.Status = transaction.TransactionPending := by
      intro t ht
      have := (hsel t).mp ht
      exact ⟨this.1, this.2.1⟩
    have hnd : ((w.db.transactions.filter (scheduler.dueFilter now).admits).map
        (fun t => t.ID)).Nodup :=
      List.Nodup.sublist (List.Sublist.map _ (List.filter_sublist _)) hok.2
    have hrid : r.ID ∉ (w.db.transactions.filter (scheduler.dueFilter now).admits).map
        (fun t => t.ID) := by
      intro hin
      rw [List.mem_map] at hin
      obtain ⟨t, ht, hid⟩ := hin
      have ht2 := (hsel t).mp ht
      have htr : t = r := hok.sameRow ht2.1 hr hid
      subst htr
      exact hnot ht2.2
    generalize hts : w.db.transactions.filter (scheduler.dueFilter now).admits = ts at *
    generalize hw2 : (if ts.length = 0 then
        (w.record (Call.GetTransactions (scheduler.dueFilter now))).logLine
          (LogEntry.Info "no pending transactions")
      else w.record (Call.GetTransactions (scheduler.dueFilter now))) = w2
    have hdb2 : w2.db = w.db := by
      rw [← hw2]; split <;> simp [World.logLine]
    have hseq2 : w2.transactionSeq = w.transactionSeq := by
      rw [← hw2]; split <;> simp [World.logLine]
    have hlog2 : scheduler.completions r.ID w2.log = scheduler.completions r.ID w.log := by
      rw [← hw2]; split <;> simp [World.logLine, scheduler.completions_info]
    have hok2 : gorm.TransactionsOK w2.db.transactions w2.transactionSeq := by
      rw [hdb2, hseq2]; exact hok
    have hmem2 : ∀ t ∈ ts, t ∈ w2.db.transactions ∧
        t.Status = transaction.TransactionPending := by
      rw [hdb2]; exact hmem
    have k1 := scheduler.foldl_process_keeps env ts w2 hok2 hnd hmem2 r (by rw [hdb2]; exact hr)
      hrid
    have k2 := (scheduler.foldl_process env r.ID ts w2 hok2 hnd hmem2).2.2.1 hrid
    rw [hlog2] at k2
    exact ⟨by simpa using k1, by simpa using k2⟩

/-- At the reading 5 the transfers due at 3 and at 5 are run over; the one due at
200 and the cancelled one are stored as before after the cycle. -/
theorem C19_witness_reading_five :
    batchWorld.db.transactions.filter (scheduler.dueFilter 5).admits =
      [largeTransfer, smallTransfer] ∧
    (smallTransfer ∈ batchWorld.db.transactions.filter (scheduler.dueFilter 5).admits ↔
      (smallTransfer ∈ batchWorld.db.transactions ∧
        smallTransfer.Status = transaction.TransactionPending ∧
        smallTransfer.ScheduledAt ≤ 5)) ∧
    laterTransfer ∈ (scheduler.cycle sampleScheduler calmEnv 5 batchWorld).2.db.transactions ∧
    cancelledTransfer ∈
      (scheduler.cycle sampleScheduler calmEnv 5 batchWorld).2.db.transactions := by
  have h := C19_due_selection sampleScheduler calmEnv 5 batchWorld (by decide) (by decide)
  exact ⟨by decide, h.1 smallTransfer,
    (h.2.2 laterTransfer (by decide) (by decide)).1,
    (h.2.2 cancelledTransfer (by decide) (by decide)).1⟩

/-- C20, the code at the failing input: the atomic unit of the stored transfer of
4 "BTC" from wallet 1 to wallet 1, wallet 1 holding 10.  Inside the open
transaction `Withdraw` writes the balance 6 to the rows of the transaction; the
lookup of the `Deposit` that follows goes through the repository's own handle,
reads the committed 10 and not the 6, and writes 14; the unit commits 14. -/
theorem C20_lookup_misses_withdraw :
    (gorm.Begin calmEnv selfWorld).2.tx = some selfWorld.db ∧
    (asset.service.Withdraw calmEnv true { WalletID := 1, Name := "BTC", Amount := 4 }
      (gorm.Begin calmEnv selfWorld).2).1 =
      .ok { ID := 1, WalletID := 1, Name := "BTC", Amount := 6 } ∧
    ((asset.service.Withdraw calmEnv true { WalletID := 1, Name := "BTC", Amount := 4 }
      (gorm.Begin calmEnv selfWorld).2).2.tx.map (fun t => t.assets)) =
      some [{ ID := 1, WalletID := 1, Name := "BTC", Amount := 6 }] ∧
    (asset.service.Withdraw calmEnv true { WalletID := 1, Name := "BTC", Amount := 4 }
      (gorm.Begin calmEnv selfWorld).2).2.db.assets =
      [{ ID := 1, WalletID := 1, Name := "BTC", Amount := 10 }] ∧
    (asset.service.Deposit calmEnv true { WalletID := 1, Name := "BTC", Amount := 4 }
      (asset.service.Withdraw calmEnv true { WalletID := 1, Name := "BTC", Amount := 4 }
        (gorm.Begin calmEnv selfWorld).2).2).1 =
      .ok { ID := 1, WalletID := 1, Name := "BTC", Amount := 14 } ∧
    (scheduler.process calmEnv selfWorld selfTransfer).db.assets =
      [{ ID := 1, WalletID := 1, Name := "BTC", Amount := 14 }] ∧
    (scheduler.process calmEnv selfWorld selfTransfer).trace =
      [Call.Begin,
        Call.GetWallet 1, Call.GetAsset { Name := ["BTC"], WalletID := [1] },
        Call.UpdateAsset true { ID := 1, WalletID := 1, Name := "BTC", Amount := 6 },
        Call.GetWallet 1, Call.GetAsset { Name := ["BTC"], WalletID := [1] },
        Call.UpdateAsset true { ID := 1, WalletID := 1, Name := "BTC", Amount := 14 },
        Call.UpdateTransaction true { selfTransfer with Status := transaction.TransactionCompleted },
        Call.Commit] := by
  refine ⟨by decide, by decide!, by decide!, by decide!, by decide!, by decide!, by decide!⟩

/-! ## The claims on error handling and on the transport layer -/

/-- C21: when the wallet directory answers the query of a `Deposit` or of a
`Withdraw` with an error, whichever it is, the call returns that error and no
record; it has queried the directory once and made no call to the store: the
trace has grown by the one `GetWallet` and the rows are as before. -/
theorem C21_directory_error (env : Env) (tx : Bool) (w : World) (e : Error)
    (dreq : asset.CreateDepositRequest) (wreq : asset.CreateWithdrawRequest)
    (hd : env.GetWallet w.trace.length dreq.WalletID = .error e)
    (hw : env.GetWallet w.trace.length wreq.WalletID = .error e) :
    (asset.service.Deposit env tx dreq w = (.error e, w.record (Call.GetWallet dreq.WalletID)) ∧
      (asset.service.Deposit env tx dreq w).2.trace = w.trace ++ [Call.GetWallet dreq.WalletID] ∧
      directoryQueries (asset.service.Deposit env tx dreq w).2.trace =
        directoryQueries w.trace + 1 ∧
      (asset.service.Deposit env tx dreq w).2.db = w.db ∧
      (asset.service.Deposit env tx dreq w).2.tx = w.tx) ∧
    (asset.service.Withdraw env tx wreq w = (.error e, w.record (Call.GetWallet wreq.WalletID)) ∧
      (asset.service.Withdraw env tx wreq w).2.trace = w.trace ++ [Call.GetWallet wreq.WalletID] ∧
      directoryQueries (asset.service.Withdraw env tx wreq w).2.trace =
        directoryQueries w.trace + 1 ∧
      (asset.service.Withdraw env tx wreq w).2.db = w.db ∧
      (asset.service.Withdraw env tx wreq w).2.tx = w.tx) := by
  have h1 : asset.service.Deposit env tx dreq w =
      (.error e, w.record (Call.GetWallet dreq.WalletID)) := by
    unfold asset.service.Deposit wallet.GetWallet
    rw [hd]
  have h2 : asset.service.Withdraw env tx wreq w =
      (.error e, w.record (Call.GetWallet wreq.WalletID)) := by
    unfold asset.service.Withdraw wallet.GetWallet
    rw [hw]
  rw [h1, h2]
  refine ⟨⟨rfl, rfl, ?_, rfl, rfl⟩, rfl, rfl, ?_, rfl, rfl⟩ <;>
    simp [directoryQueries, World.record, List.countP_append, Call.isGetWallet]

/-- C22: `ScheduleTransaction` looks the source wallet up first; when that lookup
fails the call returns its error after this one query; when it succeeds and
the lookup of the destination fails the call returns that error after the two
queries.  In both cases no call to the store is in the trace and the rows
are as before. -/
theorem C22_short_circuit (env : Env) (req : transaction.ScheduleTransactionRequest)
    (w : World) :
    (∀ e, env.GetWallet w.trace.length req.SourceWalletID = .error e →
      (transaction.service.ScheduleTransaction env req w).1 = .returns (.error e) ∧
      (transaction.service.ScheduleTransaction env req w).2.trace =
        w.trace ++ [Call.GetWallet req.SourceWalletID] ∧
      (transaction.service.ScheduleTransaction env req w).2.db = w.db ∧
      (transaction.service.ScheduleTransaction env req w).2.tx = w.tx) ∧
    (∀ wl e, env.GetWallet w.trace.length req.SourceWalletID = .ok wl →
      env.GetWallet (w.trace.length + 1) req.DestinationWalletID = .error e →
      (transaction.service.ScheduleTransaction env req w).1 = .returns (.error e) ∧
      (transaction.service.ScheduleTransaction env req w).2.trace =
        w.trace ++ [Call.GetWallet req.SourceWalletID,
          Call.GetWallet req.DestinationWalletID] ∧
      (transaction.service.ScheduleTransaction env req w).2.db = w.db ∧
      (transaction.service.ScheduleTransaction env req w).2.tx = w.tx) := by
  constructor
  · intro e h
    have h1 : transaction.service.ScheduleTransaction env req w =
        (.returns (.error e), w.record (Call.GetWallet req.SourceWalletID)) := by
      unfold transaction.service.ScheduleTransaction wallet.GetWallet
      rw [h]
    rw [h1]
    exact ⟨rfl, rfl, rfl, rfl⟩
  · intro wl e h h2
    have h1 : transaction.service.ScheduleTransaction env req w =
        (.returns (.error e), (w.record (Call.GetWallet req.SourceWalletID)).record
          (Call.GetWallet req.DestinationWalletID)) := by
      unfold transaction.service.ScheduleTransaction wallet.GetWallet
      rw [h]
      simp only [World.record_trace, List.length_append, List.length_singleton]
      rw [h2]
    rw [h1]
    refine ⟨rfl, ?_, rfl, rfl⟩
    simp [World.record]

/-- The directory knows no wallet: deposit and withdrawal return its answer after
the one query. -/
theorem C21_witness_unknown_wallet :
    asset.service.Deposit noWalletEnv false { WalletID := 7, Name := "BTC", Amount := 5 }
        walletsWorld = (.error wallet.ErrWalletNotFound, walletsWorld.record (Call.GetWallet 7)) ∧
    asset.service.Withdraw noWalletEnv true { WalletID := 7, Name := "BTC", Amount := 5 }
        walletsWorld = (.error wallet.ErrWalletNotFound, walletsWorld.record (Call.GetWallet 7)) := by
  have h1 := C21_directory_error noWalletEnv false walletsWorld wallet.ErrWalletNotFound
    { WalletID := 7, Name := "BTC", Amount := 5 } { WalletID := 7, Name := "BTC", Amount := 5 }
    rfl rfl
  have h2 := C21_directory_error noWalletEnv true walletsWorld wallet.ErrWalletNotFound
    { WalletID := 7, Name := "BTC", Amount := 5 } { WalletID := 7, Name := "BTC", Amount := 5 }
    rfl rfl
  exact ⟨h1.1.1, h2.2.1⟩

/-- No wallet known: one query; wallet 1 known and wallet 2 not: two queries. -/
theorem C22_witness_lookups :
    ((transaction.service.ScheduleTransaction noWalletEnv sampleRequest walletsWorld).1 =
        .returns (.error wallet.ErrWalletNotFound) ∧
      (transaction.service.ScheduleTransaction noWalletEnv sampleRequest walletsWorld).2.trace =
        [Call.GetWallet 1]) ∧
    ((transaction.service.ScheduleTransaction oneWalletEnv sampleRequest walletsWorld).1 =
        .returns (.error wallet.ErrWalletNotFound) ∧
      (transaction.service.ScheduleTransaction oneWalletEnv sampleRequest walletsWorld).2.trace =
        [Call.GetWallet 1, Call.GetWallet 2]) := by
  have h1 := (C22_short_circuit noWalletEnv sampleRequest walletsWorld).1
    wallet.ErrWalletNotFound rfl
  have h2 := (C22_short_circuit oneWalletEnv sampleRequest walletsWorld).2
    { ID := 1 } wallet.ErrWalletNotFound rfl rfl
  exact ⟨⟨h1.1, h1.2.1⟩, h2.1, h2.2.1⟩

/-- C23 (amended): `CreateDepositRequest.Validate` and `CreateWithdrawRequest.Validate`
return an error exactly for the requests with wallet id zero, empty name or
amount zero; so they return an error for every request whose amount is zero
and none for a request with non-zero wallet id, non-empty name and non-zero
amount, the amounts above zero included. -/
theorem C23_validate_refuses_zero (walletID : Nat) (name : String) (amount : ℚ) :
    ((asset.CreateDepositRequest.Validate
        { WalletID := walletID, Name := name, Amount := amount }).isSome ↔
      (walletID = 0 ∨ name = "" ∨ amount = 0)) ∧
    ((asset.CreateWithdrawRequest.Validate
        { WalletID := walletID, Name := name, Amount := amount }).isSome ↔
      (walletID = 0 ∨ name = "" ∨ amount = 0)) ∧
    (walletID ≠ 0 → name ≠ "" → 0 < amount →
      asset.CreateDepositRequest.Validate
          { WalletID := walletID, Name := name, Amount := amount } = none ∧
        asset.CreateWithdrawRequest.Validate
          { WalletID := walletID, Name := name, Amount := amount } = none) := by
  have hd : (asset.CreateDepositRequest.Validate
        { WalletID := walletID, Name := name, Amount := amount }).isSome ↔
      (walletID = 0 ∨ name = "" ∨ amount = 0) := by
    unfold asset.CreateDepositRequest.Validate
    dsimp only
    split <;> simp_all
  have hw : (asset.CreateWithdrawRequest.Validate
        { WalletID := walletID, Name := name, Amount := amount }).isSome ↔
      (walletID = 0 ∨ name = "" ∨ amount = 0) := by
    unfold asset.CreateWithdrawRequest.Validate
    dsimp only
    split <;> simp_all
  refine ⟨hd, hw, fun h1 h2 h3 => ?_⟩
  have hno : ¬ (walletID = 0 ∨ name = "" ∨ amount = 0) := by
    rintro (h | h | h)
    · exact h1 h
    · exact h2 h
    · exact absurd h3 (by rw [h]; exact lt_irrefl 0)
  constructor
  · rw [← Option.not_isSome_iff_eq_none, hd]
    exact hno
  · rw [← Option.not_isSome_iff_eq_none, hw]
    exact hno

/-- C23, the claim as written fails: the amount -5 is not above zero, and the
deposit and the withdrawal request for -5 "BTC" pass validation. -/
theorem C23_counterexample_negative_amount :
    ¬ (0 : ℚ) < -5 ∧
    asset.CreateDepositRequest.Validate { WalletID := 1, Name := "BTC", Amount := -5 } = none ∧
    asset.CreateWithdrawRequest.Validate { WalletID := 1, Name := "BTC", Amount := -5 } = none := by
  refine ⟨by norm_num, by decide, by decide⟩

/-- The requests for 0 "BTC" are refused, those for 5 "BTC" pass. -/
theorem C23_witness_zero_and_five :
    (asset.CreateDepositRequest.Validate { WalletID := 1, Name := "BTC", Amount := 0 }).isSome ∧
    (asset.CreateWithdrawRequest.Validate { WalletID := 1, Name := "BTC", Amount := 0 }).isSome ∧
    asset.CreateDepositRequest.Validate { WalletID := 1, Name := "BTC", Amount := 5 } = none ∧
    asset.CreateWithdrawRequest.Validate { WalletID := 1, Name := "BTC", Amount := 5 } = none := by
  have h0 := C23_validate_refuses_zero 1 "BTC" 0
  have h5 := (C23_validate_refuses_zero 1 "BTC" 5).2.2 (by decide) (by decide) (by norm_num)
  exact ⟨h0.1.mpr (Or.inr (Or.inr rfl)), h0.2.1.mpr (Or.inr (Or.inr rfl)), h5.1, h5.2⟩

namespace asset

/-- An insertion for a pair that has a record violates the constraint on pairs. -/
theorem conflict_of_lookup {rows : List Asset} {walletID : Nat} {name : String} {a : Asset}
    (h : lookup rows walletID name = some a) (id : Nat) (amount : ℚ) :
    gorm.assetConflict rows
      { ID := id, WalletID := walletID, Name := name, Amount := amount } = true := by
  obtain ⟨h1, h2, h3⟩ := lookup_mem h
  unfold gorm.assetConflict
  rw [List.any_eq_true]
  exact ⟨a, h1, by simp [h2, h3]⟩

end asset

/-- C24: `CreateAsset` on rows that keep the constraints of the table, the store
performing the call: when the pair of the request has a record the call fails
with `ErrDuplicateAsset` and the rows are as before; when it has none the call
adds one record with the wallet id, name and amount of the request and returns
it.  A driver error other than a duplicate key is returned as it is, the rows
being as before, and `ErrDuplicateAsset` is none of these errors. -/
theorem C24_create_asset (env : Env) (tx : Bool) (req : asset.CreateAssetRequest) (w : World)
    (T : Tables) (hT : w.target tx = some T) (hok : gorm.AssetsOK T.assets w.assetSeq) :
    (∀ a, env.fault w.trace.length = none →
      asset.lookup T.assets req.WalletID req.Name = some a →
      (asset.service.CreateAsset env tx req w).1 = .error asset.ErrDuplicateAsset ∧
      (asset.service.CreateAsset env tx req w).2.db = w.db ∧
      (asset.service.CreateAsset env tx req w).2.tx = w.tx) ∧
    (env.fault w.trace.length = none →
      asset.lookup T.assets req.WalletID req.Name = none →
      (asset.service.CreateAsset env tx req w).1 =
        .ok { ID := w.assetSeq + 1, WalletID := req.WalletID, Name := req.Name,
              Amount := req.Amount } ∧
      (asset.service.CreateAsset env tx req w).2.target tx =
        some { T with assets := T.assets ++
          [{ ID := w.assetSeq + 1, WalletID := req.WalletID, Name := req.Name,
             Amount := req.Amount }] }) ∧
    (∀ e, env.fault w.trace.length = some e → e ≠ DBError.duplicateKey →
      (asset.service.CreateAsset env tx req w).1 = .error (Error.db e) ∧
      (asset.service.CreateAsset env tx req w).2.db = w.db ∧
      (asset.service.CreateAsset env tx req w).2.tx = w.tx) ∧
    (∀ e, asset.ErrDuplicateAsset ≠ Error.db e) := by
  refine ⟨fun a hf ha => ?_, fun hf hnone => ?_, fun e hf hne => ?_, fun e h => by cases h⟩
  · have hc := asset.conflict_of_lookup ha (w.assetSeq + 1) req.Amount
    simp [asset.service.CreateAsset, asset.repository.CreateAsset, gorm.CreateAsset, hf, hT,
      gorm.newID, gorm.newSeq, hc]
  · have hfree := hok.free req.WalletID req.Name req.Amount (asset.lookup_none_not_mem hnone)
    rw [asset.service.CreateAsset, asset.repository.CreateAsset_ok hf hT rfl hfree]
    simp
  · simp [asset.service.CreateAsset, asset.repository.CreateAsset, gorm.CreateAsset, hf, hne]

/-- Wallet 1 has a record of "BTC": a second one is refused and the rows stay;
wallet 2 has no record of "ETH": it is created with the id 4. -/
theorem C24_witness_duplicate_and_new :
    ((asset.service.CreateAsset calmEnv false { WalletID := 1, Name := "BTC", Amount := 3 }
        walletsWorld).1 = .error asset.ErrDuplicateAsset ∧
      (asset.service.CreateAsset calmEnv false { WalletID := 1, Name := "BTC", Amount := 3 }
        walletsWorld).2.db = walletsWorld.db) ∧
    (asset.service.CreateAsset calmEnv false { WalletID := 2, Name := "ETH", Amount := 3 }
        walletsWorld).1 = .ok { ID := 4, WalletID := 2, Name := "ETH", Amount := 3 } ∧
    ((asset.service.CreateAsset brokenStoreEnv false { WalletID := 2, Name := "ETH", Amount := 3 }
        walletsWorld).1 = .error (Error.db (DBError.other "connection refused")) ∧
      (asset.service.CreateAsset brokenStoreEnv false
        { WalletID := 2, Name := "ETH", Amount := 3 } walletsWorld).2.db = walletsWorld.db) := by
  have h1 := (C24_create_asset calmEnv false { WalletID := 1, Name := "BTC", Amount := 3 }
    walletsWorld walletsWorld.db rfl (by decide)).1
    { ID := 1, WalletID := 1, Name := "BTC", Amount := 10 } rfl (by decide)
  have h2 := (C24_create_asset calmEnv false { WalletID := 2, Name := "ETH", Amount := 3 }
    walletsWorld walletsWorld.db rfl (by decide)).2.1 rfl (by decide)
  have h3 := (C24_create_asset brokenStoreEnv false { WalletID := 2, Name := "ETH", Amount := 3 }
    walletsWorld walletsWorld.db rfl (by decide)).2.2.1 (DBError.other "connection refused") rfl
    (by decide)
  exact ⟨⟨h1.1, h1.2.1⟩, h2.1, h3.1, h3.2.1⟩

/-- C25: `GetAssets` hands the three fields of the request to `GetAsset` as they
are and returns its result and its error as they are.  When the store answers,
the result is the committed balance records, in stored order, whose id is
among the requested ids (or no id is requested), whose name is among the
requested names (or none is requested) and whose wallet id is among the
requested wallet ids (or none is requested); with the three fields empty it is
every record.  The query changes no row. -/
theorem C25_get_assets (env : Env) (req : asset.GetAssetsParams) (w : World) :
    asset.service.GetAssets env req w =
      asset.repository.GetAsset env
        { ID := req.ID, Name := req.Name, WalletID := req.WalletID } w ∧
    (env.fault w.trace.length = none →
      ∃ rows, (asset.service.GetAssets env req w).1 = .ok rows ∧
        rows = w.db.assets.filter (fun r =>
          decide ((req.ID = [] ∨ r.ID ∈ req.ID) ∧ (req.Name = [] ∨ r.Name ∈ req.Name) ∧
            (req.WalletID = [] ∨ r.WalletID ∈ req.WalletID))) ∧
        (∀ r, r ∈ rows ↔
          (r ∈ w.db.assets ∧ (req.ID = [] ∨ r.ID ∈ req.ID) ∧
            (req.Name = [] ∨ r.Name ∈ req.Name) ∧
            (req.WalletID = [] ∨ r.WalletID ∈ req.WalletID))) ∧
        (req.ID = [] → req.Name = [] → req.WalletID = [] → rows = w.db.assets)) ∧
    (∀ e, env.fault w.trace.length = some e →
      (asset.service.GetAssets env req w).1 = .error (Error.db e)) ∧
    (asset.service.GetAssets env req w).2.db = w.db ∧
    (asset.service.GetAssets env req w).2.tx = w.tx := by
  have hadm : ∀ r : asset.Asset,
      (({ ID := req.ID, Name := req.Name, WalletID := req.WalletID } : asset.Filters).admits r
        = true) ↔
      ((req.ID = [] ∨ r.ID ∈ req.ID) ∧ (req.Name = [] ∨ r.Name ∈ req.Name) ∧
        (req.WalletID = [] ∨ r.WalletID ∈ req.WalletID)) := by
    intro r
    simp [asset.Filters.admits, List.isEmpty_iff, and_assoc]
  have hfilter : w.db.assets.filter
      ({ ID := req.ID, Name := req.Name, WalletID := req.WalletID } : asset.Filters).admits =
      w.db.assets.filter (fun r =>
        decide ((req.ID = [] ∨ r.ID ∈ req.ID) ∧ (req.Name = [] ∨ r.Name ∈ req.Name) ∧
          (req.WalletID = [] ∨ r.WalletID ∈ req.WalletID))) := by
    apply List.filter_congr
    intro r _
    rw [Bool.eq_iff_iff, hadm r, decide_eq_true_iff]
  refine ⟨rfl, fun hf => ?_, fun e hf => ?_, ?_, ?_⟩
  · refine ⟨_, ?_, rfl, fun r => ?_, fun h1 h2 h3 => ?_⟩
    · unfold asset.service.GetAssets
      rw [asset.repository.GetAsset_ok hf, hfilter]
    · rw [List.mem_filter, decide_eq_true_iff]
    · rw [List.filter_eq_self]
      intro r _
      rw [decide_eq_true_iff]
      exact ⟨Or.inl h1, Or.inl h2, Or.inl h3⟩
  · simp [asset.service.GetAssets, asset.repository.GetAsset, gorm.FindAssets, hf]
  · unfold asset.service.GetAssets asset.repository.GetAsset gorm.FindAssets
    dsimp only
    cases env.fault w.trace.length <;> rfl
  · unfold asset.service.GetAssets asset.repository.GetAsset gorm.FindAssets
    dsimp only
    cases env.fault w.trace.length <;> rfl

/-- The records of wallet 1 among the three stored ones; every record for the
empty request. -/
theorem C25_witness_wallet_one :
    (asset.service.GetAssets calmEnv { WalletID := [1] } walletsWorld).1 =
      .ok [{ ID := 1, WalletID := 1, Name := "BTC", Amount := 10 },
           { ID := 3, WalletID := 1, Name := "ETH", Amount := 3 }] ∧
    (asset.service.GetAssets calmEnv {} walletsWorld).1 = .ok walletsWorld.db.assets ∧
    (asset.service.GetAssets brokenStoreEnv {} walletsWorld).1 =
      .error (Error.db (DBError.other "connection refused")) := by
  obtain ⟨rows, h1, h2, _, _⟩ :=
    (C25_get_assets calmEnv { WalletID := [1] } walletsWorld).2.1 rfl
  obtain ⟨rows0, k1, _, _, k4⟩ := (C25_get_assets calmEnv {} walletsWorld).2.1 rfl
  have h3 := (C25_get_assets brokenStoreEnv {} walletsWorld).2.2.1
    (DBError.other "connection refused") rfl
  refine ⟨?_, ?_, h3⟩
  · rw [h1, h2]
    decide
  · rw [k1, k4 rfl rfl rfl]

/-- C26 (amended): for a request that passes validation, the status code of each
handler as a function of the error its service returns: `CreateAsset` answers
409 for `ErrDuplicateAsset` and 500 for every other error; `Deposit`,
`Withdraw` and `ScheduleTransaction` answer 400 for `ErrWalletNotFound` and 500
for every other error, `ErrInsufficientBalance`, `ErrAssetNotFound` and the
error of a withdrawal beyond the balance among them; `DeleteTransaction`
answers 500 for every error, `ErrTransactionNotFound` and
`ErrTransactionCannotBeDeleted` among them. -/
theorem C26_status_codes (env : Env) (w : World) (creq : asset.CreateAssetRequest)
    (dreq : asset.CreateDepositRequest) (wreq : asset.CreateWithdrawRequest)
    (sreq : transaction.ScheduleTransactionRequest)
    (hc : creq.Validate = none) (hd : dreq.Validate = none) (hw : wreq.Validate = none)
    (hs : sreq.Validate = none) :
    (∀ e, (asset.service.CreateAsset env false creq w).1 = .error e →
      (asset.Handler.CreateAsset env creq w).1 =
        if e = asset.ErrDuplicateAsset then 409 else 500) ∧
    (∀ e, (asset.service.Deposit env false dreq w).1 = .error e →
      (asset.Handler.Deposit env dreq w).1 =
        if e = wallet.ErrWalletNotFound then 400 else 500) ∧
    (∀ e, (asset.service.Withdraw env false wreq w).1 = .error e →
      (asset.Handler.Withdraw env wreq w).1 =
        if e = wallet.ErrWalletNotFound then 400 else 500) ∧
    (∀ e, (transaction.service.ScheduleTransaction env sreq w).1 = .returns (.error e) →
      (transaction.Handler.ScheduleTransaction env sreq w).1 =
        .returns (if e = wallet.ErrWalletNotFound then 400 else 500)) ∧
    (∀ id e, (transaction.service.CancelTransaction env id w).1 = some e →
      (transaction.Handler.DeleteTransaction env (some id) w).1 = 500) := by
  refine ⟨fun e h => ?_, fun e h => ?_, fun e h => ?_, fun e h => ?_, fun id e h => ?_⟩
  · unfold asset.Handler.CreateAsset
    rw [hc]
    cases hres : asset.service.CreateAsset env false creq w with
    | mk r w1 =>
      rw [hres] at h
      have hr : r = .error e := h
      subst hr
      dsimp only
      split <;> rfl
  · unfold asset.Handler.Deposit
    rw [hd]
    cases hres : asset.service.Deposit env false dreq w with
    | mk r w1 =>
      rw [hres] at h
      have hr : r = .error e := h
      subst hr
      dsimp only
      split <;> rfl
  · unfold asset.Handler.Withdraw
    rw [hw]
    cases hres : asset.service.Withdraw env false wreq w with
    | mk r w1 =>
      rw [hres] at h
      have hr : r = .error e := h
      subst hr
      dsimp only
      split <;> rfl
  · unfold transaction.Handler.ScheduleTransaction
    rw [hs]
    cases hres : transaction.service.ScheduleTransaction env sreq w with
    | mk r w1 =>
      rw [hres] at h
      have hr : r = .returns (.error e) := h
      subst hr
      dsimp only
      split <;> rfl
  · unfold transaction.Handler.DeleteTransaction
    cases hres : transaction.service.CancelTransaction env id w with
    | mk r w1 =>
      rw [hres] at h
      have hr : r = some e := h
      subst hr
      dsimp only
      rw [hres]

/-- C26, the claim as written fails: the four errors it maps to a client error
are answered with 500.  Scheduling 50 "BTC" from a balance of 10 returns
`ErrInsufficientBalance`; scheduling an asset the destination has no record
of returns `ErrAssetNotFound`; withdrawing 50 from a balance of 10 returns
the error of the ledger; cancelling a cancelled transfer returns
`ErrTransactionCannotBeDeleted`. -/
theorem C26_counterexample_server_error :
    ((transaction.service.ScheduleTransaction calmEnv { sampleRequest with Amount := 50 }
        walletsWorld).1 = .returns (.error transaction.ErrInsufficientBalance) ∧
      (transaction.Handler.ScheduleTransaction calmEnv { sampleRequest with Amount := 50 }
        walletsWorld).1 = .returns 500) ∧
    ((transaction.service.ScheduleTransaction calmEnv unknownAssetRequest walletsWorld).1 =
        .returns (.error transaction.ErrAssetNotFound) ∧
      (transaction.Handler.ScheduleTransaction calmEnv unknownAssetRequest walletsWorld).1 =
        .returns 500) ∧
    ((asset.service.Withdraw calmEnv false { WalletID := 1, Name := "BTC", Amount := 50 }
        walletsWorld).1 = .error (Error.New "amount is not enough to withdraw") ∧
      (asset.Handler.Withdraw calmEnv { WalletID := 1, Name := "BTC", Amount := 50 }
        walletsWorld).1 = 500) ∧
    ((transaction.service.CancelTransaction calmEnv 4 batchWorld).1 =
        some transaction.ErrTransactionCannotBeDeleted ∧
      (transaction.Handler.DeleteTransaction calmEnv (some 4) batchWorld).1 = 500) ∧
    ¬ ((400 : Nat) ≤ 500 ∧ (500 : Nat) < 500) := by
  refine ⟨⟨by decide, by decide⟩, ⟨by decide, by decide⟩, ⟨by decide, by decide⟩,
    ⟨by decide, by decide⟩, by decide⟩

/-- A second record for wallet 1 and "BTC" is answered with 409, a deposit to an
unknown wallet with 400, a withdrawal beyond the balance with 500. -/
theorem C26_witness_three_codes :
    (asset.Handler.CreateAsset calmEnv { WalletID := 1, Name := "BTC", Amount := 3 }
      walletsWorld).1 = 409 ∧
    (asset.Handler.Deposit noWalletEnv { WalletID := 7, Name := "BTC", Amount := 5 }
      walletsWorld).1 = 400 ∧
    (asset.Handler.Withdraw calmEnv { WalletID := 1, Name := "BTC", Amount := 50 }
      walletsWorld).1 = 500 := by
  have h1 := (C26_status_codes calmEnv walletsWorld
    { WalletID := 1, Name := "BTC", Amount := 3 } { WalletID := 7, Name := "BTC", Amount := 5 }
    { WalletID := 1, Name := "BTC", Amount := 50 } sampleRequest
    (by decide) (by decide) (by decide) (by decide))
  have h2 := (C26_status_codes noWalletEnv walletsWorld
    { WalletID := 1, Name := "BTC", Amount := 3 } { WalletID := 7, Name := "BTC", Amount := 5 }
    { WalletID := 1, Name := "BTC", Amount := 50 } sampleRequest
    (by decide) (by decide) (by decide) (by decide))
  exact ⟨h1.1 asset.ErrDuplicateAsset (by decide),
    h2.2.1 wallet.ErrWalletNotFound (by decide),
    h1.2.2.1 (Error.New "amount is not enough to withdraw") (by decide)⟩

/-! ## The claims on what the code does beyond its contract -/

/-- C27, the claim as written fails for a destination equal to the source: the
stored pending transfer of 4 "BTC" from wallet 1 to wallet 1 is due, wallet 1
holds the only record of "BTC", 10.  The cycle completes the transfer, and the
sum of the "BTC" balances over all wallets is 14 after it.  The transfer of 4
"BTC" from wallet 1 to wallet 2 of the sample store is completed with the sum
staying at 10. -/
theorem C27_counterexample_self_transfer :
    selfWorld.db.transactions.filter (scheduler.dueFilter 100).admits = [selfTransfer] ∧
    asset.total selfWorld.db.assets "BTC" = 10 ∧
    { selfTransfer with Status := transaction.TransactionCompleted } ∈
      (scheduler.cycle sampleScheduler calmEnv 100 selfWorld).2.db.transactions ∧
    (scheduler.cycle sampleScheduler calmEnv 100 selfWorld).2.log =
      [LogEntry.InfoID "transaction completed" 1] ∧
    asset.total (scheduler.cycle sampleScheduler calmEnv 100 selfWorld).2.db.assets "BTC" = 14 ∧
    asset.total sampleWorld.db.assets "BTC" = 10 ∧
    asset.total (scheduler.cycle sampleScheduler calmEnv 100 sampleWorld).2.db.assets "BTC" =
      10 := by
  refine ⟨by decide, by decide!, by decide!, by decide!, by decide!, by decide!, by decide!⟩

namespace transaction

/-- For a request from a wallet to itself the lookup of `ScheduleTransaction`
returns one row at most in a store with at most one record per pair. -/
theorem lookup_self {rows : List asset.Asset} {seq : Nat} (hok : gorm.AssetsOK rows seq)
    (r : ScheduleTransactionRequest) (hself : r.SourceWalletID = r.DestinationWalletID) :
    (rows.filter r.assetFilters.admits).length < 2 := by
  have hsame : rows.filter r.assetFilters.admits =
      rows.filter (asset.pairFilter r.SourceWalletID r.AssetName).admits := by
    apply List.filter_congr
    intro x _
    rw [Bool.eq_iff_iff, assetFilters_admits, asset.pairFilter_admits, ← hself]
    constructor
    · rintro ⟨h1, h2 | h2⟩ <;> exact ⟨h2, h1⟩
    · rintro ⟨h1, h2⟩
      exact ⟨h2, Or.inl h1⟩
  rw [hsame]
  cases hv : asset.lookup rows r.SourceWalletID r.AssetName with
  | none => rw [asset.lookup_eq_none.mp hv]; simp
  | some b => rw [asset.filter_eq_singleton hok hv]; simp

/-- In a store with at most one record per pair, a lookup of `ScheduleTransaction`
that returns two rows at least returns a row of the source wallet, and the
loop picks one. -/
theorem sourceAsset_found {rows : List asset.Asset} {seq : Nat} (hok : gorm.AssetsOK rows seq)
    (r : ScheduleTransactionRequest)
    (hlen : ¬ (rows.filter r.assetFilters.admits).length < 2) :
    ∃ a, service.sourceAsset (rows.filter r.assetFilters.admits) r.SourceWalletID = some a ∧
      a ∈ rows.filter r.assetFilters.admits ∧ a.WalletID = r.SourceWalletID := by
  cases ha : asset.lookup rows r.SourceWalletID r.AssetName with
  | none => exact absurd (lookup_missing hok r (Or.inl ha)) hlen
  | some a =>
    obtain ⟨ha1, ha2, ha3⟩ := asset.lookup_mem ha
    have hma : a ∈ rows.filter r.assetFilters.admits := by
      rw [List.mem_filter, assetFilters_admits]
      exact ⟨ha1, ha3, Or.inl ha2⟩
    obtain ⟨x, hx⟩ := service.sourceAsset_exists hma ha2
    obtain ⟨hx1, hx2⟩ := service.sourceAsset_mem hx
    exact ⟨x, hx, hx1, hx2⟩

end transaction

/-- C28: over a store with at most one balance record per pair, whatever the
wallet directory and the store answer, `ScheduleTransaction` does not panic: it
returns a record or an error; and a lookup that returns two rows at least
holds a row of the source wallet, which the loop picks, so that the source
balance is there at the comparison. -/
theorem C28_source_balance_found (env : Env) (req : transaction.ScheduleTransactionRequest)
    (w : World) (hok : gorm.AssetsOK w.db.assets w.assetSeq) :
    (∃ r, (transaction.service.ScheduleTransaction env req w).1 = .returns r) ∧
    (2 ≤ (w.db.assets.filter req.assetFilters.admits).length →
      ∃ a, transaction.service.sourceAsset (w.db.assets.filter req.assetFilters.admits)
          req.SourceWalletID = some a ∧
        a ∈ w.db.assets.filter req.assetFilters.admits ∧
        a.WalletID = req.SourceWalletID) := by
  refine ⟨?_, fun hlen => transaction.sourceAsset_found hok req (by omega)⟩
  unfold transaction.service.ScheduleTransaction
  split
  · exact ⟨_, rfl⟩
  · rename_i h1
    have s1 := (asset.walletClient_inv h1).1
    split
    · exact ⟨_, rfl⟩
    · rename_i h2
      have s2 := (asset.walletClient_inv h2).1
      split
      · exact ⟨_, rfl⟩
      · rename_i assets w3 h3
        have s3 := (asset.repository.GetAsset_inv h3).2
        split
        · exact ⟨_, rfl⟩
        · rename_i hlen
          split
          · rename_i hnone
            exfalso
            rcases s3 with ⟨e, he⟩ | hrows
            · cases he
            · have hassets : assets = w.db.assets.filter req.assetFilters.admits := by
                injection hrows with hrows
                rw [hrows, s2, s1]
                rfl
              rw [hassets] at hlen hnone
              obtain ⟨a, ha, _⟩ := transaction.sourceAsset_found hok req hlen
              rw [ha] at hnone
              cases hnone
          · split
            · exact ⟨_, rfl⟩
            · split
              exact ⟨_, rfl⟩

/-- C29: for a request whose source wallet is its destination wallet, the wallet
being known and the store answering the lookup, over a store with at most one
balance record per pair, `ScheduleTransaction` fails with `ErrAssetNotFound`
whatever the balance and the amount; it has made its three lookups and no
insertion, and the stored transfers are as before. -/
theorem C29_self_transfer_refused (env : Env) (req : transaction.ScheduleTransactionRequest)
    (w : World) (hself : req.SourceWalletID = req.DestinationWalletID)
    (hk : env.Knows req.SourceWalletID) (hf : env.fault (w.trace.length + 2) = none)
    (hok : gorm.AssetsOK w.db.assets w.assetSeq) :
    (transaction.service.ScheduleTransaction env req w).1 =
      .returns (.error transaction.ErrAssetNotFound) ∧
    (transaction.service.ScheduleTransaction env req w).2.db = w.db ∧
    (transaction.service.ScheduleTransaction env req w).2.tx = w.tx ∧
    (transaction.service.ScheduleTransaction env req w).2.trace =
      w.trace ++ [Call.GetWallet req.SourceWalletID, Call.GetWallet req.DestinationWalletID,
        Call.GetAsset req.assetFilters] ∧
    (transaction.service.ScheduleTransaction env req w).2.trace.countP
        Call.isCreateTransaction = w.trace.countP Call.isCreateTransaction := by
  have hq : (req.queried w).trace =
      w.trace ++ [Call.GetWallet req.SourceWalletID, Call.GetWallet req.DestinationWalletID,
        Call.GetAsset req.assetFilters] := by
    simp [transaction.ScheduleTransactionRequest.queried]
  rw [transaction.service.ScheduleTransaction_known env req w hk (hself ▸ hk) hf,
    if_pos (transaction.lookup_self hok req hself)]
  refine ⟨rfl, rfl, rfl, hq, ?_⟩
  simp only [hq, List.countP_append]
  simp [Call.isCreateTransaction]

/-- Any store of the sample data keeps at most one record per pair: the call on
the sample request returns. -/
theorem C28_witness_sample_request :
    (∃ r, (transaction.service.ScheduleTransaction calmEnv sampleRequest walletsWorld).1 =
      .returns r) ∧
    (∃ r, (transaction.service.ScheduleTransaction brokenStoreEnv sampleRequest
      walletsWorld).1 = .returns r) := by
  exact ⟨(C28_source_balance_found calmEnv sampleRequest walletsWorld (by decide)).1,
    (C28_source_balance_found brokenStoreEnv sampleRequest walletsWorld (by decide)).1⟩

/-- Wallet 1 holds 10 "BTC"; a transfer of 4 "BTC" from wallet 1 to wallet 1 is
refused with `ErrAssetNotFound`. -/
theorem C29_witness_four_of_ten :
    (4 : ℚ) ≤ asset.balance selfWorld.db.assets 1 "BTC" ∧
    (transaction.service.ScheduleTransaction calmEnv { selfRequest with Amount := 4 }
      selfWorld).1 = .returns (.error transaction.ErrAssetNotFound) ∧
    (transaction.service.ScheduleTransaction calmEnv { selfRequest with Amount := 4 }
      selfWorld).2.db = selfWorld.db := by
  have h := C29_self_transfer_refused calmEnv { selfRequest with Amount := 4 } selfWorld rfl
    (calmEnv_knows _) rfl (by decide)
  exact ⟨by decide, h.1, h.2.1⟩

/-! ### Scheduling and the balance rows -/

namespace transaction
namespace repository

/-- `CreateTransaction` without transaction handle touches neither the balance
rows nor the open transaction nor the id sequence of the balance table. -/
theorem CreateTransaction_frame (env : Env) (item : Transaction) (w : World) :
    (CreateTransaction env false item w).2.db.assets = w.db.assets ∧
      (CreateTransaction env false item w).2.tx = w.tx ∧
      (CreateTransaction env false item w).2.assetSeq = w.assetSeq := by
  unfold CreateTransaction gorm.CreateTransaction
  dsimp only
  cases hf : env.fault w.trace.length with
  | some e => exact ⟨rfl, rfl, rfl⟩
  | none =>
    simp only [World.record_target, World.target_false]
    split
    · rename_i h1
      split at h1
      · cases h1
        exact ⟨rfl, rfl, rfl⟩
      · cases h1
    · rename_i h1
      split at h1
      · cases h1
      · cases h1
        exact ⟨rfl, rfl, rfl⟩

end repository

namespace service

/-- `ScheduleTransaction` touches neither the balance rows nor the open transaction. -/
theorem ScheduleTransaction_frame (env : Env) (req : ScheduleTransactionRequest) (w : World) :
    (ScheduleTransaction env req w).2.db.assets = w.db.assets ∧
      (ScheduleTransaction env req w).2.tx = w.tx ∧
      (ScheduleTransaction env req w).2.assetSeq = w.assetSeq := by
  unfold ScheduleTransaction
  split
  · rename_i h1
    rw [(asset.walletClient_inv h1).1]
    exact ⟨rfl, rfl, rfl⟩
  · rename_i h1
    have s1 := (asset.walletClient_inv h1).1
    split
    · rename_i h2
      rw [(asset.walletClient_inv h2).1, s1]
      exact ⟨rfl, rfl, rfl⟩
    · rename_i h2
      have s2 := (asset.walletClient_inv h2).1
      split
      · rename_i h3
        rw [(asset.repository.GetAsset_inv h3).1, s2, s1]
        exact ⟨rfl, rfl, rfl⟩
      · rename_i assets w3 h3
        have s3 := (asset.repository.GetAsset_inv h3).1
        have hw3 : w3.db.assets = w.db.assets ∧ w3.tx = w.tx ∧ w3.assetSeq = w.assetSeq := by
          rw [s3, s2, s1]
          exact ⟨rfl, rfl, rfl⟩
        split
        · exact hw3
        · split
          · exact hw3
          · split
            · exact hw3
            · split
              rename_i r w4 h4
              have hc := repository.CreateTransaction_frame env
                { ID := 0, SourceWalletID := req.SourceWalletID,
                  DestinationWalletID := req.DestinationWalletID, Amount := req.Amount,
                  AssetName := req.AssetName, Status := TransactionPending,
                  ScheduledAt := req.ScheduledAt } w3
              rw [h4] at hc
              exact ⟨hc.1.trans hw3.1, hc.2.1.trans hw3.2.1, hc.2.2.trans hw3.2.2⟩

end service
end transaction

namespace gorm

/-- The constraints of the transfer table are kept by an insertion with the next id. -/
theorem TransactionsOK.insert {rows : List transaction.Transaction} {seq : Nat}
    (h : TransactionsOK rows seq) (item : transaction.Transaction) :
    TransactionsOK (rows ++ [{ item with ID := seq + 1 }]) (seq + 1) := by
  refine ⟨fun t ht => ?_, ?_⟩
  · rcases List.mem_append.mp ht with ht | ht
    · have := h.1 t ht
      omega
    · rw [List.mem_singleton] at ht
      subst ht
      exact ⟨Nat.succ_pos _, le_refl _⟩
  · rw [List.map_append, List.nodup_append]
    refine ⟨h.2, List.nodup_singleton _, ?_⟩
    intro a ha hb
    rw [List.map_singleton, List.mem_singleton] at hb
    rw [List.mem_map] at ha
    obtain ⟨t, ht, hta⟩ := ha
    have := (h.1 t ht).2
    have hb1 : a = seq + 1 := hb
    omega

end gorm

namespace transaction
namespace service

/-- A request within the source balance, between two different known wallets that
both have a record of the asset, on a store that performs its calls and keeps
its constraints: the pending record with the next id is stored and returned. -/
theorem ScheduleTransaction_success (env : Env) (req : ScheduleTransactionRequest) (w : World)
    (a b : asset.Asset)
    (hk1 : env.Knows req.SourceWalletID) (hk2 : env.Knows req.DestinationWalletID)
    (hf : env.NoFault) (hok : gorm.AssetsOK w.db.assets w.assetSeq)
    (hT : gorm.TransactionsOK w.db.transactions w.transactionSeq)
    (hne : req.SourceWalletID ≠ req.DestinationWalletID)
    (ha : asset.lookup w.db.assets req.SourceWalletID req.AssetName = some a)
    (hb : asset.lookup w.db.assets req.DestinationWalletID req.AssetName = some b)
    (hamt : req.Amount ≤ a.Amount) :
    ∃ w1, ScheduleTransaction env req w =
        (.returns (.ok { req.entity with ID := w.transactionSeq + 1 }), w1) ∧
      w1.db.transactions =
        w.db.transactions ++ [{ req.entity with ID := w.transactionSeq + 1 }] ∧
      w1.transactionSeq = w.transactionSeq + 1 := by
  obtain ⟨h1, h2⟩ := lookup_both hok req hne ha hb
  have hT1 : gorm.TransactionsOK (req.queried w).db.transactions
      (req.queried w).transactionSeq := hT
  rw [ScheduleTransaction_known env req w hk1 hk2 (hf _), if_neg h1]
  simp only [h2]
  rw [if_neg (not_lt.mpr hamt),
    repository.CreateTransaction_fresh env req.entity (req.queried w) (hf _) hT1 rfl]
  exact ⟨_, rfl, rfl, rfl⟩

end service
end transaction

/-- C30: `ScheduleTransaction`, whatever it returns, leaves the balance rows, the
committed ones and those of an open transaction, as they are.  Hence, between
two different known wallets that both have a record of the asset, on a store
that performs its calls and keeps its constraints, with a source balance above
zero: the request for the full balance succeeds, the same request made again
succeeds as well, and the two pending transfers then stored have amounts whose
sum is above the source balance, which is still what it was. -/
theorem C30_reserves_nothing (env : Env) (req : transaction.ScheduleTransactionRequest)
    (w : World) :
    ((transaction.service.ScheduleTransaction env req w).2.db.assets = w.db.assets ∧
      (transaction.service.ScheduleTransaction env req w).2.tx = w.tx) ∧
    (∀ a b, env.Knows req.SourceWalletID → env.Knows req.DestinationWalletID → env.NoFault →
      gorm.AssetsOK w.db.assets w.assetSeq →
      gorm.TransactionsOK w.db.transactions w.transactionSeq →
      req.SourceWalletID ≠ req.DestinationWalletID →
      asset.lookup w.db.assets req.SourceWalletID req.AssetName = some a →
      asset.lookup w.db.assets req.DestinationWalletID req.AssetName = some b →
      0 < a.Amount → req.Amount = a.Amount →
      (transaction.service.ScheduleTransaction env req w).1 =
        .returns (.ok { req.entity with ID := w.transactionSeq + 1 }) ∧
      (transaction.service.ScheduleTransaction env req
          (transaction.service.ScheduleTransaction env req w).2).1 =
        .returns (.ok { req.entity with ID := w.transactionSeq + 2 }) ∧
      (transaction.service.ScheduleTransaction env req
          (transaction.service.ScheduleTransaction env req w).2).2.db.transactions =
        w.db.transactions ++ [{ req.entity with ID := w.transactionSeq + 1 },
          { req.entity with ID := w.transactionSeq + 2 }] ∧
      req.entity.Status = transaction.TransactionPending ∧
      a.Amount < req.entity.Amount + req.entity.Amount ∧
      asset.lookup (transaction.service.ScheduleTransaction env req
          (transaction.service.ScheduleTransaction env req w).2).2.db.assets
        req.SourceWalletID req.AssetName = some a) := by
  obtain ⟨f1, f2, f3⟩ := transaction.service.ScheduleTransaction_frame env req w
  refine ⟨⟨f1, f2⟩, ?_⟩
  intro a b hk1 hk2 hf hok hT hne ha hb hpos hamt
  obtain ⟨w1, e1, r1, q1⟩ := transaction.service.ScheduleTransaction_success env req w a b
    hk1 hk2 hf hok hT hne ha hb (le_of_eq hamt)
  have f1a : w1.db.assets = w.db.assets := by rw [e1] at f1; exact f1
  have f3a : w1.assetSeq = w.assetSeq := by rw [e1] at f3; exact f3
  have hok1 : gorm.AssetsOK w1.db.assets w1.assetSeq := by rw [f1a, f3a]; exact hok
  have hT1 : gorm.TransactionsOK w1.db.transactions w1.transactionSeq := by
    rw [r1, q1]
    exact hT.insert req.entity
  obtain ⟨w2, e2, r2, _⟩ := transaction.service.ScheduleTransaction_success env req w1 a b
    hk1 hk2 hf hok1 hT1 hne (by rw [f1a]; exact ha) (by rw [f1a]; exact hb) (le_of_eq hamt)
  obtain ⟨g1, _, _⟩ := transaction.service.ScheduleTransaction_frame env req w1
  rw [e1]
  dsimp only
  rw [e2]
  rw [e2] at g1
  dsimp only at g1 ⊢
  refine ⟨rfl, ?_, ?_, rfl, ?_, ?_⟩
  · rw [q1]
  · rw [r2, r1, q1]
    simp
  · have hent : req.entity.Amount = req.Amount := rfl
    rw [hent, hamt]
    linarith
  · rw [g1, f1a]
    exact ha

/-- Wallet 1 holds 10 "BTC": the request for 10 succeeds twice, and the two
pending transfers ask for 20 together. -/
theorem C30_witness_twice_ten :
    (transaction.service.ScheduleTransaction calmEnv sampleRequest walletsWorld).1 =
      .returns (.ok { sampleRequest.entity with ID := 1 }) ∧
    (transaction.service.ScheduleTransaction calmEnv sampleRequest
        (transaction.service.ScheduleTransaction calmEnv sampleRequest walletsWorld).2).1 =
      .returns (.ok { sampleRequest.entity with ID := 2 }) ∧
    (transaction.service.ScheduleTransaction calmEnv sampleRequest
        (transaction.service.ScheduleTransaction calmEnv sampleRequest
          walletsWorld).2).2.db.transactions =
      [{ sampleRequest.entity with ID := 1 }, { sampleRequest.entity with ID := 2 }] ∧
    (10 : ℚ) < sampleRequest.entity.Amount + sampleRequest.entity.Amount ∧
    (transaction.service.ScheduleTransaction calmEnv sampleRequest
        (transaction.service.ScheduleTransaction calmEnv sampleRequest
          walletsWorld).2).2.db.assets = walletsWorld.db.assets := by
  have h := (C30_reserves_nothing calmEnv sampleRequest walletsWorld).2
    { ID := 1, WalletID := 1, Name := "BTC", Amount := 10 }
    { ID := 2, WalletID := 2, Name := "BTC", Amount := 0 }
    (calmEnv_knows _) (calmEnv_knows _) calmEnv_noFault (by decide) (by decide) (by decide)
    (by decide) (by decide) (by norm_num) rfl
  have hA := (C30_reserves_nothing calmEnv sampleRequest
    (transaction.service.ScheduleTransaction calmEnv sampleRequest walletsWorld).2).1.1
  have hB := (C30_reserves_nothing calmEnv sampleRequest walletsWorld).1.1
  exact ⟨h.1, h.2.1, h.2.2.1, h.2.2.2.2.1, hA.trans hB⟩

/-! ### The loop of a cycle and the batch of the specification -/

theorem unitsOpened_append (l : List Call) (c : Call) (h : c ≠ Call.Begin) :
    unitsOpened (l ++ [c]) = unitsOpened l := by
  unfold unitsOpened
  rw [List.count_append, List.count_singleton]
  have h1 : (c == Call.Begin) = false := by simpa using h
  simp [h1]

theorem unitsOpened_begin (l : List Call) :
    unitsOpened (l ++ [Call.Begin]) = unitsOpened l + 1 := by
  unfold unitsOpened
  rw [List.count_append, List.count_singleton]
  simp

namespace asset
namespace service

/-- `Deposit` opens no atomic unit. -/
theorem Deposit_units {env : Env} {tx : Bool} {req : CreateDepositRequest} {w w1 : World}
    {r : Except Error Asset} (h : Deposit env tx req w = (r, w1)) :
    unitsOpened w1.trace = unitsOpened w.trace := by
  unfold Deposit at h
  split at h
  · rename_i h1
    cases h
    rw [(walletClient_inv h1).1, World.record_trace, unitsOpened_append _ _ (by simp)]
  · rename_i wl wa h1
    have s1 : unitsOpened wa.trace = unitsOpened w.trace := by
      rw [(walletClient_inv h1).1, World.record_trace, unitsOpened_append _ _ (by simp)]
    split at h
    · rename_i h2
      cases h
      rw [(repository.GetAsset_inv h2).1, World.record_trace,
        unitsOpened_append _ _ (by simp), s1]
    · rename_i assets wb h2
      have s2 : unitsOpened wb.trace = unitsOpened w.trace := by
        rw [(repository.GetAsset_inv h2).1, World.record_trace,
          unitsOpened_append _ _ (by simp), s1]
      dsimp only at h
      split at h
      · rename_i h3
        split at h3
        · rename_i h4
          cases h
          have := (repository.CreateAsset_inv h3).1
          rw [this, unitsOpened_append _ _ (by simp), s2]
        · cases h3
      · rename_i found wc h3
        have s3 : unitsOpened wc.trace = unitsOpened w.trace := by
          split at h3
          · rw [(repository.CreateAsset_inv h3).1, unitsOpened_append _ _ (by simp), s2]
          · cases h3
            exact s2
        split at h
        · rename_i h4
          cases h
          rw [(repository.UpdateAsset_inv h4).1, unitsOpened_append _ _ (by simp), s3]
        · rename_i h4
          cases h
          rw [(repository.UpdateAsset_inv h4).1, unitsOpened_append _ _ (by simp), s3]

end service
end asset

namespace asset
namespace service

/-- `Withdraw` opens no atomic unit. -/
theorem Withdraw_units {env : Env} {tx : Bool} {req : CreateWithdrawRequest} {w w1 : World}
    {r : Except Error Asset} (h : Withdraw env tx req w = (r, w1)) :
    unitsOpened w1.trace = unitsOpened w.trace := by
  unfold Withdraw at h
  split at h
  · rename_i h1
    cases h
    rw [(walletClient_inv h1).1, World.record_trace, unitsOpened_append _ _ (by simp)]
  · rename_i wl wa h1
    have s1 : unitsOpened wa.trace = unitsOpened w.trace := by
      rw [(walletClient_inv h1).1, World.record_trace, unitsOpened_append _ _ (by simp)]
    split at h
    · rename_i h2
      cases h
      rw [(repository.GetAsset_inv h2).1, World.record_trace,
        unitsOpened_append _ _ (by simp), s1]
    · rename_i assets wb h2
      have s2 : unitsOpened wb.trace = unitsOpened w.trace := by
        rw [(repository.GetAsset_inv h2).1, World.record_trace,
          unitsOpened_append _ _ (by simp), s1]
      dsimp only at h
      split at h
      · rename_i h3
        split at h3
        · rename_i h4
          cases h
          have := (repository.CreateAsset_inv h3).1
          rw [this, unitsOpened_append _ _ (by simp), s2]
        · cases h3
      · rename_i found wc h3
        have s3 : unitsOpened wc.trace = unitsOpened w.trace := by
          split at h3
          · rw [(repository.CreateAsset_inv h3).1, unitsOpened_append _ _ (by simp), s2]
          · cases h3
            exact s2
        split at h
        · cases h
          exact s3
        · split at h
          · rename_i h4
            cases h
            rw [(repository.UpdateAsset_inv h4).1, unitsOpened_append _ _ (by simp), s3]
          · rename_i h4
            cases h
            rw [(repository.UpdateAsset_inv h4).1, unitsOpened_append _ _ (by simp), s3]

end service
end asset

namespace transaction
namespace repository

/-- `UpdateTransaction` makes one call to the store, whatever the outcome. -/
theorem UpdateTransaction_trace (env : Env) (tx : Bool) (item : Transaction) (w : World) :
    (UpdateTransaction env tx item w).2.trace = w.trace ++ [Call.UpdateTransaction tx item] := by
  unfold UpdateTransaction gorm.SaveTransaction
  dsimp only
  cases hf : env.fault w.trace.length with
  | some e => rfl
  | none =>
    dsimp only
    cases hT : (w.record (Call.UpdateTransaction tx item)).target tx with
    | none => rfl
    | some T =>
      dsimp only
      by_cases hid : item.ID = 0
      · simp only [hid, if_true]
        split
        · rename_i h1
          split at h1
          · cases h1; rfl
          · cases h1
        · rename_i h1
          split at h1
          · cases h1
          · cases h1
            cases tx <;> rfl
      · simp only [hid, if_false]
        cases tx <;> rfl

end repository
end transaction

namespace scheduler

/-- The atomic unit of a transfer opens no further unit. -/
theorem atomicUnit_units {env : Env} {t : transaction.Transaction} {tx : Bool} {w w1 : World}
    {r : Except Error Unit} (h : atomicUnit env t tx w = (r, w1)) :
    unitsOpened w1.trace = unitsOpened w.trace := by
  unfold atomicUnit at h
  split at h
  · rename_i h1
    cases h
    exact asset.service.Withdraw_units h1
  · rename_i h1
    have s1 := asset.service.Withdraw_units h1
    split at h
    · rename_i h2
      cases h
      rw [asset.service.Deposit_units h2, s1]
    · rename_i x wb h2
      have s2 := (asset.service.Deposit_units h2).trans s1
      have s3 := transaction.repository.UpdateTransaction_trace env tx
        { t with Status := transaction.TransactionCompleted } wb
      split at h
      · rename_i h3
        cases h
        rw [h3] at s3
        rw [s3, unitsOpened_append _ _ (by simp), s2]
      · rename_i h3
        cases h
        rw [h3] at s3
        rw [s3, unitsOpened_append _ _ (by simp), s2]

/-- `InTransaction` around the atomic unit of a transfer opens exactly one unit,
whatever the outcome. -/
theorem InTransaction_units (env : Env) (t : transaction.Transaction) (w : World) :
    unitsOpened (transaction.repository.InTransaction env (atomicUnit env t) w).2.trace =
      unitsOpened w.trace + 1 := by
  unfold transaction.repository.InTransaction gorm.Begin
  dsimp only
  cases hf : env.fault w.trace.length with
  | some e =>
    dsimp only
    rw [World.record_trace, unitsOpened_begin]
  | none =>
    dsimp only
    cases hu : atomicUnit env t true { w.record Call.Begin with tx := some (w.record Call.Begin).db }
      with
    | mk r w2 =>
      have s2 : unitsOpened w2.trace = unitsOpened w.trace + 1 := by
        rw [atomicUnit_units hu]
        show unitsOpened (w.trace ++ [Call.Begin]) = _
        rw [unitsOpened_begin]
      cases r with
      | error err =>
        dsimp only
        show unitsOpened (w2.trace ++ [Call.Rollback]) = _
        rw [unitsOpened_append _ _ (by simp), s2]
      | ok u =>
        dsimp only
        unfold gorm.Commit
        dsimp only
        cases hc : env.fault w2.trace.length with
        | some e =>
          dsimp only
          show unitsOpened (w2.trace ++ [Call.Commit]) = _
          rw [unitsOpened_append _ _ (by simp), s2]
        | none =>
          dsimp only
          cases hT : (w2.record Call.Commit).tx with
          | none =>
            dsimp only
            show unitsOpened (w2.trace ++ [Call.Commit]) = _
            rw [unitsOpened_append _ _ (by simp), s2]
          | some T =>
            dsimp only
            show unitsOpened (w2.trace ++ [Call.Commit]) = _
            rw [unitsOpened_append _ _ (by simp), s2]

/-- The body of the loop is the atomic unit followed by the line for its outcome. -/
theorem process_eq (env : Env) (w : World) (t : transaction.Transaction) :
    process env w t =
      (transaction.repository.InTransaction env (atomicUnit env t) w).2.logLine
        (outcomeLine t (transaction.repository.InTransaction env (atomicUnit env t) w).1) := by
  unfold process
  cases h : transaction.repository.InTransaction env (atomicUnit env t) w with
  | mk r w1 =>
    cases r with
    | error err => rfl
    | ok u => rfl

/-- The loop of `Scheduler.Start` over the due transfers is the batch of the specification. -/
theorem foldl_process_eq (env : Env) (ts : List transaction.Transaction) :
    ∀ w : World, ts.foldl (process env) w = batchBySpec env ts w := by
  induction ts with
  | nil => intro w; rfl
  | cons t rest ih =>
    intro w
    rw [List.foldl_cons, ih, process_eq]
    rfl

/-- The batch opens one atomic unit per transfer. -/
theorem batchBySpec_units (env : Env) (ts : List transaction.Transaction) :
    ∀ w : World, unitsOpened (batchBySpec env ts w).trace = unitsOpened w.trace + ts.length := by
  induction ts with
  | nil => intro w; rfl
  | cons t rest ih =>
    intro w
    unfold batchBySpec
    rw [ih]
    show unitsOpened (transaction.repository.InTransaction env (atomicUnit env t) w).2.trace +
      rest.length = _
    rw [InTransaction_units, List.length_cons]
    omega

end scheduler

/-- C17: in a cycle whose poll the store answers, the executor runs over the due
transfers in the order returned and does with them what the specification
says of the batch: each of them, once, is run through its own atomic unit
(begin; withdraw, deposit and status update inside; commit or roll back) in
the world the transfers before it left, whatever their outcomes.  So the cycle
opens as many atomic units as there are due transfers, logs exactly one line
per transfer in their order, the completion or the error of its unit, no
error ends the batch, and the cycle reaches its pause. -/
theorem C17_batch_goes_on (s : scheduler.Scheduler) (env : Env) (now : Time) (w : World)
    (hf : env.fault w.trace.length = none) :
    (scheduler.cycle s env now w).1 = true ∧
    (scheduler.cycle s env now w).2 =
      (scheduler.batchBySpec env (w.db.transactions.filter (scheduler.dueFilter now).admits)
        (if (w.db.transactions.filter (scheduler.dueFilter now).admits).length = 0 then
          (w.record (Call.GetTransactions (scheduler.dueFilter now))).logLine
            (LogEntry.Info "no pending transactions")
        else w.record (Call.GetTransactions (scheduler.dueFilter now)))).record
          (Call.Sleep s.cfg.Interval) ∧
    unitsOpened (scheduler.cycle s env now w).2.trace =
      unitsOpened w.trace +
        (w.db.transactions.filter (scheduler.dueFilter now).admits).length ∧
    (∃ lines,
      List.Forall₂ scheduler.Outcome
        (w.db.transactions.filter (scheduler.dueFilter now).admits) lines ∧
      (scheduler.cycle s env now w).2.log =
        w.log ++
          (if (w.db.transactions.filter (scheduler.dueFilter now).admits).length = 0 then
            [LogEntry.Info "no pending transactions"] else []) ++ lines) := by
  rw [scheduler.cycle_polled s env now w hf]
  generalize w.db.transactions.filter (scheduler.dueFilter now).admits = ts
  refine ⟨rfl, ?_, ?_, ?_⟩
  · rw [scheduler.foldl_process_eq]
  · dsimp only
    rw [scheduler.foldl_process_eq, World.record_trace, unitsOpened_append _ _ (by simp),
      scheduler.batchBySpec_units]
    split
    · show unitsOpened (w.trace ++ [Call.GetTransactions (scheduler.dueFilter now)]) + _ = _
      rw [unitsOpened_append _ _ (by simp)]
    · rw [World.record_trace, unitsOpened_append _ _ (by simp)]
  · obtain ⟨lines, h1, h2⟩ := scheduler.foldl_process_log env ts
      (if ts.length = 0 then
        (w.record (Call.GetTransactions (scheduler.dueFilter now))).logLine
          (LogEntry.Info "no pending transactions")
      else w.record (Call.GetTransactions (scheduler.dueFilter now)))
    refine ⟨lines, h1, ?_⟩
    simp only [World.record_log]
    rw [h2]
    split <;> simp [World.logLine]

/-- The batch of two due transfers: the first asks for 50 of a balance of 10, its
unit is opened and rolled back; the second is run through its unit all the
same and committed. -/
theorem C17_witness_bad_then_good :
    batchWorld.db.transactions.filter (scheduler.dueFilter 100).admits =
      [largeTransfer, smallTransfer] ∧
    (scheduler.cycle sampleScheduler calmEnv 100 batchWorld).1 = true ∧
    unitsOpened (scheduler.cycle sampleScheduler calmEnv 100 batchWorld).2.trace =
      unitsOpened batchWorld.trace +
        (batchWorld.db.transactions.filter (scheduler.dueFilter 100).admits).length ∧
    (scheduler.cycle sampleScheduler calmEnv 100 batchWorld).2.trace =
      [Call.GetTransactions (scheduler.dueFilter 100),
        Call.Begin, Call.GetWallet 1, Call.GetAsset { Name := ["BTC"], WalletID := [1] },
        Call.Rollback,
        Call.Begin, Call.GetWallet 1, Call.GetAsset { Name := ["BTC"], WalletID := [1] },
        Call.UpdateAsset true { ID := 1, WalletID := 1, Name := "BTC", Amount := 6 },
        Call.GetWallet 2, Call.GetAsset { Name := ["BTC"], WalletID := [2] },
        Call.UpdateAsset true { ID := 2, WalletID := 2, Name := "BTC", Amount := 4 },
        Call.UpdateTransaction true
          { smallTransfer with Status := transaction.TransactionCompleted },
        Call.Commit, Call.Sleep 10] ∧
    (scheduler.cycle sampleScheduler calmEnv 100 batchWorld).2.log =
      [LogEntry.Error "transaction failed" (Error.New "amount is not enough to withdraw"),
        LogEntry.InfoID "transaction completed" 2] := by
  have h := C17_batch_goes_on sampleScheduler calmEnv 100 batchWorld rfl
  exact ⟨by decide, h.1, h.2.2.1, by decide!, by decide!⟩

/-! ### The sum of the balances of an asset -/

namespace asset

theorem total_nil (name : String) : total [] name = 0 := rfl

theorem total_cons (x : Asset) (rows : List Asset) (name : String) :
    total (x :: rows) name = (if x.Name = name then x.Amount else 0) + total rows name := by
  unfold total
  by_cases h : x.Name = name
  · simp [List.filter_cons, h]
  · simp [List.filter_cons, h]

theorem total_append (rows more : List Asset) (name : String) :
    total (rows ++ more) name = total rows name + total more name := by
  induction rows with
  | nil => simp [total_nil]
  | cons x xs ih => rw [List.cons_append, total_cons, total_cons, ih, add_assoc]

theorem total_singleton (x : Asset) (name : String) :
    total [x] name = if x.Name = name then x.Amount else 0 := by
  rw [total_cons, total_nil, add_zero]

/-- Overwriting the amount of a stored row moves the sum of its asset by the difference. -/
theorem total_upsert {rows : List Asset} {seq : Nat} (hok : gorm.AssetsOK rows seq)
    {old item : Asset} (hold : old ∈ rows) (hid : item.ID = old.ID)
    (hname : item.Name = old.Name) (name : String) :
    total (gorm.upsertAsset rows item) name =
      total rows name + (if old.Name = name then item.Amount - old.Amount else 0) := by
  rw [gorm.upsertAsset_of_mem ⟨old, hold, hid.symm⟩]
  have key : ∀ l : List Asset, (l.map (fun a => a.ID)).Nodup →
      ((∀ r ∈ l, r.ID ≠ old.ID) →
        l.map (fun r => if r.ID = item.ID then item else r) = l) ∧
      (old ∈ l →
        total (l.map (fun r => if r.ID = item.ID then item else r)) name =
          total l name + (if old.Name = name then item.Amount - old.Amount else 0)) := by
    intro l
    induction l with
    | nil =>
      intro _
      exact ⟨fun _ => rfl, fun h => by cases h⟩
    | cons x xs ih =>
      intro hnd
      rw [List.map_cons, List.nodup_cons] at hnd
      obtain ⟨ih1, ih2⟩ := ih hnd.2
      constructor
      · intro hall
        have hx : x.ID ≠ item.ID := by rw [hid]; exact hall x (List.mem_cons_self _ _)
        rw [List.map_cons, if_neg hx, ih1 (fun r hr => hall r (List.mem_cons_of_mem _ hr))]
      · intro hmem
        rcases List.mem_cons.mp hmem with hx | hx
        · subst hx
          have hxs : ∀ r ∈ xs, r.ID ≠ old.ID := by
            intro r hr h
            exact hnd.1 (List.mem_map.mpr ⟨r, hr, h⟩)
          rw [List.map_cons, if_pos hid.symm, ih1 hxs, total_cons, total_cons, hname]
          by_cases hn : old.Name = name
          · simp only [hn, if_true]
            ring
          · simp only [hn, if_false]
            ring
        · have hxid : x.ID ≠ item.ID := by
            rw [hid]
            intro h
            exact hnd.1 (List.mem_map.mpr ⟨old, hx, h.symm⟩)
          rw [List.map_cons, if_neg hxid, total_cons, total_cons, ih2 hx, add_assoc]
  exact (key rows hok.2.1).2 hold

end asset

namespace asset
namespace service

/-- `Withdraw` of an amount that is not above zero on a pair without record: the
zero-balance record is created and the amount is taken from it. -/
theorem Withdraw_new_nonpos (env : Env) (tx : Bool) (req : CreateWithdrawRequest) (w : World)
    (wl : wallet.Wallet) (T : Tables)
    (hwallet : env.GetWallet w.trace.length req.WalletID = .ok wl) (hfault : env.NoFault)
    (hnone : w.db.assets.filter (pairFilter req.WalletID req.Name).admits = [])
    (hT : w.target tx = some T)
    (hfree : gorm.assetConflict T.assets
      { ID := w.assetSeq + 1, WalletID := wl.ID, Name := req.Name, Amount := 0 } = false)
    (hle : req.Amount ≤ 0) :
    ∃ w1, Withdraw env tx req w =
        (.ok { ID := w.assetSeq + 1, WalletID := wl.ID, Name := req.Name,
               Amount := 0 - req.Amount }, w1) ∧
      w1.assetSeq = w.assetSeq + 1 ∧
      w1.target tx = some { T with assets := T.assets ++
        [{ ID := w.assetSeq + 1, WalletID := wl.ID, Name := req.Name,
           Amount := 0 - req.Amount }] } := by
  unfold pairFilter at hnone
  have hf1 : env.fault (w.trace.length + 1) = none := hfault _
  have hf2 : env.fault (w.trace.length + 1 + 1) = none := hfault _
  have hf3 : env.fault (w.trace.length + 1 + 1 + 1) = none := hfault _
  have hnlt : ¬ (0 : ℚ) < req.Amount := not_lt.mpr hle
  simp only [Withdraw, wallet.GetWallet, hwallet]
  rw [repository.GetAsset_ok (by simpa using hf1)]
  simp only [World.record_db, hnone]
  rw [repository.CreateAsset_ok (T := T) (by simpa using hf2) (by simpa using hT) rfl
    (by simpa using hfree)]
  dsimp only
  rw [if_neg hnlt]
  rw [repository.UpdateAsset_ok
    (T := { assets := T.assets ++ [⟨w.assetSeq + 1, wl.ID, req.Name, 0⟩],
            transactions := T.transactions })
    (by simpa using hf3) (by simp) (by simp)]
  refine ⟨_, rfl, by simp, ?_⟩
  simp
  exact gorm.upsertAsset_last _ _ _ rfl hfree

end service
end asset

namespace asset
namespace service

/-- A `Withdraw` inside a transaction whose rows hold, for the pair of the request,
what the committed rows hold: it fails, or it lowers the sum of the asset in
the rows of the transaction by the amount and leaves the other pairs alone. -/
theorem Withdraw_in_scope (env : Env) (req : CreateWithdrawRequest) (w : World) (T : Tables)
    (hk : env.Knows req.WalletID) (hf : env.NoFault) (hT : w.tx = some T)
    (hok : gorm.AssetsOK T.assets w.assetSeq)
    (hsee : w.db.assets.filter (pairFilter req.WalletID req.Name).admits =
      T.assets.filter (pairFilter req.WalletID req.Name).admits) :
    (∃ e w1, Withdraw env true req w = (.error e, w1) ∧
      (w1.assetSeq = w.assetSeq ∨ w1.assetSeq = w.assetSeq + 1)) ∨
    (∃ r w1 rows1, Withdraw env true req w = (.ok r, w1) ∧
      w1.tx = some { T with assets := rows1 } ∧ gorm.AssetsOK rows1 w1.assetSeq ∧
      (∀ name, total rows1 name =
        total T.assets name - (if req.Name = name then req.Amount else 0)) ∧
      (∀ wid name, ¬ (wid = req.WalletID ∧ name = req.Name) →
        rows1.filter (pairFilter wid name).admits =
          T.assets.filter (pairFilter wid name).admits)) := by
  have hT1 : w.target true = some T := by simpa using hT
  cases hl : w.db.assets.filter (pairFilter req.WalletID req.Name).admits with
  | nil =>
    have hnoneT : lookup T.assets req.WalletID req.Name = none := by
      rw [lookup_eq_none, ← hsee, hl]
    have hfree := hok.free req.WalletID req.Name 0 (lookup_none_not_mem hnoneT)
    by_cases hpos : 0 < req.Amount
    · obtain ⟨w1, h1, hseq, _⟩ := Withdraw_new env true req w { ID := req.WalletID } T (hk _) hf
        hl hT1 hfree hpos
      exact Or.inl ⟨_, w1, h1, Or.inr hseq⟩
    · obtain ⟨w1, h1, hseq, hT2⟩ := Withdraw_new_nonpos env true req w { ID := req.WalletID } T
        (hk _) hf hl hT1 hfree (not_lt.mp hpos)
      refine Or.inr ⟨_, w1,
        T.assets ++ [⟨w.assetSeq + 1, req.WalletID, req.Name, 0 - req.Amount⟩],
        h1, by simpa using hT2, ?_, fun name => ?_, fun wid name hne => ?_⟩
      · rw [hseq]
        have hfree2 := hok.free req.WalletID req.Name (0 - req.Amount)
          (lookup_none_not_mem hnoneT)
        exact hok.append _ hfree2 rfl
      · rw [total_append, total_singleton]
        dsimp only
        split <;> ring
      · rw [List.filter_append]
        have : ([⟨w.assetSeq + 1, req.WalletID, req.Name, 0 - req.Amount⟩] :
            List Asset).filter (pairFilter wid name).admits = [] := by
          rw [List.filter_eq_nil_iff]
          intro x hx
          rw [List.mem_singleton] at hx
          subst hx
          rw [pairFilter_admits]
          intro h
          exact hne ⟨h.1.symm, h.2.symm⟩
        rw [this, List.append_nil]
  | cons a rest =>
    have haT : a ∈ T.assets.filter (pairFilter req.WalletID req.Name).admits := by
      rw [← hsee, hl]
      exact List.mem_cons_self _ _
    rw [List.mem_filter, pairFilter_admits] at haT
    obtain ⟨hamem, haw, han⟩ := haT
    have haid : a.ID ≠ 0 := by have := hok.1 a hamem; omega
    by_cases hlt : a.Amount < req.Amount
    · exact Or.inl ⟨_, _, Withdraw_short env true req w { ID := req.WalletID } a rest (hk _) hf
        hl hlt, Or.inl rfl⟩
    · obtain ⟨w1, h1, hseq, _, hT2⟩ := Withdraw_found env true req w { ID := req.WalletID } a rest
        T (hk _) hf hl hT1 haid (not_lt.mp hlt)
      refine Or.inr ⟨_, w1, gorm.upsertAsset T.assets { a with Amount := a.Amount - req.Amount },
        h1, by simpa using hT2, ?_, fun name => ?_, fun wid name hne => ?_⟩
      · rw [hseq]
        exact hok.upsert hamem rfl rfl rfl
      · rw [@total_upsert T.assets w.assetSeq hok a { a with Amount := a.Amount - req.Amount }
          hamem rfl rfl name, han]
        dsimp only
        split <;> ring
      · apply gorm.filter_upsertAsset_other
        · intro r hr hrid
          have : r = a := hok.sameAsset hr hamem hrid
          subst this
          rw [Bool.eq_false_iff, Ne, pairFilter_admits]
          intro h
          exact hne ⟨h.1.symm.trans haw, h.2.symm.trans han⟩
        · rw [Bool.eq_false_iff, Ne, pairFilter_admits]
          intro h
          exact hne ⟨h.1.symm.trans haw, h.2.symm.trans han⟩

/-- A `Deposit` inside a transaction whose rows hold, for the pair of the request,
what the committed rows hold: it succeeds and raises the sum of the asset in
the rows of the transaction by the amount. -/
theorem Deposit_in_scope (env : Env) (req : CreateDepositRequest) (w : World) (T : Tables)
    (hk : env.Knows req.WalletID) (hf : env.NoFault) (hT : w.tx = some T)
    (hok : gorm.AssetsOK T.assets w.assetSeq)
    (hsee : w.db.assets.filter (pairFilter req.WalletID req.Name).admits =
      T.assets.filter (pairFilter req.WalletID req.Name).admits) :
    ∃ r w1 rows1, Deposit env true req w = (.ok r, w1) ∧
      w1.tx = some { T with assets := rows1 } ∧ gorm.AssetsOK rows1 w1.assetSeq ∧
      (∀ name, total rows1 name =
        total T.assets name + (if req.Name = name then req.Amount else 0)) := by
  have hT1 : w.target true = some T := by simpa using hT
  cases hl : w.db.assets.filter (pairFilter req.WalletID req.Name).admits with
  | nil =>
    have hnoneT : lookup T.assets req.WalletID req.Name = none := by
      rw [lookup_eq_none, ← hsee, hl]
    have hfree := hok.free req.WalletID req.Name 0 (lookup_none_not_mem hnoneT)
    obtain ⟨w1, h1, hseq, hT2⟩ := Deposit_new env true req w { ID := req.WalletID } T (hk _) hf
      hl hT1 hfree
    refine ⟨_, w1, T.assets ++ [⟨w.assetSeq + 1, req.WalletID, req.Name, req.Amount⟩],
      h1, by simpa using hT2, ?_, fun name => ?_⟩
    · rw [hseq]
      exact hok.append _ (hok.free req.WalletID req.Name req.Amount
        (lookup_none_not_mem hnoneT)) rfl
    · rw [total_append, total_singleton]
  | cons a rest =>
    have haT : a ∈ T.assets.filter (pairFilter req.WalletID req.Name).admits := by
      rw [← hsee, hl]
      exact List.mem_cons_self _ _
    rw [List.mem_filter, pairFilter_admits] at haT
    obtain ⟨hamem, haw, han⟩ := haT
    have haid : a.ID ≠ 0 := by have := hok.1 a hamem; omega
    obtain ⟨w1, h1, hseq, hT2⟩ := Deposit_found env true req w { ID := req.WalletID } a rest T
      (hk _) hf hl hT1 haid
    refine ⟨_, w1, gorm.upsertAsset T.assets { a with Amount := a.Amount + req.Amount },
      h1, by simpa using hT2, ?_, fun name => ?_⟩
    · rw [hseq]
      exact hok.upsert hamem rfl rfl rfl
    · rw [@total_upsert T.assets w.assetSeq hok a { a with Amount := a.Amount + req.Amount }
        hamem rfl rfl name, han]
      dsimp only
      split <;> ring

end service
end asset

/-! ### Conservation under the executor -/

namespace scheduler

/-- Processing a stored transfer between two different known wallets, the store
performing its calls: whether the unit commits or is rolled back, the sum of
the balances of every asset over all wallets is as before, and the
constraints of the balance table are kept. -/
theorem process_conserves (env : Env) (w : World) (t : transaction.Transaction)
    (hf : env.NoFault) (hsrc : env.Knows t.SourceWalletID)
    (hdst : env.Knows t.DestinationWalletID)
    (hok : gorm.AssetsOK w.db.assets w.assetSeq)
    (htx : gorm.TransactionsOK w.db.transactions w.transactionSeq)
    (ht : t ∈ w.db.transactions)
    (hne : t.SourceWalletID ≠ t.DestinationWalletID) :
    gorm.AssetsOK (process env w t).db.assets (process env w t).assetSeq ∧
      ∀ name, asset.total (process env w t).db.assets name = asset.total w.db.assets name := by
  have htid : t.ID ≠ 0 := by have := htx.1 t ht; omega
  obtain ⟨w0, hb, b1, b2, b3, _, _, _⟩ := gorm.Begin_ok w (hf _)
  have hok0 : gorm.AssetsOK w.db.assets w0.assetSeq := by rw [b3]; exact hok
  rcases asset.service.Withdraw_in_scope env
      { WalletID := t.SourceWalletID, Name := t.AssetName, Amount := t.Amount } w0 w.db
      hsrc hf b2 hok0 (by rw [b1]) with
    ⟨e, w1, hW, hseq⟩ | ⟨r, w1, rows1, hW, hT1, hok1, htot1, hoth1⟩
  · have hdb1 : w1.db = w.db := by
      rw [(asset.service.Withdraw_step hW).2.2.2.2.1 rfl, b1]
    have hp : process env w t =
        (gorm.Rollback w1).logLine (LogEntry.Error "transaction failed" e) := by
      simp only [process, transaction.repository.InTransaction, hb, atomicUnit, hW]
    rw [hp]
    have hdb : ((gorm.Rollback w1).logLine (LogEntry.Error "transaction failed" e)).db = w.db :=
      hdb1
    have hs : ((gorm.Rollback w1).logLine (LogEntry.Error "transaction failed" e)).assetSeq =
        w1.assetSeq := rfl
    rw [hdb, hs]
    refine ⟨?_, fun _ => rfl⟩
    rcases hseq with h | h
    · rw [h, b3]; exact hok
    · rw [h, b3]; exact hok.mono
  · have hdb1 : w1.db = w.db := by
      rw [(asset.service.Withdraw_step hW).2.2.2.2.1 rfl, b1]
    have hsee : w1.db.assets.filter
        (asset.pairFilter t.DestinationWalletID t.AssetName).admits =
        rows1.filter (asset.pairFilter t.DestinationWalletID t.AssetName).admits := by
      rw [hdb1]
      exact (hoth1 t.DestinationWalletID t.AssetName (fun h => hne h.1.symm)).symm
    obtain ⟨y, w2, rows2, hD, hT2, hok2, htot2⟩ := asset.service.Deposit_in_scope env
      { WalletID := t.DestinationWalletID, Name := t.AssetName, Amount := t.Amount } w1
      { w.db with assets := rows1 } hdst hf hT1 hok1 hsee
    have hU := transaction.repository.UpdateTransaction_ok env true
      { t with Status := transaction.TransactionCompleted } w2
      { assets := rows2, transactions := w.db.transactions } (hf _) (by simpa using hT2) htid
    have hp : (process env w t).db.assets = rows2 ∧ (process env w t).assetSeq = w2.assetSeq := by
      simp only [process, transaction.repository.InTransaction, hb, atomicUnit, hW, hD, hU,
        gorm.Commit, hf _, World.record_tx, World.setTarget_true_tx]
      exact ⟨rfl, rfl⟩
    rw [hp.1, hp.2]
    refine ⟨hok2, fun name => ?_⟩
    rw [htot2 name, htot1 name]
    dsimp only
    ring

end scheduler

namespace transaction
namespace service

/-- Over a store with at most one balance record per pair, a request that
`ScheduleTransaction` answers with a record has different source and
destination wallets: no transfer from a wallet to itself is ever stored. -/
theorem ScheduleTransaction_distinct {env : Env} {req : ScheduleTransactionRequest}
    {w w1 : World} {row : Transaction} (hok : gorm.AssetsOK w.db.assets w.assetSeq)
    (h : ScheduleTransaction env req w = (.returns (.ok row), w1)) :
    req.SourceWalletID ≠ req.DestinationWalletID ∧
      row.SourceWalletID ≠ row.DestinationWalletID := by
  have hrow := (ScheduleTransaction_inv h).1
  have hreq : req.SourceWalletID ≠ req.DestinationWalletID := by
    intro hself
    unfold ScheduleTransaction at h
    split at h
    · cases h
    · rename_i h1
      have s1 := (asset.walletClient_inv h1).1
      split at h
      · cases h
      · rename_i h2
        have s2 := (asset.walletClient_inv h2).1
        split at h
        · cases h
        · rename_i assets w3 h3
          have s3 := (asset.repository.GetAsset_inv h3).2
          split at h
          · cases h
          · rename_i hlen
            rcases s3 with ⟨e, he⟩ | hrows
            · cases he
            · have hassets : assets = w.db.assets.filter req.assetFilters.admits := by
                injection hrows with hrows
                rw [hrows, s2, s1]
                rfl
              rw [hassets] at hlen
              exact hlen (lookup_self hok req hself)
  refine ⟨hreq, ?_⟩
  rw [hrow]
  exact hreq

end service
end transaction

namespace scheduler

/-- The inner loop of a cycle over stored pending transfers between different
known wallets keeps the sum of the balances of every asset. -/
theorem foldl_process_conserves (env : Env) (hf : env.NoFault)
    (ts : List transaction.Transaction) :
    ∀ w : World, gorm.AssetsOK w.db.assets w.assetSeq →
      gorm.TransactionsOK w.db.transactions w.transactionSeq →
      (ts.map (fun t => t.ID)).Nodup →
      (∀ t ∈ ts, t ∈ w.db.transactions ∧ t.Status = transaction.TransactionPending) →
      (∀ t ∈ ts, env.Knows t.SourceWalletID ∧ env.Knows t.DestinationWalletID ∧
        t.SourceWalletID ≠ t.DestinationWalletID) →
      ∀ name, asset.total (ts.foldl (process env) w).db.assets name =
        asset.total w.db.assets name := by
  induction ts with
  | nil =>
    intro w _ _ _ _ _ name
    rfl
  | cons t rest ih =>
    intro w hok htx hnd hmem hwal name
    rw [List.map_cons, List.nodup_cons] at hnd
    obtain ⟨htm, htp⟩ := hmem t (List.mem_cons_self _ _)
    obtain ⟨k1, k2, k3⟩ := hwal t (List.mem_cons_self _ _)
    obtain ⟨c1, c2⟩ := process_conserves env w t hf k1 k2 hok htx htm k3
    obtain ⟨p1, _, p3⟩ := process_transfer env w t htx htm htp
    have hrest : ∀ t2 ∈ rest, t2 ∈ (process env w t).db.transactions ∧
        t2.Status = transaction.TransactionPending := by
      intro t2 ht2
      obtain ⟨m2, s2⟩ := hmem t2 (List.mem_cons_of_mem _ ht2)
      refine ⟨?_, s2⟩
      rcases p3 with ⟨hdb, _⟩ | ⟨_, hkeep, _⟩
      · rw [hdb]; exact m2
      · apply hkeep t2 m2
        intro h
        exact hnd.1 (List.mem_map.mpr ⟨t2, ht2, h⟩)
    rw [List.foldl_cons,
      ih (process env w t) c1 p1 hnd.2 hrest
        (fun t2 ht2 => hwal t2 (List.mem_cons_of_mem _ ht2)) name,
      c2 name]

end scheduler

/-- C27 (amended): with every wallet known to the directory and the store
performing its calls and keeping its constraints, the processing of a stored
transfer whose source wallet differs from its destination wallet, whatever
its amount and whether its unit commits or is rolled back, leaves the sum of
the balances of every asset name over all wallets as it was; and so does a
cycle all of whose due transfers have a source wallet different from the
destination wallet.  These are the transfers the service can store: a record
returned by `ScheduleTransaction` has different source and destination
wallets.  The balance lookup is the one the code performs, through the
repository's own handle. -/
theorem C27_conservation_distinct_wallets (s : scheduler.Scheduler) (env : Env) (now : Time)
    (w : World) (hf : env.NoFault) (hk : ∀ id, env.Knows id)
    (hok : gorm.AssetsOK w.db.assets w.assetSeq)
    (htx : gorm.TransactionsOK w.db.transactions w.transactionSeq) :
    (∀ t ∈ w.db.transactions, t.SourceWalletID ≠ t.DestinationWalletID →
      ∀ name, asset.total (scheduler.process env w t).db.assets name =
        asset.total w.db.assets name) ∧
    ((∀ t ∈ w.db.transactions.filter (scheduler.dueFilter now).admits,
        t.SourceWalletID ≠ t.DestinationWalletID) →
      ∀ name, asset.total (scheduler.cycle s env now w).2.db.assets name =
        asset.total w.db.assets name) ∧
    (∀ req row, (transaction.service.ScheduleTransaction env req w).1 = .returns (.ok row) →
      row.SourceWalletID ≠ row.DestinationWalletID) := by
  refine ⟨fun t ht hne name =>
    (scheduler.process_conserves env w t hf (hk _) (hk _) hok htx ht hne).2 name, ?_,
    fun req row hrow => ?_⟩
  swap
  · cases hres : transaction.service.ScheduleTransaction env req w with
    | mk r w1 =>
      rw [hres] at hrow
      have hr : r = .returns (.ok row) := hrow
      subst hr
      exact (transaction.service.ScheduleTransaction_distinct hok hres).2
  intro hne name
  rw [scheduler.cycle_polled s env now w (hf _)]
  have hmem : ∀ t ∈ w.db.transactions.filter (scheduler.dueFilter now).admits,
      t ∈ w.db.transactions ∧ t.Status = transaction.TransactionPending :=
    fun t ht => scheduler.due_pending ht
  have hnd : ((w.db.transactions.filter (scheduler.dueFilter now).admits).map
      (fun t => t.ID)).Nodup :=
    List.Nodup.sublist (List.Sublist.map _ (List.filter_sublist _)) htx.2
  generalize w.db.transactions.filter (scheduler.dueFilter now).admits = ts at *
  generalize hw2 : (if ts.length = 0 then
      (w.record (Call.GetTransactions (scheduler.dueFilter now))).logLine
        (LogEntry.Info "no pending transactions")
    else w.record (Call.GetTransactions (scheduler.dueFilter now))) = w2
  have hdb2 : w2.db = w.db := by
    rw [← hw2]; split <;> simp [World.logLine]
  have hseq2 : w2.transactionSeq = w.transactionSeq := by
    rw [← hw2]; split <;> simp [World.logLine]
  have hseq3 : w2.assetSeq = w.assetSeq := by
    rw [← hw2]; split <;> simp [World.logLine]
  have h := scheduler.foldl_process_conserves env hf ts w2
    (by rw [hdb2, hseq3]; exact hok) (by rw [hdb2, hseq2]; exact htx) hnd
    (by rw [hdb2]; exact hmem) (fun t ht => ⟨hk _, hk _, hne t ht⟩) name
  rw [hdb2] at h
  simpa using h

/-- One cycle over the sample store completes the transfer of 4 "BTC" from wallet 1
to wallet 2, and over the store of four transfers completes one and fails
one: the sum of the "BTC" balances stays at 10 in both. -/
theorem C27_witness_sum_stays_ten :
    asset.total sampleWorld.db.assets "BTC" = 10 ∧
    asset.total (scheduler.cycle sampleScheduler calmEnv 100 sampleWorld).2.db.assets "BTC" =
      asset.total sampleWorld.db.assets "BTC" ∧
    asset.total (scheduler.cycle sampleScheduler calmEnv 100 batchWorld).2.db.assets "BTC" =
      asset.total batchWorld.db.assets "BTC" := by
  have h1 := (C27_conservation_distinct_wallets sampleScheduler calmEnv 100 sampleWorld
    calmEnv_noFault calmEnv_knows (by decide) (by decide)).2.1 (by decide) "BTC"
  have h2 := (C27_conservation_distinct_wallets sampleScheduler calmEnv 100 batchWorld
    calmEnv_noFault calmEnv_knows (by decide) (by decide)).2.1 (by decide) "BTC"
  exact ⟨by decide!, h1, h2⟩
